import Mathlib

/-!
# Amiga Blitter (Machines/Amiga/Blitter.cpp)

A shallow embedding of the Blitter of Clock Signal's Amiga emulation and a
verification of its register model and of its two transfer algorithms.

Machine integers are natural numbers (or integers, for the signed ones) with
explicit truncation: `u8`, `u16`, `u32` are the conversions to `uint8_t`,
`uint16_t`, `uint32_t`.
-/

namespace Amiga

/-- Conversion to `uint8_t`. -/
def u8 (n : Nat) : Nat := n % 256

/-- Conversion to `uint16_t`. -/
def u16 (n : Nat) : Nat := n % 65536

/-- Conversion to `uint32_t`. -/
def u32 (n : Nat) : Nat := n % 4294967296

/-! ## Fill-mode lookup tables -/

/-- The `while(bit < 0x10)` loop of `fill_nibble`, on the triple of its locals
`bit`, `carry` and `fill_output` (all `uint8_t`); it returns the final `carry`
and `fill_output`. The operands of `&`, `~` and `^` are promoted to `int`, so
`~carry` is the 32-bit pattern `0xffffffff - carry`; the assignments truncate
back to eight bits. `bit` starts at 1 and doubles, so the loop leaves after four
passes; the first argument bounds the number of passes. -/
def fill_nibble_loop (is_exclusive : Bool) (nibble : Nat) :
    Nat → Nat → Nat → Nat → Nat × Nat
  | 0, _, carry, fill_output => (carry, fill_output)
  | fuel + 1, bit, carry, fill_output =>
    if bit < 0x10 then
      let both := nibble &&& bit
      let pre_toggle := if is_exclusive then both else both &&& (0xffffffff - carry)
      let post_toggle := if is_exclusive then 0 else both &&& carry
      let carry1 := u8 (carry ^^^ pre_toggle)
      let fill_output1 := u8 (fill_output ||| carry1)
      let carry2 := u8 (carry1 ^^^ post_toggle)
      fill_nibble_loop is_exclusive nibble fuel (u8 (bit <<< 1)) (u8 (carry2 <<< 1)) fill_output1
    else (carry, fill_output)

/-- The template `fill_nibble<wants_carry>(is_exclusive, carry, nibble)`: the
final carry flag when `wants_carry`, the output nibble otherwise. -/
def fill_nibble (wants_carry : Bool) (is_exclusive : Bool) (carry nibble : Nat) : Nat :=
  let r := fill_nibble_loop is_exclusive (u8 nibble) 8 0x01 (u8 carry) 0
  if wants_carry then r.1 >>> 4 else r.2

/-- One 32-bit word of `fill_carries`: bit `16 * carry + nibble` holds the exit
carry of that entry. -/
def fill_carries_word (is_exclusive : Bool) : Nat :=
  (List.range 32).foldl
    (fun acc k => acc ||| u32 (fill_nibble true is_exclusive (k / 16) (k % 16) <<< k)) 0

/-- The table `fill_carries`: entry 0 is inclusive fill, entry 1 exclusive fill. -/
def fill_carries : List Nat :=
  [fill_carries_word false, fill_carries_word true]

/-- One 32-bit word of `fill_values`: eight output nibbles, for the input
nibbles `base .. base + 7`, nibble `k` at bits `4k .. 4k+3`. -/
def fill_values_word (is_exclusive : Bool) (carry base : Nat) : Nat :=
  (List.range 8).foldl
    (fun acc k => acc ||| u32 (fill_nibble false is_exclusive carry (base + k) <<< (4 * k))) 0

/-- The table `fill_values`, eight words in the order of the source. -/
def fill_values : List Nat :=
  [ fill_values_word false 0 0x0, fill_values_word false 0 0x8,
    fill_values_word false 1 0x0, fill_values_word false 1 0x8,
    fill_values_word true 0 0x0, fill_values_word true 0 0x8,
    fill_values_word true 1 0x0, fill_values_word true 1 0x8 ]

/-- The lookup key the engine forms: `(output & 0xf) | (ongoing_carry << 4) | type_mask`. -/
def fill_index (output ongoing_carry type_mask : Nat) : Nat :=
  (output &&& 0xf) ||| (ongoing_carry <<< 4) ||| type_mask

/-- The nibble the engine reads from `fill_values` at key `total_index`. -/
def fill_values_lookup (total_index : Nat) : Nat :=
  (fill_values.getD (total_index >>> 3) 0 >>> ((total_index &&& 7) * 4)) &&& 0xf

/-- The carry the engine reads from `fill_carries` at key `total_index`. -/
def fill_carries_lookup (total_index : Nat) : Nat :=
  (fill_carries.getD (total_index >>> 5) 0 >>> (total_index &&& 31)) &&& 1

/-! ## Minterm evaluator -/

/-- The entry of the 8-entry truth table selected by one bit of each of A, B
and C: the chipset's key is `4A + 2B + C`, so that table `0xf0` is "A". -/
def minterm_key (a b c : Bool) : Nat := 4 * a.toNat + 2 * b.toNat + c.toNat

/-- Modelled from the spec: the minterm evaluator `apply_minterm<uint16_t>` of
Minterms.hpp, which this file includes and which is absent. Given three 16-bit
words A, B, C and an 8-bit truth table it returns the 16-bit word whose bit at
each of the sixteen positions is the truth-table entry selected by that
position's (A, B, C) bit triple. -/
def apply_minterm (a b c minterm : Nat) : Nat :=
  (List.range 16).foldl
    (fun acc i =>
      acc ||| (((minterm >>> minterm_key (a.testBit i) (b.testBit i) (c.testBit i)) &&& 1) <<< i))
    0

/-! ## Register file -/

/-- Flags accepted by the interrupt sink; the Blitter posts only its own. -/
inductive InterruptFlag
  | Blitter
  deriving DecidableEq, Repr

/-- The state of a `Blitter` together with what it shares with its host.

* `ram_`, `ram_mask_`, `pointer_`, `modulos_` are the members inherited from the
  DMA device base: the host's word-addressed memory (`uint16_t` words), its
  address mask, and four `uint32_t` word pointers and modulos, one per channel
  A, B, C, D (index 0..3).
* `width_`, `height_`, `line_direction_` are `int`s that only ever hold
  non-negative values; `shifts_` and `line_sign_` are `int`s; `direction_`,
  `a32_`, `b32_` are `uint32_t`; the masks and data latches are `uint16_t`;
  `minterms_` is `uint8_t`.
* `outputs`, `writes` and `interrupts` are not members of the class: they record,
  in order, every word merged into `not_zero_flag_`, every store to `ram_`
  (address and word) and every flag passed to `posit_interrupt`. -/
structure Blitter where
  ram_ : Nat → Nat
  ram_mask_ : Nat
  (pointer_0 pointer_1 pointer_2 pointer_3 : Nat)
  (modulos_0 modulos_1 modulos_2 modulos_3 : Nat)
  (width_ height_ : Nat)
  (shifts_0 shifts_1 : Int)
  (a_mask_0 a_mask_1 : Nat)
  line_mode_ : Bool
  one_dot_ : Bool
  line_direction_ : Nat
  line_sign_ : Int
  direction_ : Nat
  inclusive_fill_ : Bool
  exclusive_fill_ : Bool
  fill_carry_ : Bool
  (channel_enables_0 channel_enables_1 channel_enables_2 channel_enables_3 : Bool)
  minterms_ : Nat
  (a32_ b32_ : Nat)
  (a_data_ b_data_ c_data_ : Nat)
  not_zero_flag_ : Bool
  outputs : List Nat
  writes : List (Nat × Nat)
  interrupts : List InterruptFlag

/-- The method `Blitter::set_control(index, value)`; `index` ranges over the two
slots of `shifts_`, `value` is a `uint16_t`. -/
def set_control (s : Blitter) (index : Fin 2) (value : Nat) : Blitter :=
  let s1 : Blitter :=
    if index ≠ 0 then
      let one_dot := (value &&& 0x0002) != 0
      let exclusive_fill := (value &&& 0x0010) != 0
      { s with
        line_mode_ := (value &&& 0x0001) != 0
        one_dot_ := one_dot
        line_direction_ := (value >>> 2) &&& 7
        line_sign_ := if (value &&& 0x0040) != 0 then -1 else 1
        direction_ := if one_dot then 0xffffffff else 1
        exclusive_fill_ := exclusive_fill
        inclusive_fill_ := !exclusive_fill && ((value &&& 0x0008) != 0)
        fill_carry_ := (value &&& 0x0004) != 0 }
    else
      { s with
        minterms_ := value &&& 0xff
        channel_enables_3 := (value &&& 0x100) != 0
        channel_enables_2 := (value &&& 0x200) != 0
        channel_enables_1 := (value &&& 0x400) != 0
        channel_enables_0 := (value &&& 0x800) != 0 }
  if index = 0 then { s1 with shifts_0 := ((value >>> 12 : Nat) : Int) }
  else { s1 with shifts_1 := ((value >>> 12 : Nat) : Int) }

/-- The method `Blitter::set_first_word_mask`. -/
def set_first_word_mask (s : Blitter) (value : Nat) : Blitter :=
  { s with a_mask_0 := value }

/-- The method `Blitter::set_last_word_mask`. -/
def set_last_word_mask (s : Blitter) (value : Nat) : Blitter :=
  { s with a_mask_1 := value }

/-- The method `Blitter::set_size`. -/
def set_size (s : Blitter) (value : Nat) : Blitter :=
  let width := value &&& 0x3f
  let width := if width = 0 then 0x40 else width
  let height := value >>> 6
  let height := if height = 0 then 1024 else height
  { s with width_ := width, height_ := height }

/-- The method `Blitter::set_minterms`. -/
def set_minterms (s : Blitter) (value : Nat) : Blitter :=
  { s with minterms_ := value &&& 0xff }

/-- The method `Blitter::set_data(channel, value)`; channels other than 0, 1, 2
fall to the `default` case. -/
def set_data (s : Blitter) (channel : Nat) (value : Nat) : Blitter :=
  match channel with
  | 0 => { s with a_data_ := value }
  | 1 => { s with b_data_ := value }
  | 2 => { s with c_data_ := value }
  | _ => s

/-- The method `Blitter::get_status`. -/
def get_status (s : Blitter) : Nat :=
  (if s.not_zero_flag_ then 0x0000 else 0x2000) ||| (if s.height_ ≠ 0 then 0x4000 else 0x0000)


/-! ## Transfer engine -/

/-- Conversion of a `uint32_t` to `int` (two's complement). -/
def to_int32 (n : Nat) : Int :=
  if u32 n < 2147483648 then (u32 n : Int) else (u32 n : Int) - 4294967296

/-- Conversion of an `int` to `uint32_t`. -/
def of_int32 (i : Int) : Nat := (i % 4294967296).toNat

/-- Conversion of an unsigned value to `int16_t` (two's complement). -/
def to_int16 (n : Nat) : Int :=
  if u16 n < 32768 then (u16 n : Int) else (u16 n : Int) - 65536

/-- The compound assignment `error += modulo` of an `int` and a `uint32_t`: the sum
is formed as `uint32_t` and converted back. -/
def add_int_u32 (error : Int) (modulo : Nat) : Int :=
  to_int32 (of_int32 error + u32 modulo)

/-- The operation `x & 15` on a two's-complement `int`: the residue of `x` modulo 16
in `0 .. 15`. -/
def int_and_15 (x : Int) : Int := x % 16

/-- The flag `LEFT` of a line step. -/
def LEFT : Nat := 1 <<< 0

/-- The flag `RIGHT` of a line step. -/
def RIGHT : Nat := 1 <<< 1

/-- The flag `UP` of a line step. -/
def UP : Nat := 1 <<< 2

/-- The flag `DOWN` of a line step. -/
def DOWN : Nat := 1 <<< 3

/-- The initial value of `error` in line mode: `int16_t(pointer_[0] << 1) >> 1`. -/
def line_error_seed (s : Blitter) : Int :=
  to_int16 (u32 (s.pointer_0 <<< 1)) >>> 1

/-- The `if(draw_)` block of the line loop: a read-modify-write of the word at
channel D's pointer. -/
def line_draw (s : Blitter) : Blitter :=
  let address := s.pointer_3 &&& s.ram_mask_
  let c_data := s.ram_ address
  let output := apply_minterm (u16 (s.a_data_ >>> s.shifts_0.toNat)) s.b_data_ c_data s.minterms_
  { s with
    c_data_ := c_data
    ram_ := fun i => if i = address then output else s.ram_ i
    not_zero_flag_ := s.not_zero_flag_ || (output != 0)
    outputs := s.outputs ++ [output]
    writes := s.writes ++ [(address, output)] }

/-- The value of `step` a pass of the line loop computes from `line_direction_`
and the sign of `error`. -/
def line_step_flags (line_direction : Nat) (error : Int) : Nat :=
  let step :=
    if line_direction &&& 4 ≠ 0 then (if line_direction &&& 1 ≠ 0 then LEFT else RIGHT)
    else (if line_direction &&& 1 ≠ 0 then UP else DOWN)
  if error < 0 then step
  else
    step |||
      (if line_direction &&& 4 ≠ 0 then (if line_direction &&& 2 ≠ 0 then UP else DOWN)
       else (if line_direction &&& 2 ≠ 0 then LEFT else RIGHT))

/-- The horizontal part of a line step, from `if(step & LEFT)` to `shifts_[0] &= 15`. -/
def line_move_x (s : Blitter) (step : Nat) : Blitter :=
  let s1 : Blitter :=
    if step &&& LEFT ≠ 0 then
      let shift := s.shifts_0 - 1
      { s with
        shifts_0 := shift
        pointer_3 := if shift = -1 then u32 (s.pointer_3 + 0xffffffff) else s.pointer_3 }
    else if step &&& RIGHT ≠ 0 then
      let shift := s.shifts_0 + 1
      { s with
        shifts_0 := shift
        pointer_3 := if shift = 16 then u32 (s.pointer_3 + 1) else s.pointer_3 }
    else s
  { s1 with shifts_0 := int_and_15 s1.shifts_0 }

/-- The vertical part of a line step, on the state and `draw_`. -/
def line_move_y (s : Blitter) (step : Nat) (draw : Bool) : Blitter × Bool :=
  if step &&& UP ≠ 0 then
    ({ s with pointer_3 := u32 (s.pointer_3 + (4294967296 - u32 s.modulos_2)) }, true)
  else if step &&& DOWN ≠ 0 then
    ({ s with pointer_3 := u32 (s.pointer_3 + s.modulos_2) }, true)
  else (s, draw)

/-- One pass of the body of `while(height_--)` in line mode, on the state and the
locals `error` and `draw_`. -/
def line_step (st : Blitter × Int × Bool) : Blitter × Int × Bool :=
  let s := st.1
  let error := st.2.1
  let draw := st.2.2
  let s1 := if draw then line_draw s else s
  let draw1 := if draw then (draw && !s.one_dot_) else draw
  let step := line_step_flags s1.line_direction_ error
  let error1 := if error < 0 then add_int_u32 error s1.modulos_1 else add_int_u32 error s1.modulos_0
  let s2 := line_move_x s1 step
  let r := line_move_y s2 step draw1
  (r.1, error1, r.2)

/-- The loop `while(height_--)` of line mode. The first argument is the value of
`height_` when the condition is tested; a pass runs with `height_` already
decremented. (On exit the source leaves `height_` at -1 and at once overwrites
it with 0.) -/
def line_loop : Nat → Blitter × Int × Bool → Blitter × Int × Bool
  | 0, st => st
  | n + 1, st => line_loop n (line_step ({ st.1 with height_ := n }, st.2))

/-- One pass of the nibble loop `for(int c = 0; c < 16; c += 4)` of fill mode, on
the locals `output`, `ongoing_carry` and `fill_output`. -/
def fill_word_step (type_mask : Nat) (st : Nat × Nat × Nat) (c : Nat) : Nat × Nat × Nat :=
  let output := st.1
  let ongoing_carry := st.2.1
  let fill_output := st.2.2
  let total_index := fill_index output ongoing_carry type_mask
  (u16 (output >>> 4), fill_carries_lookup total_index,
    u16 (fill_output ||| (fill_values_lookup total_index <<< c)))

/-- The fill post-processing of one output word: the filled word and the carry
that leaves it. -/
def fill_word (exclusive_fill : Bool) (output : Nat) (fill_carry : Bool) : Nat × Bool :=
  let type_mask := if exclusive_fill then 1 <<< 5 else 0
  let r := [0, 4, 8, 12].foldl (fill_word_step type_mask) (output, fill_carry.toNat, 0)
  (r.2.2, r.2.1 != 0)

/-- The barrel shifter of copy mode applied to a 32-bit accumulator: a right shift
in ascending mode, a left rotation in descending mode (`one_dot_`). A shift of a
`uint32_t` by 32, which the source performs when the amount is 0, is taken to
give 0; the low sixteen bits of the result do not depend on that choice. -/
def barrel_shift (one_dot : Bool) (acc : Nat) (shift : Int) : Nat :=
  if !one_dot then u16 (acc >>> shift.toNat)
  else u16 (u32 (acc <<< shift.toNat) ||| (acc >>> (32 - shift).toNat))

/-- The mask applied to channel A's word in column `x`: the first-word mask in
column 0, the last-word mask in column `width_ - 1`, both if they coincide. -/
def column_mask (s : Blitter) (x : Nat) : Nat :=
  let a_mask := 0xffff
  let a_mask := if x = 0 then a_mask &&& s.a_mask_0 else a_mask
  if x = s.width_ - 1 then a_mask &&& s.a_mask_1 else a_mask

/-- Column step, channel A: `if(channel_enables_[0])` read the latch and move the
pointer. -/
def read_channel_a (s : Blitter) : Blitter :=
  if s.channel_enables_0 then
    { s with
      a_data_ := s.ram_ (s.pointer_0 &&& s.ram_mask_)
      pointer_0 := u32 (s.pointer_0 + s.direction_) }
  else s

/-- Column step: `a32_ = (a32_ << 16) | (a_data_ & a_mask)`. -/
def shift_in_a (s : Blitter) (a_mask : Nat) : Blitter :=
  { s with a32_ := u32 (s.a32_ <<< 16) ||| (s.a_data_ &&& a_mask) }

/-- Column step, channel B: `if(channel_enables_[1])` read the latch and move the
pointer. -/
def read_channel_b (s : Blitter) : Blitter :=
  if s.channel_enables_1 then
    { s with
      b_data_ := s.ram_ (s.pointer_1 &&& s.ram_mask_)
      pointer_1 := u32 (s.pointer_1 + s.direction_) }
  else s

/-- Column step: `b32_ = (b32_ << 16) | b_data_`. -/
def shift_in_b (s : Blitter) : Blitter :=
  { s with b32_ := u32 (s.b32_ <<< 16) ||| s.b_data_ }

/-- Column step, channel C: `if(channel_enables_[2])` read the latch and move the
pointer. -/
def read_channel_c (s : Blitter) : Blitter :=
  if s.channel_enables_2 then
    { s with
      c_data_ := s.ram_ (s.pointer_2 &&& s.ram_mask_)
      pointer_2 := u32 (s.pointer_2 + s.direction_) }
  else s

/-- Column step: the output word, from the barrel shifter, the minterm evaluator
and the fill post-processing, with the row's `fill_carry` after it. -/
def column_output (s : Blitter) (fill_carry : Bool) : Nat × Bool :=
  let a := barrel_shift s.one_dot_ s.a32_ s.shifts_0
  let b := barrel_shift s.one_dot_ s.b32_ s.shifts_1
  let output := apply_minterm a b s.c_data_ s.minterms_
  if s.exclusive_fill_ || s.inclusive_fill_ then fill_word s.exclusive_fill_ output fill_carry
  else (output, fill_carry)

/-- Column step: `not_zero_flag_ |= output`. -/
def merge_not_zero (s : Blitter) (output : Nat) : Blitter :=
  { s with
    not_zero_flag_ := s.not_zero_flag_ || (output != 0)
    outputs := s.outputs ++ [output] }

/-- Column step, channel D: `if(channel_enables_[3])` store the output word and
move the pointer. -/
def write_channel_d (s : Blitter) (output : Nat) : Blitter :=
  if s.channel_enables_3 then
    { s with
      ram_ := fun i => if i = (s.pointer_3 &&& s.ram_mask_) then output else s.ram_ i
      writes := s.writes ++ [(s.pointer_3 &&& s.ram_mask_, output)]
      pointer_3 := u32 (s.pointer_3 + s.direction_) }
  else s

/-- The state in which column `x` computes its output: after the reads of
channels A, B and C. -/
def column_inputs (s : Blitter) (x : Nat) : Blitter :=
  read_channel_c (shift_in_b (read_channel_b (shift_in_a (read_channel_a s) (column_mask s x))))

/-- One pass of the column loop of copy mode, on the state and the row's local
`fill_carry`; `x` is the column. -/
def copy_column (st : Blitter × Bool) (x : Nat) : Blitter × Bool :=
  let s := column_inputs st.1 x
  let filled := column_output s st.2
  (write_channel_d (merge_not_zero s filled.1) filled.1, filled.2)

/-- One pass of the row loop of copy mode: `width_` columns, then the modulo of
each channel is added to its pointer, scaled by its enable and by `direction_`. -/
def copy_row (s : Blitter) : Blitter :=
  let s := ((List.range s.width_).foldl copy_column (s, s.fill_carry_)).1
  { s with
    pointer_0 := u32 (s.pointer_0 + s.modulos_0 * s.channel_enables_0.toNat * s.direction_)
    pointer_1 := u32 (s.pointer_1 + s.modulos_1 * s.channel_enables_1.toNat * s.direction_)
    pointer_2 := u32 (s.pointer_2 + s.modulos_2 * s.channel_enables_2.toNat * s.direction_)
    pointer_3 := u32 (s.pointer_3 + s.modulos_3 * s.channel_enables_3.toNat * s.direction_) }

/-- The copy-mode branch of `advance_dma`: both accumulators are cleared and
`height_` rows are run. -/
def copy_transfer (s : Blitter) : Blitter :=
  let s : Blitter := { s with a32_ := 0, b32_ := 0 }
  (List.range s.height_).foldl (fun st _ => copy_row st) s

/-- The line-mode branch of `advance_dma`, after its assertion. -/
def line_transfer (s : Blitter) : Blitter :=
  (line_loop s.height_ (s, line_error_seed s, true)).1

/-- The end of `advance_dma`: the completion interrupt is posted and `height_` is
cleared. -/
def complete (s : Blitter) : Blitter :=
  { s with interrupts := s.interrupts ++ [InterruptFlag.Blitter], height_ := 0 }

/-- The method `Blitter::advance_dma`. The result is `none` when the assertion
`b_data_ == 0xffff` of line mode fails, which aborts (`<cassert>` is included
before `NDEBUG` is defined, so the assertion is compiled in); otherwise it is
the returned flag and the state after the call. -/
def advance_dma (s : Blitter) : Option (Bool × Blitter) :=
  if s.height_ = 0 then some (false, s)
  else
    let s : Blitter := { s with not_zero_flag_ := false }
    if s.line_mode_ then
      if s.b_data_ = 0xffff then some (true, complete (line_transfer s))
      else none
    else some (true, complete (copy_transfer s))

/-! ## Host operations and reachable states -/

/-- Modelled from the spec: the state at construction. The member initialisers
are in the class declaration, which is absent; the spec has all state created
"with zeroed registers", `direction_` and `line_sign_` being one of 1 and -1 and
so 1. The memory and its address mask are the host's. -/
def initial (ram : Nat → Nat) (ram_mask : Nat) : Blitter :=
  { ram_ := ram, ram_mask_ := ram_mask,
    pointer_0 := 0, pointer_1 := 0, pointer_2 := 0, pointer_3 := 0,
    modulos_0 := 0, modulos_1 := 0, modulos_2 := 0, modulos_3 := 0,
    width_ := 0, height_ := 0, shifts_0 := 0, shifts_1 := 0,
    a_mask_0 := 0, a_mask_1 := 0,
    line_mode_ := false, one_dot_ := false, line_direction_ := 0, line_sign_ := 1,
    direction_ := 1, inclusive_fill_ := false, exclusive_fill_ := false, fill_carry_ := false,
    channel_enables_0 := false, channel_enables_1 := false, channel_enables_2 := false,
    channel_enables_3 := false,
    minterms_ := 0, a32_ := 0, b32_ := 0, a_data_ := 0, b_data_ := 0, c_data_ := 0,
    not_zero_flag_ := false, outputs := [], writes := [], interrupts := [] }

/-- Modelled from the spec: the host's writes to the pointer registers, whose
setter is in the absent DMA device base: channel `id` receives the word pointer
`value`. -/
def set_pointer (s : Blitter) (id : Fin 4) (value : Nat) : Blitter :=
  match id with
  | 0 => { s with pointer_0 := u32 value }
  | 1 => { s with pointer_1 := u32 value }
  | 2 => { s with pointer_2 := u32 value }
  | 3 => { s with pointer_3 := u32 value }

/-- Modelled from the spec: the host's writes to the modulo registers, whose
setter is in the absent DMA device base: channel `id` receives the modulo
`value`. -/
def set_modulo (s : Blitter) (id : Fin 4) (value : Nat) : Blitter :=
  match id with
  | 0 => { s with modulos_0 := u32 value }
  | 1 => { s with modulos_1 := u32 value }
  | 2 => { s with modulos_2 := u32 value }
  | 3 => { s with modulos_3 := u32 value }

/-- The calls a host can make on a Blitter: the setters and the trigger. -/
inductive Op
  | set_control (index : Fin 2) (value : Nat)
  | set_first_word_mask (value : Nat)
  | set_last_word_mask (value : Nat)
  | set_size (value : Nat)
  | set_minterms (value : Nat)
  | set_data (channel : Nat) (value : Nat)
  | set_pointer (id : Fin 4) (value : Nat)
  | set_modulo (id : Fin 4) (value : Nat)
  | advance_dma

/-- The state after a call, if the call is well formed (register values are
`uint16_t`) and does not abort. -/
def Op.run : Op → Blitter → Option Blitter
  | .set_control index value, s =>
    if value < 65536 then some (Amiga.set_control s index value) else none
  | .set_first_word_mask value, s =>
    if value < 65536 then some (Amiga.set_first_word_mask s value) else none
  | .set_last_word_mask value, s =>
    if value < 65536 then some (Amiga.set_last_word_mask s value) else none
  | .set_size value, s => if value < 65536 then some (Amiga.set_size s value) else none
  | .set_minterms value, s => if value < 65536 then some (Amiga.set_minterms s value) else none
  | .set_data channel value, s =>
    if value < 65536 then some (Amiga.set_data s channel value) else none
  | .set_pointer id value, s => some (Amiga.set_pointer s id value)
  | .set_modulo id value, s => some (Amiga.set_modulo s id value)
  | .advance_dma, s => (Amiga.advance_dma s).map Prod.snd

/-- The states a host can bring a Blitter to: from construction, by any
sequence of setter calls and triggers. -/
inductive Reachable : Blitter → Prop
  | construct (ram : Nat → Nat) (ram_mask : Nat) : Reachable (initial ram ram_mask)
  | call (op : Op) (s t : Blitter) : Reachable s → op.run s = some t → Reachable t

/-- The registers a transfer only reads, `shifts_[0]` apart: `line_mode_`,
`one_dot_`, `line_direction_`, `line_sign_`, `direction_`, `exclusive_fill_`,
`inclusive_fill_`, `fill_carry_`, `minterms_`, the four channel enables,
`shifts_[1]`, both A masks, `width_`, the four modulos, and the address mask. -/
def read_only_registers (s : Blitter) :
    (Bool × Bool × Nat × Int × Nat) × (Bool × Bool × Bool × Nat) ×
      (Bool × Bool × Bool × Bool) × (Int × Nat × Nat × Nat) × (Nat × Nat × Nat × Nat) × Nat :=
  ((s.line_mode_, s.one_dot_, s.line_direction_, s.line_sign_, s.direction_),
   (s.exclusive_fill_, s.inclusive_fill_, s.fill_carry_, s.minterms_),
   (s.channel_enables_0, s.channel_enables_1, s.channel_enables_2, s.channel_enables_3),
   (s.shifts_1, s.a_mask_0, s.a_mask_1, s.width_),
   (s.modulos_0, s.modulos_1, s.modulos_2, s.modulos_3),
   s.ram_mask_)

/-- The not-zero flag of `s` is the disjunction of "this word is not zero" over
the output words computed since the log of outputs was `old`. -/
def flag_tracks (old : List Nat) (s : Blitter) : Prop :=
  ∃ new, s.outputs = old ++ new ∧ s.not_zero_flag_ = new.any (fun w => w != 0)

/-- The exclusive-or of `c` and of bits `0 .. i` of `n`. -/
def xor_chain (c : Bool) (n : Nat) : Nat → Bool
  | 0 => xor c (n.testBit 0)
  | i + 1 => xor (xor_chain c n i) (n.testBit (i + 1))

/-! ## Auxiliary definitions for the statements and proofs -/

/-- What a transfer must not touch: the read-only registers and the log of
interrupts. -/
def frame (s : Blitter) := (read_only_registers s, s.interrupts)

/-- The log of output words and the not-zero flag. -/
def flag_log (s : Blitter) : List Nat × Bool := (s.outputs, s.not_zero_flag_)

/-- A line of one pixel to the right: line mode with `line_direction_` 4, the B
latch all ones, height 1, on a fresh Blitter. -/
def line_example : Blitter :=
  set_size (set_data (set_control (initial (fun _ => 0) 0xff) 1 0x0011) 1 0xffff) 0x0041

/-- The fill flags of a state. -/
def fill_flags (s : Blitter) : Bool × Bool := (s.exclusive_fill_, s.inclusive_fill_)

/-- The two shift amounts of a state. -/
def shift_pair (s : Blitter) : Int × Int := (s.shifts_0, s.shifts_1)

/-- Both shift amounts lie in `0 .. 15`. -/
def shifts_in_range (s : Blitter) : Prop :=
  (0 ≤ s.shifts_0 ∧ s.shifts_0 ≤ 15) ∧ (0 ≤ s.shifts_1 ∧ s.shifts_1 ≤ 15)

/-- The one-pixel line to the left from shift 0: `line_direction_` 5. -/
def line_left_example : Blitter :=
  set_size (set_data (set_control (initial (fun _ => 0) 0xff) 1 0x0015) 1 0xffff) 0x0041

/-- What the reads of a column leave alone on channel D's side. -/
def d_side (s : Blitter) : (Nat → Nat) × Nat × List (Nat × Nat) :=
  (s.ram_, s.pointer_3, s.writes)

/-- The latches and accumulators. -/
def latches (s : Blitter) : Nat × Nat × Nat × Nat × Nat :=
  (s.a_data_, s.b_data_, s.c_data_, s.a32_, s.b32_)

/-- A one-word copy from word 5 to word 9 of a memory that holds `i + 7` at
address `i`: minterms `0xf0`, channels A and D enabled, both masks `0xffff`. -/
def copy_example : Blitter :=
  set_pointer
    (set_pointer
      (set_size
        (set_last_word_mask
          (set_first_word_mask
            (set_control (initial (fun i => (i + 7) % 65536) 0xff) 0 0x09f0) 0xffff) 0xffff) 0x0041)
      0 5)
    3 9

/-- The invariant of a transfer through channel D alone that started in `s0`:
the read-only registers are those of `s0`, the latches and accumulators are 0,
and `k` words have been stored, each the evaluator's result for (0, 0, 0). -/
def d_only_inv (s0 : Blitter) (k : Nat) (s : Blitter) : Prop :=
  frame s = frame s0 ∧ latches s = (0, 0, 0, 0, 0) ∧
  ∃ new, s.writes = s0.writes ++ new ∧ new.length = k ∧
    ∀ p ∈ new, p.2 = apply_minterm 0 0 0 s0.minterms_

/-- A one-word transfer through channel D alone with the B latch all ones and
minterms `0xcc` ("B"), on a fresh Blitter. -/
def d_only_example : Blitter :=
  set_size (set_data (set_control (initial (fun _ => 0) 0xff) 0 0x01cc) 1 0xffff) 0x0041

/-- A transfer of two rows of two words through channel D alone with minterms
`0xff`, on a fresh Blitter. -/
def d_only_zero_example : Blitter :=
  set_size (set_control (initial (fun _ => 0) 0xff) 0 0x01ff) 0x0082

/-- The exclusive-or of `c` and of `f 0 .. f (k - 1)`: the carry of a serial fill
that entered with `c`, after the bits `f 0 .. f (k - 1)`. -/
def xor_bits (c : Bool) (f : Nat → Bool) : Nat → Bool
  | 0 => c
  | k + 1 => xor (xor_bits c f k) (f k)

/-- Sign extension of the low 15 bits of `n` (bit 14 is the sign). -/
def sign_extend_15 (n : Nat) : Int :=
  if n % 32768 < 16384 then ((n % 32768 : Nat) : Int) else ((n % 32768 : Nat) : Int) - 32768

/-- A line-mode state whose channel A pointer holds `0x4000`. -/
def seed_example : Blitter :=
  set_pointer line_example 0 0x4000

/-- A one-pixel line in the octant `line_direction_` 6 (`0b110`), from shift 0 at
word 100 of a bitmap whose rows are 40 words apart. -/
def octant_example : Blitter :=
  set_pointer
    (set_modulo (set_size (set_data (set_control (initial (fun _ => 0) 0xff) 1 0x0019) 1 0xffff)
      0x0041) 2 40)
    3 100

/-- The state and the locals `error` and `draw_` after the first `k` passes of the
line loop entered with `height_` equal to `n` (all `n` passes if `k` exceeds
`n`). -/
def line_after : Nat → Nat → Blitter × Int × Bool → Blitter × Int × Bool
  | 0, _, st => st
  | _ + 1, 0, st => st
  | n + 1, k + 1, st => line_after n k (line_step ({ st.1 with height_ := n }, st.2))

/-- Reduction of an integer to the range of a 32-bit two's-complement `int`. -/
def wrap32 (x : Int) : Int := (x + 2147483648) % 4294967296 - 2147483648

/-- The state and the locals `error` and `draw_` with which `advance_dma` enters
the line loop: the not-zero flag cleared, the error term seeded from
`pointer_[0]`, `draw_` set. -/
def line_start (s : Blitter) : Blitter × Int × Bool :=
  ({ s with not_zero_flag_ := false }, line_error_seed s, true)

/-- The error term before pass `k` of the line loop of a transfer triggered in
state `s`. -/
def line_error_at (s : Blitter) (k : Nat) : Int :=
  (line_after s.height_ k (line_start s)).2.1

/-- The local `draw_` before pass `k` of the line loop of a transfer triggered in
state `s`. -/
def line_draw_at (s : Blitter) (k : Nat) : Bool :=
  (line_after s.height_ k (line_start s)).2.2

/-- The flags of pass `k` of the line loop of a transfer triggered in state `s`. -/
def line_flags_at (s : Blitter) (k : Nat) : Nat :=
  line_step_flags s.line_direction_ (line_error_at s k)

/-- A line step with these flags moves channel D's pointer vertically. -/
def moves_vertically (step : Nat) : Bool :=
  decide (step &&& UP ≠ 0) || decide (step &&& DOWN ≠ 0)

/-- A line step with these flags moves horizontally. -/
def moves_horizontally (step : Nat) : Bool :=
  decide (step &&& LEFT ≠ 0) || decide (step &&& RIGHT ≠ 0)

/-- A line of three pixels in the octant `line_direction_` 4 with `one_dot_`
clear, error seed -2, `modulos_[1]` 3 and `modulos_[0]` `-4`, over rows 40 words
apart. -/
def bresenham_example : Blitter :=
  set_pointer
    (set_modulo (set_modulo (set_modulo
      (set_size (set_data (set_control (initial (fun _ => 0) 0xff) 1 0x0011) 1 0xffff) 0x00c1)
      0 0xfffffffc) 1 3) 2 40)
    0 0x7ffe

/-- The line of `bresenham_example` drawn with `one_dot_` set. -/
def one_dot_example : Blitter :=
  set_pointer
    (set_modulo (set_modulo (set_modulo
      (set_size (set_data (set_control (initial (fun _ => 0) 0xff) 1 0x0013) 1 0xffff) 0x00c1)
      0 0xfffffffc) 1 3) 2 40)
    0 0x7ffe

/-- The pointer of channel `i` (0 = A, 1 = B, 2 = C, 3 = D). -/
def channel_pointer (s : Blitter) : Fin 4 → Nat
  | 0 => s.pointer_0
  | 1 => s.pointer_1
  | 2 => s.pointer_2
  | 3 => s.pointer_3

/-- The modulo of channel `i`. -/
def channel_modulo (s : Blitter) : Fin 4 → Nat
  | 0 => s.modulos_0
  | 1 => s.modulos_1
  | 2 => s.modulos_2
  | 3 => s.modulos_3

/-- The enable of channel `i`. -/
def channel_enable (s : Blitter) : Fin 4 → Bool
  | 0 => s.channel_enables_0
  | 1 => s.channel_enables_1
  | 2 => s.channel_enables_2
  | 3 => s.channel_enables_3

/-- The invariant of channel `i`'s pointer in a copy transfer that started in
`s0`: after `k` word steps the pointer is that of `s0` plus `k` times the
direction if the channel is enabled, and that of `s0` if it is not. -/
def pointer_inv (i : Fin 4) (s0 : Blitter) (k : Nat) (s : Blitter) : Prop :=
  frame s = frame s0 ∧
  channel_pointer s i =
    u32 (channel_pointer s0 i + k * ((channel_enable s0 i).toNat * s0.direction_))

/-- The invariant of the disabled channels in a copy transfer that started in
`s0`: a disabled A, B or C keeps its latch, and with D disabled memory and the
log of stores are kept. -/
def disabled_inv (s0 s : Blitter) : Prop :=
  frame s = frame s0 ∧
  (s0.channel_enables_0 = false → s.a_data_ = s0.a_data_) ∧
  (s0.channel_enables_1 = false → s.b_data_ = s0.b_data_) ∧
  (s0.channel_enables_2 = false → s.c_data_ = s0.c_data_) ∧
  (s0.channel_enables_3 = false → s.ram_ = s0.ram_ ∧ s.writes = s0.writes)

/-- A descending copy of three rows of two words with channels A and D enabled,
A from word 100 with modulo 5, D from word 200 with modulo 7, C's pointer at 9. -/
def pointer_example : Blitter :=
  set_pointer (set_pointer (set_pointer
    (set_modulo (set_modulo
      (set_size (set_control (set_control (initial (fun _ => 0) 0xffff) 0 0x09f0) 1 0x0002) 0x00c2)
      0 5) 3 7)
    0 100) 3 200) 2 9

/-- The A operand a column passes to the minterm evaluator. -/
def operand_a (s : Blitter) : Nat := barrel_shift s.one_dot_ s.a32_ s.shifts_0

/-- The B operand a column passes to the minterm evaluator. -/
def operand_b (s : Blitter) : Nat := barrel_shift s.one_dot_ s.b32_ s.shifts_1

/-- The word a column gets from the minterm evaluator, before any fill. -/
def column_minterm (s : Blitter) : Nat :=
  apply_minterm (operand_a s) (operand_b s) s.c_data_ s.minterms_

/-- Bit `j` of the 32-bit left rotation of `x` by `s`: bit `j - s` of `x`, the
index taken modulo 32. -/
def rotate_left_32_bit (x s j : Nat) : Bool := x.testBit ((j + 32 - s) % 32)

/-- A descending copy of one row of two words with A's shift 4: A reads
`0x1234` then `0xabcd`; minterms `0xf0`, both masks `0xffff`. -/
def shift_example : Blitter :=
  set_pointer
    (set_size
      (set_last_word_mask
        (set_first_word_mask
          (set_control
            (set_control (initial (fun i => if i = 100 then 0x1234 else 0xabcd) 0xffff) 0 0x49f0)
            1 0x0002)
          0xffff) 0xffff) 0x0042)
    0 100

/-- Serial fill of the low `bits` bits of `word`, least significant bit first,
entered with `carry`: each input bit toggles the carry; the output bit is the
carry after the toggle in exclusive mode, and the carry before the toggle OR-ed
with the input bit in inclusive mode. The result is the filled bits and the
carry that leaves them. -/
def serial_fill (exclusive : Bool) : Nat → Nat → Bool → Nat × Bool
  | 0, _, carry => (0, carry)
  | bits + 1, word, carry =>
    let rest := serial_fill exclusive bits (word / 2) (xor carry (word.testBit 0))
    ((if exclusive then xor carry (word.testBit 0) else carry || word.testBit 0).toNat +
      2 * rest.1, rest.2)

/-- Serial fill of a row of 16-bit words as one bit stream entered with `carry`:
for each word the carry that enters it and the filled word; the carry that
leaves a word enters the next. -/
def serial_fill_row (exclusive : Bool) : List Nat → Bool → List (Bool × Nat)
  | [], _ => []
  | word :: words, carry =>
    (carry, (serial_fill exclusive 16 word carry).1) ::
      serial_fill_row exclusive words (serial_fill exclusive 16 word carry).2

/-- Bit `k` of a row of 16-bit words read as one bit stream, each word least
significant bit first. -/
def stream_bit (words : List Nat) (k : Nat) : Bool :=
  (words.getD (k / 16) 0).testBit (k % 16)

/-- The columns `xs` of a row as the engine runs them from the state and carry
`st`: for each column the word it gets from the minterm evaluator, the fill
carry it enters with, and its output word. -/
def row_fill_trace (st : Blitter × Bool) : List Nat → List (Nat × Bool × Nat)
  | [] => []
  | x :: xs =>
    (column_minterm (column_inputs st.1 x), st.2, (column_output (column_inputs st.1 x) st.2).1) ::
      row_fill_trace (copy_column st x) xs

/-- The `type_mask` of the fill lookups. -/
def fill_type_mask (exclusive : Bool) : Nat := if exclusive then 1 <<< 5 else 0

/-- An exclusive-fill copy of one row of two words: channel A reads `0x8000` then
`0x0010`; minterms `0xf0`, channels A and D enabled, both masks `0xffff`. -/
def fill_example : Blitter :=
  set_pointer
    (set_pointer
      (set_size
        (set_last_word_mask
          (set_first_word_mask
            (set_control
              (set_control (initial (fun i => if i = 100 then 0x8000 else 0x0010) 0xffff) 0 0x09f0)
              1 0x0010)
            0xffff) 0xffff) 0x0042)
      0 100)
    3 200

/-- The pixel one to the left or to the right of the pixel at bit `shift` of the
word at `pointer`: the shift, reduced modulo 16, and the word pointer, which
moves by one word (as a `uint32_t`) when the shift leaves `0 .. 15`. -/
def pixel_move (left : Bool) (shift : Int) (pointer : Nat) : Int × Nat :=
  if left then ((shift - 1) % 16, if shift - 1 = -1 then u32 (pointer + 0xffffffff) else pointer)
  else ((shift + 1) % 16, if shift + 1 = 16 then u32 (pointer + 1) else pointer)

/-- The word pointer one row up or down: the row stride taken off or added, as a
`uint32_t`. -/
def row_move (up : Bool) (stride pointer : Nat) : Nat :=
  if up then u32 (pointer + (4294967296 - u32 stride)) else u32 (pointer + stride)

/-- The pixel position before pass `k` of the line loop of a transfer triggered in
state `s`: `shifts_[0]` and channel D's pointer. -/
def line_position_at (s : Blitter) (k : Nat) : Int × Nat :=
  ((line_after s.height_ k (line_start s)).1.shifts_0,
    (line_after s.height_ k (line_start s)).1.pointer_3)

/-- The output word a drawn pass of the line loop computes in state `s`: the
minterm of the A latch shifted right by `shifts_[0]`, of the B latch and of the
word at channel D's masked pointer. -/
def line_word (s : Blitter) : Nat :=
  apply_minterm (u16 (s.a_data_ >>> s.shifts_0.toNat)) s.b_data_
    (s.ram_ (s.pointer_3 &&& s.ram_mask_)) s.minterms_

/-- The output words of the first `k` passes of the line loop of a transfer
triggered in state `s`, in order: the word of every pass before which `draw_` is
set. -/
def line_words (s : Blitter) : Nat → List Nat
  | 0 => []
  | k + 1 =>
    line_words s k ++
      (if line_draw_at s k then [line_word (line_after s.height_ k (line_start s)).1] else [])

/-- The output words of `r` rows of copy mode run from state `s`, in order: for
every column of every row the word from the minterm evaluator after the fill
post-processing. -/
def copy_words : Nat → Blitter → List Nat
  | 0, _ => []
  | r + 1, s =>
    (row_fill_trace (s, s.fill_carry_) (List.range s.width_)).map (fun t => t.2.2) ++
      copy_words r (copy_row s)

/-- The output words computed during the transfer triggered in state `s`: those
of the `height_` passes of the line loop in line mode, those of the `height_`
rows in copy mode (which start with both accumulators cleared). -/
def transfer_words (s : Blitter) : List Nat :=
  if s.line_mode_ then line_words s s.height_
  else copy_words s.height_ { s with not_zero_flag_ := false, a32_ := 0, b32_ := 0 }

/-! ## The fill tables -/

/-- C2. Exclusive fill is an XOR chain: for every nibble `n` and entry carry `c`,
bit `i` (`i < 4`) of the exclusive-fill output of `fill_nibble` is `c` XOR bits
`0 .. i` of `n`, no higher bit of the output is set, the exit carry is `c` XOR
all four bits of `n`, and the lookups the engine performs in `fill_values` and
`fill_carries` with key `n | c << 4 | 1 << 5` return that output and that carry. -/
theorem fill_nibble_exclusive_xor_chain (n c : Nat) (hn : n < 16) (hc : c < 2) :
    (∀ i, i < 4 → (fill_nibble false true c n).testBit i = xor_chain (c != 0) n i) ∧
    fill_nibble false true c n < 16 ∧
    fill_nibble true true c n = (xor_chain (c != 0) n 3).toNat ∧
    fill_values_lookup (n ||| (c <<< 4) ||| (1 <<< 5)) = fill_nibble false true c n ∧
    fill_carries_lookup (n ||| (c <<< 4) ||| (1 <<< 5)) = fill_nibble true true c n ∧
    fill_index n c (1 <<< 5) = n ||| (c <<< 4) ||| (1 <<< 5) := by
  interval_cases n <;> interval_cases c <;> decide

/-- Witness of C2 at nibble `0b0101` with entry carry 1. -/
theorem fill_nibble_exclusive_xor_chain_witness :
    fill_nibble false true 1 5 = 0xc ∧ fill_nibble true true 1 5 = 1 ∧
    fill_values_lookup (5 ||| (1 <<< 4) ||| (1 <<< 5)) = 0xc :=
  ⟨by decide, by decide,
    (fill_nibble_exclusive_xor_chain 5 1 (by decide) (by decide)).2.2.2.1.trans (by decide)⟩

/-! ## Loops and the registers a transfer leaves alone -/

/-- A property kept by every pass of a loop holds after the loop. -/
theorem foldl_invariant {α β : Type} (P : α → Prop) (f : α → β → α)
    (step : ∀ a b, P a → P (f a b)) (l : List β) (a : α) (h : P a) : P (l.foldl f a) := by
  induction l generalizing a with
  | nil => exact h
  | cons b l ih => exact ih (f a b) (step a b h)

theorem read_channel_a_frame (s : Blitter) :
    frame (read_channel_a s) = frame s ∧ (read_channel_a s).shifts_0 = s.shifts_0 := by
  unfold read_channel_a; split_ifs <;> exact ⟨rfl, rfl⟩

theorem read_channel_b_frame (s : Blitter) :
    frame (read_channel_b s) = frame s ∧ (read_channel_b s).shifts_0 = s.shifts_0 := by
  unfold read_channel_b; split_ifs <;> exact ⟨rfl, rfl⟩

theorem read_channel_c_frame (s : Blitter) :
    frame (read_channel_c s) = frame s ∧ (read_channel_c s).shifts_0 = s.shifts_0 := by
  unfold read_channel_c; split_ifs <;> exact ⟨rfl, rfl⟩

theorem write_channel_d_frame (s : Blitter) (w : Nat) :
    frame (write_channel_d s w) = frame s ∧ (write_channel_d s w).shifts_0 = s.shifts_0 := by
  unfold write_channel_d; split_ifs <;> exact ⟨rfl, rfl⟩

theorem column_inputs_frame (s : Blitter) (x : Nat) :
    frame (column_inputs s x) = frame s ∧ (column_inputs s x).shifts_0 = s.shifts_0 := by
  unfold column_inputs
  have ha := read_channel_a_frame s
  have hb := read_channel_b_frame (shift_in_a (read_channel_a s) (column_mask s x))
  have hc := read_channel_c_frame
    (shift_in_b (read_channel_b (shift_in_a (read_channel_a s) (column_mask s x))))
  refine ⟨hc.1.trans ?_, hc.2.trans ?_⟩
  · exact (show frame (shift_in_b _) = frame (read_channel_b _) from rfl).trans
      (hb.1.trans ((show frame (shift_in_a _ _) = frame (read_channel_a _) from rfl).trans ha.1))
  · exact (show (shift_in_b _).shifts_0 = (read_channel_b _).shifts_0 from rfl).trans
      (hb.2.trans ((show (shift_in_a _ _).shifts_0 = (read_channel_a _).shifts_0 from rfl).trans ha.2))

theorem copy_column_frame (st : Blitter × Bool) (x : Nat) :
    frame (copy_column st x).1 = frame st.1 ∧ (copy_column st x).1.shifts_0 = st.1.shifts_0 := by
  unfold copy_column
  have hi := column_inputs_frame st.1 x
  have hd := write_channel_d_frame
    (merge_not_zero (column_inputs st.1 x) (column_output (column_inputs st.1 x) st.2).1)
    (column_output (column_inputs st.1 x) st.2).1
  exact ⟨hd.1.trans ((show frame (merge_not_zero _ _) = frame (column_inputs _ _) from rfl).trans hi.1),
    hd.2.trans ((show (merge_not_zero _ _).shifts_0 = (column_inputs _ _).shifts_0 from rfl).trans hi.2)⟩

theorem copy_row_frame (s : Blitter) :
    frame (copy_row s) = frame s ∧ (copy_row s).shifts_0 = s.shifts_0 := by
  have h := foldl_invariant
    (fun st : Blitter × Bool => frame st.1 = frame s ∧ st.1.shifts_0 = s.shifts_0) copy_column
    (fun a b ha => ⟨(copy_column_frame a b).1.trans ha.1, (copy_column_frame a b).2.trans ha.2⟩)
    (List.range s.width_) (s, s.fill_carry_) ⟨rfl, rfl⟩
  exact h

theorem copy_transfer_frame (s : Blitter) :
    frame (copy_transfer s) = frame s ∧ (copy_transfer s).shifts_0 = s.shifts_0 := by
  unfold copy_transfer
  exact foldl_invariant (fun t : Blitter => frame t = frame s ∧ t.shifts_0 = s.shifts_0)
    (fun st _ => copy_row st)
    (fun a _ ha => ⟨(copy_row_frame a).1.trans ha.1, (copy_row_frame a).2.trans ha.2⟩)
    _ _ ⟨rfl, rfl⟩

theorem line_draw_frame (s : Blitter) : frame (line_draw s) = frame s := rfl

theorem line_move_x_frame (s : Blitter) (step : Nat) : frame (line_move_x s step) = frame s := by
  unfold line_move_x; split_ifs <;> rfl

theorem line_move_y_frame (s : Blitter) (step : Nat) (draw : Bool) :
    frame (line_move_y s step draw).1 = frame s := by
  unfold line_move_y; split_ifs <;> rfl

theorem line_step_frame (st : Blitter × Int × Bool) : frame (line_step st).1 = frame st.1 := by
  unfold line_step
  refine (line_move_y_frame _ _ _).trans ((line_move_x_frame _ _).trans ?_)
  split_ifs
  · exact line_draw_frame _
  · rfl

theorem line_loop_frame (n : Nat) (st : Blitter × Int × Bool) :
    frame (line_loop n st).1 = frame st.1 := by
  induction n generalizing st with
  | zero => rfl
  | succ n ih =>
    show frame (line_loop n (line_step ({ st.1 with height_ := n }, st.2))).1 = frame st.1
    exact (ih _).trans (line_step_frame _)

theorem line_transfer_frame (s : Blitter) : frame (line_transfer s) = frame s :=
  line_loop_frame _ _

/-- A trigger with `height_` nonzero, whose assertion holds, performs a transfer:
it returns `true` with the completed state. -/
theorem advance_dma_running (s : Blitter) (hh : s.height_ ≠ 0)
    (hb : s.line_mode_ = true → s.b_data_ = 0xffff) :
    advance_dma s = some (true, complete
      (if s.line_mode_ then line_transfer { s with not_zero_flag_ := false }
       else copy_transfer { s with not_zero_flag_ := false })) := by
  unfold advance_dma
  rw [if_neg hh]
  by_cases hl : s.line_mode_ = true
  · simp [hl, hb hl]
  · simp [hl]

/-- A trigger in copy mode with `height_` nonzero returns `true` with the
completed copy transfer. -/
theorem advance_dma_copy (s : Blitter) (hh : s.height_ ≠ 0) (hl : s.line_mode_ = false) :
    advance_dma s = some (true, complete (copy_transfer { s with not_zero_flag_ := false })) := by
  have h := advance_dma_running s hh (by rw [hl]; intro h; cases h)
  rw [h]
  congr 3
  exact if_neg (by rw [hl]; exact Bool.false_ne_true)

/-- A trigger that returns `true` ran from a state with `height_` nonzero and
returned the completed state. -/
theorem advance_dma_true (s t : Blitter) (h : advance_dma s = some (true, t)) :
    s.height_ ≠ 0 ∧ (s.line_mode_ = true → s.b_data_ = 0xffff) ∧
    t = complete
      (if s.line_mode_ then line_transfer { s with not_zero_flag_ := false }
       else copy_transfer { s with not_zero_flag_ := false }) := by
  have hh : s.height_ ≠ 0 := by
    intro h0
    unfold advance_dma at h
    rw [if_pos h0] at h
    simp at h
  have hb : s.line_mode_ = true → s.b_data_ = 0xffff := by
    intro hl
    by_contra hne
    unfold advance_dma at h
    rw [if_neg hh] at h
    simp [hl, hne] at h
  refine ⟨hh, hb, ?_⟩
  rw [advance_dma_running s hh hb] at h
  simp only [Option.some.injEq, Prod.mk.injEq, true_and] at h
  exact h.symm

/-- The state a transfer hands to `complete` has the frame of the state before
the trigger. -/
theorem transfer_frame (s : Blitter) :
    frame (if s.line_mode_ then line_transfer { s with not_zero_flag_ := false }
       else copy_transfer { s with not_zero_flag_ := false }) = frame s := by
  split_ifs
  · exact line_transfer_frame _
  · exact (copy_transfer_frame _).1

/-- A trigger that performs a transfer keeps the read-only registers, ends with
`height_` 0, and in copy mode keeps `shifts_[0]`. -/
theorem advance_dma_keeps (s t : Blitter) (h : advance_dma s = some (true, t)) :
    read_only_registers t = read_only_registers s ∧ t.height_ = 0 ∧
    (s.line_mode_ = false → t.shifts_0 = s.shifts_0) := by
  obtain ⟨_, _, ht⟩ := advance_dma_true s t h
  subst ht
  refine ⟨congrArg Prod.fst (transfer_frame s), rfl, ?_⟩
  intro hl
  show (if s.line_mode_ then line_transfer { s with not_zero_flag_ := false }
       else copy_transfer { s with not_zero_flag_ := false }).shifts_0 = s.shifts_0
  rw [hl]
  exact (copy_transfer_frame _).2

/-! ## Registers and status -/

/-- The size fields of a 16-bit register value: the width field is at most 63,
the height field at most 1023. -/
theorem size_fields_range (v : Nat) (hv : v < 65536) : v &&& 0x3f ≤ 0x3f ∧ v >>> 6 < 1024 := by
  refine ⟨Nat.and_le_right, ?_⟩
  rw [Nat.shiftRight_eq_div_pow]
  omega

/-- After a size write `height_` is not zero. -/
theorem set_size_height_ne_zero (s : Blitter) (v : Nat) : (set_size s v).height_ ≠ 0 := by
  show (if v >>> 6 = 0 then 1024 else v >>> 6) ≠ 0
  split_ifs with h
  · decide
  · exact h

/-- C6. Size decode: after `set_size(v)`, for a 16-bit `v`, the width is
`v & 0x3f`, or 64 when that is 0, and the height is `v >> 6`, or 1024 when that
is 0; so the width is in 1..64 and the height in 1..1024; and no other member is
changed. -/
theorem set_size_decode (s : Blitter) (v : Nat) (hv : v < 65536) :
    (set_size s v).width_ = (if v &&& 0x3f = 0 then 64 else v &&& 0x3f) ∧
    (set_size s v).height_ = (if v >>> 6 = 0 then 1024 else v >>> 6) ∧
    (1 ≤ (set_size s v).width_ ∧ (set_size s v).width_ ≤ 64) ∧
    (1 ≤ (set_size s v).height_ ∧ (set_size s v).height_ ≤ 1024) ∧
    set_size s v = { s with width_ := (set_size s v).width_, height_ := (set_size s v).height_ } := by
  obtain ⟨hw, hh⟩ := size_fields_range v hv
  refine ⟨rfl, rfl, ?_, ?_, rfl⟩
  · show 1 ≤ (if v &&& 0x3f = 0 then 0x40 else v &&& 0x3f) ∧
      (if v &&& 0x3f = 0 then 0x40 else v &&& 0x3f) ≤ 64
    split_ifs <;> omega
  · show 1 ≤ (if v >>> 6 = 0 then 1024 else v >>> 6) ∧
      (if v >>> 6 = 0 then 1024 else v >>> 6) ≤ 1024
    split_ifs <;> omega

/-- Witness of C6 at the register value `0x0041` (height 1, width 1). -/
theorem set_size_decode_witness :
    0x41 < 65536 ∧ (set_size (initial (fun _ => 0) 0xff) 0x41).width_ = 1 ∧
    (set_size (initial (fun _ => 0) 0xff) 0x41).height_ = 1 :=
  ⟨by decide,
    (set_size_decode (initial (fun _ => 0) 0xff) 0x41 (by decide)).1.trans (by decide),
    (set_size_decode (initial (fun _ => 0) 0xff) 0x41 (by decide)).2.1.trans (by decide)⟩

/-- Bit 14 of the status word is the busy flag. -/
theorem get_status_busy (s : Blitter) : get_status s &&& 0x4000 ≠ 0 ↔ s.height_ ≠ 0 := by
  unfold get_status
  by_cases hh : s.height_ = 0 <;> cases hf : s.not_zero_flag_
  all_goals simp [hh]
  all_goals decide

/-- Bit 13 of the status word is the negated not-zero flag. -/
theorem get_status_zero (s : Blitter) :
    get_status s &&& 0x2000 ≠ 0 ↔ s.not_zero_flag_ = false := by
  unfold get_status
  by_cases hh : s.height_ = 0 <;> cases hf : s.not_zero_flag_
  all_goals simp [hh]
  all_goals decide

/-- C4. Busy semantics: bit 14 of `get_status` is set exactly when `height_` is
nonzero; it is set right after `set_size(v)` for every 16-bit `v`; and a trigger
from a state with `height_` nonzero (the assertion of line mode holding)
performs a transfer, after which the bit is clear and `height_` is 0. (The
size write sets the bit for every value, 16-bit or not.) -/
theorem busy_semantics (s : Blitter) (v : Nat) :
    (get_status s &&& 0x4000 ≠ 0 ↔ s.height_ ≠ 0) ∧
    get_status (set_size s v) &&& 0x4000 ≠ 0 ∧
    (s.height_ ≠ 0 → (s.line_mode_ = true → s.b_data_ = 0xffff) →
      ∃ t, advance_dma s = some (true, t)) ∧
    (∀ t, advance_dma s = some (true, t) → get_status t &&& 0x4000 = 0 ∧ t.height_ = 0) := by
  refine ⟨get_status_busy s, ?_, ?_, ?_⟩
  · rw [get_status_busy]
    exact set_size_height_ne_zero s v
  · intro hh hb
    exact ⟨_, advance_dma_running s hh hb⟩
  · intro t ht
    have h0 : t.height_ = 0 := by
      rw [(advance_dma_true s t ht).2.2]; rfl
    refine ⟨?_, h0⟩
    have := get_status_busy t
    by_contra hne
    exact (this.mp hne) h0

/-- Witness of C4: the size write `0x0041` on a fresh Blitter, and the trigger
that follows it. -/
theorem busy_semantics_witness :
    0x41 < 65536 ∧ get_status (set_size (initial (fun _ => 0) 0xff) 0x41) &&& 0x4000 ≠ 0 ∧
    ∃ t, advance_dma (set_size (initial (fun _ => 0) 0xff) 0x41) = some (true, t) :=
  ⟨by decide, (busy_semantics (initial (fun _ => 0) 0xff) 0x41).2.1,
    (busy_semantics (set_size (initial (fun _ => 0) 0xff) 0x41) 0).2.2.1 (by decide) (by decide)⟩

/-- C5. Trigger result: with `height_` zero, `advance_dma` returns `false` and
leaves the whole state (registers, latches, flags, memory, the log of
interrupts) as it was; with `height_` nonzero (and `b_data_ == 0xffff` in line
mode) it returns `true`, posts exactly one Blitter interrupt, and a second
trigger right after it returns `false`. -/
theorem trigger_result (s : Blitter) :
    (s.height_ = 0 → advance_dma s = some (false, s)) ∧
    (s.height_ ≠ 0 → (s.line_mode_ = true → s.b_data_ = 0xffff) →
      ∃ t, advance_dma s = some (true, t) ∧
        t.interrupts = s.interrupts ++ [InterruptFlag.Blitter] ∧
        advance_dma t = some (false, t)) := by
  constructor
  · intro h0
    unfold advance_dma
    rw [if_pos h0]
  · intro hh hb
    refine ⟨_, advance_dma_running s hh hb, ?_, ?_⟩
    · have h := congrArg Prod.snd (transfer_frame s)
      show _ ++ [InterruptFlag.Blitter] = _
      exact congrArg (fun l => l ++ [InterruptFlag.Blitter]) h
    · unfold advance_dma
      rw [if_pos (show (complete _).height_ = 0 from rfl)]

/-- Witness of C5: a trigger on a fresh Blitter, and one after the size write
`0x0041`. -/
theorem trigger_result_witness :
    advance_dma (initial (fun _ => 0) 0xff) = some (false, initial (fun _ => 0) 0xff) ∧
    ∃ t, advance_dma (set_size (initial (fun _ => 0) 0xff) 0x41) = some (true, t) ∧
      t.interrupts = [InterruptFlag.Blitter] ∧ advance_dma t = some (false, t) :=
  ⟨(trigger_result (initial (fun _ => 0) 0xff)).1 (by decide),
    (trigger_result (set_size (initial (fun _ => 0) 0xff) 0x41)).2 (by decide) (by decide)⟩

/-! ## The not-zero flag -/

theorem flag_tracks_congr (old : List Nat) (s t : Blitter) (h : flag_log t = flag_log s)
    (hs : flag_tracks old s) : flag_tracks old t := by
  obtain ⟨new, h1, h2⟩ := hs
  have ho : t.outputs = s.outputs := congrArg Prod.fst h
  have hf : t.not_zero_flag_ = s.not_zero_flag_ := congrArg Prod.snd h
  exact ⟨new, ho.trans h1, hf.trans h2⟩

theorem flag_tracks_merge (old : List Nat) (s t : Blitter) (w : Nat)
    (ho : t.outputs = s.outputs ++ [w]) (hf : t.not_zero_flag_ = (s.not_zero_flag_ || (w != 0)))
    (hs : flag_tracks old s) : flag_tracks old t := by
  obtain ⟨new, h1, h2⟩ := hs
  refine ⟨new ++ [w], ?_, ?_⟩
  · rw [ho, h1, List.append_assoc]
  · rw [hf, h2]; simp

theorem read_channel_a_flag_log (s : Blitter) : flag_log (read_channel_a s) = flag_log s := by
  unfold read_channel_a; split_ifs <;> rfl

theorem read_channel_b_flag_log (s : Blitter) : flag_log (read_channel_b s) = flag_log s := by
  unfold read_channel_b; split_ifs <;> rfl

theorem read_channel_c_flag_log (s : Blitter) : flag_log (read_channel_c s) = flag_log s := by
  unfold read_channel_c; split_ifs <;> rfl

theorem write_channel_d_flag_log (s : Blitter) (w : Nat) :
    flag_log (write_channel_d s w) = flag_log s := by
  unfold write_channel_d; split_ifs <;> rfl

theorem column_inputs_flag_log (s : Blitter) (x : Nat) :
    flag_log (column_inputs s x) = flag_log s := by
  unfold column_inputs
  refine (read_channel_c_flag_log _).trans ?_
  refine (show flag_log (shift_in_b _) = flag_log (read_channel_b _) from rfl).trans ?_
  refine (read_channel_b_flag_log _).trans ?_
  refine (show flag_log (shift_in_a _ _) = flag_log (read_channel_a _) from rfl).trans ?_
  exact read_channel_a_flag_log s

theorem copy_column_flag_tracks (old : List Nat) (st : Blitter × Bool) (x : Nat)
    (h : flag_tracks old st.1) : flag_tracks old (copy_column st x).1 := by
  unfold copy_column
  refine flag_tracks_congr old _ _ (write_channel_d_flag_log _ _) ?_
  refine flag_tracks_merge old (column_inputs st.1 x) _ _ rfl rfl ?_
  exact flag_tracks_congr old _ _ (column_inputs_flag_log _ _) h

theorem copy_row_flag_tracks (old : List Nat) (s : Blitter) (h : flag_tracks old s) :
    flag_tracks old (copy_row s) := by
  have hfold := foldl_invariant (fun st : Blitter × Bool => flag_tracks old st.1) copy_column
    (fun a b ha => copy_column_flag_tracks old a b ha) (List.range s.width_) (s, s.fill_carry_) h
  exact flag_tracks_congr old _ _ rfl hfold

theorem copy_transfer_flag_tracks (old : List Nat) (s : Blitter) (h : flag_tracks old s) :
    flag_tracks old (copy_transfer s) := by
  unfold copy_transfer
  exact foldl_invariant (flag_tracks old) (fun st _ => copy_row st)
    (fun a _ ha => copy_row_flag_tracks old a ha) _ _ (flag_tracks_congr old _ _ rfl h)

theorem line_move_x_flag_log (s : Blitter) (step : Nat) :
    flag_log (line_move_x s step) = flag_log s := by
  unfold line_move_x; split_ifs <;> rfl

theorem line_move_y_flag_log (s : Blitter) (step : Nat) (draw : Bool) :
    flag_log (line_move_y s step draw).1 = flag_log s := by
  unfold line_move_y; split_ifs <;> rfl

theorem line_step_flag_tracks (old : List Nat) (st : Blitter × Int × Bool)
    (h : flag_tracks old st.1) : flag_tracks old (line_step st).1 := by
  unfold line_step
  refine flag_tracks_congr old _ _ (line_move_y_flag_log _ _ _) ?_
  refine flag_tracks_congr old _ _ (line_move_x_flag_log _ _) ?_
  split_ifs
  · exact flag_tracks_merge old st.1 _ _ rfl rfl h
  · exact h

theorem line_loop_flag_tracks (old : List Nat) (n : Nat) (st : Blitter × Int × Bool)
    (h : flag_tracks old st.1) : flag_tracks old (line_loop n st).1 := by
  induction n generalizing st with
  | zero => exact h
  | succ n ih =>
    show flag_tracks old (line_loop n (line_step ({ st.1 with height_ := n }, st.2))).1
    exact ih _ (line_step_flag_tracks old _ (flag_tracks_congr old _ _ rfl h))

/-! ## What a transfer leaves alone -/

/-- C8, counterexample. A line-mode transfer changes `shifts_[0]`: the one-pixel
line to the right starts with shift 0 and completes with shift 1. -/
theorem transfer_frame_counterexample :
    ∃ t, advance_dma line_example = some (true, t) ∧
      line_example.shifts_0 = 0 ∧ t.shifts_0 = 1 :=
  ⟨_, advance_dma_running line_example (by decide) (by decide), by decide, by decide⟩

/-- C8, amended. A transfer leaves every read-only register as it was before the
trigger, in copy mode and in line mode: `line_mode_`, `one_dot_`,
`line_direction_`, `line_sign_`, `direction_`, `exclusive_fill_`,
`inclusive_fill_`, `fill_carry_`, `minterms_`, the four channel enables,
`shifts_[1]`, both A masks, `width_` and all modulos; `height_` is 0 after it;
and in copy mode `shifts_[0]` is unchanged too. -/
theorem transfer_frame_amended (s t : Blitter) (h : advance_dma s = some (true, t)) :
    read_only_registers t = read_only_registers s ∧ t.height_ = 0 ∧
    (s.line_mode_ = false → t.shifts_0 = s.shifts_0) :=
  advance_dma_keeps s t h

/-- Witness of C8: the one-pixel line to the right. -/
theorem transfer_frame_amended_witness :
    ∃ t, advance_dma line_example = some (true, t) ∧
      read_only_registers t = read_only_registers line_example ∧ t.height_ = 0 :=
  ⟨_, advance_dma_running line_example (by decide) (by decide),
    (transfer_frame_amended line_example _
      (advance_dma_running line_example (by decide) (by decide))).1,
    (transfer_frame_amended line_example _
      (advance_dma_running line_example (by decide) (by decide))).2.1⟩

/-! ## Invariants of the register file -/

theorem set_control_zero (s : Blitter) (v : Nat) :
    fill_flags (set_control s 0 v) = fill_flags s ∧
    (set_control s 0 v).shifts_0 = ((v >>> 12 : Nat) : Int) ∧
    (set_control s 0 v).shifts_1 = s.shifts_1 :=
  ⟨rfl, rfl, rfl⟩

theorem set_control_one (s : Blitter) (v : Nat) :
    (set_control s 1 v).exclusive_fill_ = ((v &&& 0x0010) != 0) ∧
    (set_control s 1 v).inclusive_fill_ = (!((v &&& 0x0010) != 0) && ((v &&& 0x0008) != 0)) ∧
    (set_control s 1 v).shifts_1 = ((v >>> 12 : Nat) : Int) ∧
    (set_control s 1 v).shifts_0 = s.shifts_0 :=
  ⟨rfl, rfl, rfl, rfl⟩

theorem set_data_fields (s : Blitter) (channel v : Nat) :
    fill_flags (set_data s channel v) = fill_flags s ∧
    shift_pair (set_data s channel v) = shift_pair s := by
  unfold set_data
  split <;> exact ⟨rfl, rfl⟩

theorem set_pointer_fields (s : Blitter) (id : Fin 4) (v : Nat) :
    fill_flags (set_pointer s id v) = fill_flags s ∧
    shift_pair (set_pointer s id v) = shift_pair s := by
  unfold set_pointer
  split <;> exact ⟨rfl, rfl⟩

theorem set_modulo_fields (s : Blitter) (id : Fin 4) (v : Nat) :
    fill_flags (set_modulo s id v) = fill_flags s ∧
    shift_pair (set_modulo s id v) = shift_pair s := by
  unfold set_modulo
  split <;> exact ⟨rfl, rfl⟩

/-- A trigger leaves the fill flags and `shifts_[1]` alone. -/
theorem advance_dma_fields (s t : Blitter) (b : Bool) (h : advance_dma s = some (b, t)) :
    fill_flags t = fill_flags s ∧ t.shifts_1 = s.shifts_1 := by
  cases b with
  | false =>
    unfold advance_dma at h
    by_cases h0 : s.height_ = 0
    · rw [if_pos h0] at h
      simp only [Option.some.injEq, Prod.mk.injEq, true_and] at h
      subst h
      exact ⟨rfl, rfl⟩
    · rw [if_neg h0] at h
      by_cases hl : s.line_mode_ = true <;> by_cases hb : s.b_data_ = 0xffff <;>
        simp [hl, hb] at h
  | true =>
    have hf := (advance_dma_keeps s t h).1
    simp only [read_only_registers, Prod.mk.injEq] at hf
    obtain ⟨-, ⟨he, hi, -⟩, -, ⟨h1, -⟩, -⟩ := hf
    exact ⟨by rw [fill_flags, he, hi]; rfl, h1⟩

/-- Every call other than `set_control(1, v)` leaves the fill flags alone. -/
theorem run_fill_flags (op : Op) (s t : Blitter) (h : op.run s = some t)
    (hop : ∀ v, op ≠ Op.set_control 1 v) : fill_flags t = fill_flags s := by
  cases op with
  | set_control index value =>
    have hi : index = 0 := by
      by_contra hne
      have h1 : index = 1 := by omega
      exact hop value (by rw [h1])
    subst hi
    simp only [Op.run] at h
    split_ifs at h
    simp only [Option.some.injEq] at h
    subst h
    exact (set_control_zero s value).1
  | set_first_word_mask value | set_last_word_mask value | set_size value | set_minterms value =>
    simp only [Op.run] at h
    split_ifs at h
    simp only [Option.some.injEq] at h
    subst h
    rfl
  | set_data channel value =>
    simp only [Op.run] at h
    split_ifs at h
    simp only [Option.some.injEq] at h
    subst h
    exact (set_data_fields s channel value).1
  | set_pointer id value =>
    simp only [Op.run, Option.some.injEq] at h
    subst h
    exact (set_pointer_fields s id value).1
  | set_modulo id value =>
    simp only [Op.run, Option.some.injEq] at h
    subst h
    exact (set_modulo_fields s id value).1
  | advance_dma =>
    simp only [Op.run, Option.map_eq_some'] at h
    obtain ⟨⟨b, t1⟩, h1, h2⟩ := h
    simp only at h2
    subst h2
    exact (advance_dma_fields s t1 b h1).1

/-- Testing a register value against the mask `2 ^ k` reads bit `k`. -/
theorem and_two_pow_ne_zero (v k : Nat) : ((v &&& 2 ^ k) != 0) = v.testBit k := by
  cases hb : v.testBit k
  · have h0 : v &&& 2 ^ k = 0 := by
      apply Nat.eq_of_testBit_eq
      intro i
      rw [Nat.testBit_and, Nat.testBit_two_pow, Nat.zero_testBit]
      by_cases hki : k = i
      · subst hki; simp [hb]
      · simp [hki]
    simp [h0]
  · have h1 : (v &&& 2 ^ k).testBit k = true := by
      rw [Nat.testBit_and, Nat.testBit_two_pow, hb]; simp
    have h2 : v &&& 2 ^ k ≠ 0 := by
      intro h0
      rw [h0, Nat.zero_testBit] at h1
      exact Bool.false_ne_true h1
    simpa using h2

/-- A call keeps the fill flags from being both set. -/
theorem run_fill_exclusive (op : Op) (s t : Blitter) (h : op.run s = some t)
    (hs : ¬ (s.exclusive_fill_ = true ∧ s.inclusive_fill_ = true)) :
    ¬ (t.exclusive_fill_ = true ∧ t.inclusive_fill_ = true) := by
  by_cases hop : ∀ v, op ≠ Op.set_control 1 v
  · have hf := run_fill_flags op s t h hop
    have he : t.exclusive_fill_ = s.exclusive_fill_ := congrArg Prod.fst hf
    have hi : t.inclusive_fill_ = s.inclusive_fill_ := congrArg Prod.snd hf
    rw [he, hi]
    exact hs
  · push_neg at hop
    obtain ⟨v, hv⟩ := hop
    subst hv
    simp only [Op.run] at h
    split_ifs at h
    simp only [Option.some.injEq] at h
    subst h
    rw [(set_control_one s v).1, (set_control_one s v).2.1]
    cases (v &&& 0x0010) != 0 <;> simp

/-- C9. Fill-mode exclusivity: in every state reachable from construction by
setter calls and triggers, `exclusive_fill_` and `inclusive_fill_` are not both
true; `set_control(1, v)` sets `exclusive_fill_` to bit 4 of `v` and
`inclusive_fill_` to bit 3 of `v` and not bit 4; and no other call changes
either flag. -/
theorem fill_mode_exclusivity (s : Blitter) (hs : Reachable s) :
    ¬ (s.exclusive_fill_ = true ∧ s.inclusive_fill_ = true) ∧
    (∀ v, (set_control s 1 v).exclusive_fill_ = v.testBit 4 ∧
      (set_control s 1 v).inclusive_fill_ = (v.testBit 3 && !v.testBit 4)) ∧
    (∀ op t, op.run s = some t → (∀ v, op ≠ Op.set_control 1 v) →
      t.exclusive_fill_ = s.exclusive_fill_ ∧ t.inclusive_fill_ = s.inclusive_fill_) := by
  refine ⟨?_, ?_, ?_⟩
  · induction hs with
    | construct ram ram_mask => simp [initial]
    | call op s t _ hrun ih => exact run_fill_exclusive op s t hrun ih
  · intro v
    rw [(set_control_one s v).1, (set_control_one s v).2.1]
    rw [show ((v &&& 0x0010) != 0) = v.testBit 4 from and_two_pow_ne_zero v 4,
      show ((v &&& 0x0008) != 0) = v.testBit 3 from and_two_pow_ne_zero v 3]
    exact ⟨rfl, Bool.and_comm _ _⟩
  · intro op t hrun hop
    have hf := run_fill_flags op s t hrun hop
    exact ⟨congrArg Prod.fst hf, congrArg Prod.snd hf⟩

/-- Witness of C9: the state after writing `0x0018` (both fill bits) to control
word 1 of a fresh Blitter. -/
theorem fill_mode_exclusivity_witness :
    Reachable (set_control (initial (fun _ => 0) 0xff) 1 0x0018) ∧
    (set_control (initial (fun _ => 0) 0xff) 1 0x0018).exclusive_fill_ = true ∧
    ¬ ((set_control (initial (fun _ => 0) 0xff) 1 0x0018).exclusive_fill_ = true ∧
      (set_control (initial (fun _ => 0) 0xff) 1 0x0018).inclusive_fill_ = true) :=
  ⟨Reachable.call (Op.set_control 1 0x0018) _ _ (Reachable.construct _ _) rfl, by decide,
    (fill_mode_exclusivity _
      (Reachable.call (Op.set_control 1 0x0018) _ _ (Reachable.construct _ _) rfl)).1⟩

theorem line_move_x_shift (s : Blitter) (step : Nat) :
    (line_move_x s step).shifts_0 =
      (if step &&& LEFT ≠ 0 then s.shifts_0 - 1
       else if step &&& RIGHT ≠ 0 then s.shifts_0 + 1 else s.shifts_0) % 16 := by
  unfold line_move_x int_and_15
  split_ifs <;> rfl

theorem line_move_y_shift (s : Blitter) (step : Nat) (draw : Bool) :
    (line_move_y s step draw).1.shifts_0 = s.shifts_0 := by
  unfold line_move_y; split_ifs <;> rfl

/-- A pass of the line loop leaves `shifts_[0]` in `0 .. 15`, whatever it was. -/
theorem line_step_shift_range (st : Blitter × Int × Bool) :
    0 ≤ (line_step st).1.shifts_0 ∧ (line_step st).1.shifts_0 ≤ 15 := by
  unfold line_step
  rw [line_move_y_shift, line_move_x_shift]
  omega

theorem line_loop_shift_range (n : Nat) (st : Blitter × Int × Bool)
    (h : n ≠ 0 ∨ (0 ≤ st.1.shifts_0 ∧ st.1.shifts_0 ≤ 15)) :
    0 ≤ (line_loop n st).1.shifts_0 ∧ (line_loop n st).1.shifts_0 ≤ 15 := by
  induction n generalizing st with
  | zero =>
    rcases h with h | h
    · exact absurd rfl h
    · exact h
  | succ n ih =>
    show 0 ≤ (line_loop n (line_step ({ st.1 with height_ := n }, st.2))).1.shifts_0 ∧
      (line_loop n (line_step ({ st.1 with height_ := n }, st.2))).1.shifts_0 ≤ 15
    exact ih _ (Or.inr (line_step_shift_range _))

/-- A completed line-mode transfer leaves `shifts_[0]` in `0 .. 15`. -/
theorem line_transfer_shift_range (s t : Blitter) (hl : s.line_mode_ = true)
    (h : advance_dma s = some (true, t)) : 0 ≤ t.shifts_0 ∧ t.shifts_0 ≤ 15 := by
  obtain ⟨hh, _, ht⟩ := advance_dma_true s t h
  subst ht
  show 0 ≤ (if s.line_mode_ then line_transfer { s with not_zero_flag_ := false }
       else copy_transfer { s with not_zero_flag_ := false }).shifts_0 ∧
    (if s.line_mode_ then line_transfer { s with not_zero_flag_ := false }
       else copy_transfer { s with not_zero_flag_ := false }).shifts_0 ≤ 15
  rw [hl]
  exact line_loop_shift_range _ _ (Or.inl hh)

theorem shift_field_range (v : Nat) (hv : v < 65536) : v >>> 12 ≤ 15 := by
  rw [Nat.shiftRight_eq_div_pow]
  omega

/-- A call keeps both shift amounts in `0 .. 15`. -/
theorem run_shifts_in_range (op : Op) (s t : Blitter) (h : op.run s = some t)
    (hs : shifts_in_range s) : shifts_in_range t := by
  have keep : shift_pair t = shift_pair s → shifts_in_range t := by
    intro hp
    have h0 : t.shifts_0 = s.shifts_0 := congrArg Prod.fst hp
    have h1 : t.shifts_1 = s.shifts_1 := congrArg Prod.snd hp
    unfold shifts_in_range
    rw [h0, h1]
    exact hs
  cases op with
  | set_control index value =>
    simp only [Op.run] at h
    split_ifs at h with hv
    simp only [Option.some.injEq] at h
    subst h
    have hr := shift_field_range value hv
    have hi : index = 0 ∨ index = 1 := by omega
    rcases hi with hi | hi <;> subst hi
    · refine ⟨?_, ?_⟩
      · rw [(set_control_zero s value).2.1]; omega
      · rw [(set_control_zero s value).2.2]; exact hs.2
    · refine ⟨?_, ?_⟩
      · rw [(set_control_one s value).2.2.2]; exact hs.1
      · rw [(set_control_one s value).2.2.1]; omega
  | set_first_word_mask value | set_last_word_mask value | set_size value | set_minterms value =>
    simp only [Op.run] at h
    split_ifs at h
    simp only [Option.some.injEq] at h
    subst h
    exact keep rfl
  | set_data channel value =>
    simp only [Op.run] at h
    split_ifs at h
    simp only [Option.some.injEq] at h
    subst h
    exact keep (set_data_fields s channel value).2
  | set_pointer id value =>
    simp only [Op.run, Option.some.injEq] at h
    subst h
    exact keep (set_pointer_fields s id value).2
  | set_modulo id value =>
    simp only [Op.run, Option.some.injEq] at h
    subst h
    exact keep (set_modulo_fields s id value).2
  | advance_dma =>
    simp only [Op.run, Option.map_eq_some'] at h
    obtain ⟨⟨b, t1⟩, h1, h2⟩ := h
    simp only at h2
    subst h2
    have hs1 := (advance_dma_fields s t1 b h1).2
    cases b with
    | false =>
      unfold advance_dma at h1
      by_cases h0 : s.height_ = 0
      · rw [if_pos h0] at h1
        simp only [Option.some.injEq, Prod.mk.injEq, true_and] at h1
        subst h1
        exact hs
      · rw [if_neg h0] at h1
        by_cases hl : s.line_mode_ = true <;> by_cases hb : s.b_data_ = 0xffff <;>
          simp [hl, hb] at h1
    | true =>
      refine ⟨?_, by rw [hs1]; exact hs.2⟩
      by_cases hl : s.line_mode_ = true
      · exact line_transfer_shift_range s t1 hl h1
      · rw [(advance_dma_keeps s t1 h1).2.2 (by simpa using hl)]
        exact hs.1

/-- C10. Shift range invariant: in every state reachable from construction by
setter calls and triggers both `shifts_[0]` and `shifts_[1]` lie in `0 .. 15`;
`set_control(i, v)`, for a 16-bit `v`, sets `shifts_[i]` to `v >> 12` (at most
15) and leaves the other slot alone; a horizontal move of a line step replaces
`shifts_[0]` by `shifts_[0] - 1` (left) or `shifts_[0] + 1` (right) modulo 16;
and a completed line-mode transfer leaves `shifts_[0]` in `0 .. 15`. -/
theorem shift_range_invariant (s : Blitter) (hs : Reachable s) :
    shifts_in_range s ∧
    (∀ v, v < 65536 →
      (set_control s 0 v).shifts_0 = ((v >>> 12 : Nat) : Int) ∧
      (set_control s 0 v).shifts_1 = s.shifts_1 ∧
      (set_control s 1 v).shifts_1 = ((v >>> 12 : Nat) : Int) ∧
      (set_control s 1 v).shifts_0 = s.shifts_0 ∧ v >>> 12 ≤ 15) ∧
    (∀ step, (line_move_x s step).shifts_0 =
      (if step &&& LEFT ≠ 0 then s.shifts_0 - 1
       else if step &&& RIGHT ≠ 0 then s.shifts_0 + 1 else s.shifts_0) % 16) ∧
    (∀ t, s.line_mode_ = true → advance_dma s = some (true, t) →
      0 ≤ t.shifts_0 ∧ t.shifts_0 ≤ 15) := by
  refine ⟨?_, ?_, line_move_x_shift s, fun t hl h => line_transfer_shift_range s t hl h⟩
  · induction hs with
    | construct ram ram_mask => simp [initial, shifts_in_range]
    | call op s t _ hrun ih => exact run_shifts_in_range op s t hrun ih
  · intro v hv
    exact ⟨(set_control_zero s v).2.1, (set_control_zero s v).2.2, (set_control_one s v).2.2.1,
      (set_control_one s v).2.2.2, shift_field_range v hv⟩

theorem line_left_example_reachable : Reachable line_left_example :=
  Reachable.call (Op.set_size 0x0041) _ _
    (Reachable.call (Op.set_data 1 0xffff) _ _
      (Reachable.call (Op.set_control 1 0x0015) _ _ (Reachable.construct _ _) rfl) rfl) rfl

/-- Witness of C10: the one-pixel line to the left, which wraps the shift from 0
to 15. -/
theorem shift_range_invariant_witness :
    Reachable line_left_example ∧ shifts_in_range line_left_example ∧
    ∃ t, advance_dma line_left_example = some (true, t) ∧ t.shifts_0 = 15 ∧
      (0 ≤ t.shifts_0 ∧ t.shifts_0 ≤ 15) :=
  ⟨line_left_example_reachable,
    (shift_range_invariant line_left_example line_left_example_reachable).1,
    _, advance_dma_running line_left_example (by decide) (by decide), by decide,
    (shift_range_invariant line_left_example line_left_example_reachable).2.2.2 _ (by decide)
      (advance_dma_running line_left_example (by decide) (by decide))⟩

/-! ## The column step of copy mode -/

/-- The reads of a column: each enabled channel latches the word at its
pointer, a disabled one keeps its latch; the accumulators take the masked A
latch and the B latch; memory, channel D's pointer and the log of stores are
left alone. -/
theorem column_inputs_fields (s : Blitter) (x : Nat) :
    d_side (column_inputs s x) = d_side s ∧
    (column_inputs s x).a_data_ =
      (if s.channel_enables_0 then s.ram_ (s.pointer_0 &&& s.ram_mask_) else s.a_data_) ∧
    (column_inputs s x).b_data_ =
      (if s.channel_enables_1 then s.ram_ (s.pointer_1 &&& s.ram_mask_) else s.b_data_) ∧
    (column_inputs s x).c_data_ =
      (if s.channel_enables_2 then s.ram_ (s.pointer_2 &&& s.ram_mask_) else s.c_data_) ∧
    (column_inputs s x).a32_ =
      u32 (s.a32_ <<< 16) ||| ((column_inputs s x).a_data_ &&& column_mask s x) ∧
    (column_inputs s x).b32_ = u32 (s.b32_ <<< 16) ||| (column_inputs s x).b_data_ := by
  by_cases h0 : s.channel_enables_0 = true <;> by_cases h1 : s.channel_enables_1 = true <;>
    by_cases h2 : s.channel_enables_2 = true <;>
    simp [column_inputs, read_channel_a, read_channel_b, read_channel_c, shift_in_a, shift_in_b,
      d_side, h0, h1, h2]

/-- The store of a column: with channel D enabled the output word goes to memory
at D's masked pointer and is logged; the latches are left alone. -/
theorem store_fields (s : Blitter) (w : Nat) :
    latches (write_channel_d (merge_not_zero s w) w) = latches s ∧
    (s.channel_enables_3 = true →
      (write_channel_d (merge_not_zero s w) w).ram_ =
        (fun i => if i = (s.pointer_3 &&& s.ram_mask_) then w else s.ram_ i) ∧
      (write_channel_d (merge_not_zero s w) w).writes =
        s.writes ++ [(s.pointer_3 &&& s.ram_mask_, w)]) ∧
    (s.channel_enables_3 = false →
      (write_channel_d (merge_not_zero s w) w).ram_ = s.ram_ ∧
      (write_channel_d (merge_not_zero s w) w).writes = s.writes) := by
  by_cases h3 : s.channel_enables_3 = true <;>
    simp [write_channel_d, merge_not_zero, latches, h3]

/-! ## The minterm evaluator -/

/-- Bits of a word assembled by OR-ing single bits `f i` into positions
`0 .. n - 1`. -/
theorem testBit_foldl_or (f : Nat → Nat) (n j : Nat) :
    ((List.range n).foldl (fun acc i => acc ||| ((f i &&& 1) <<< i)) 0).testBit j =
      (decide (j < n) && (f j).testBit 0) := by
  induction n with
  | zero => simp
  | succ n ih =>
    rw [List.range_succ, List.foldl_append, List.foldl_cons, List.foldl_nil, Nat.testBit_or, ih,
      Nat.testBit_shiftLeft, Nat.testBit_and]
    by_cases hjn : j = n
    · subst hjn
      simp
    · by_cases hlt : j < n
      · have h1 : ¬ j ≥ n := by omega
        have h2 : j < n + 1 := by omega
        simp [hlt, h1, h2]
      · have h1 : j ≥ n := by omega
        have h2 : ¬ j < n + 1 := by omega
        have h3 : j - n ≠ 0 := by omega
        have h4 : Nat.testBit 1 (j - n) = false := by
          rw [show (1 : Nat) = 2 ^ 0 from rfl, Nat.testBit_two_pow]
          simp; omega
        simp [hlt, h1, h2, h4]

/-- Bit `j` of the evaluator's result is the truth-table entry selected by bits
`j` of A, B and C, for `j < 16`, and clear above. -/
theorem apply_minterm_testBit (a b c minterm j : Nat) :
    (apply_minterm a b c minterm).testBit j =
      (decide (j < 16) && minterm.testBit (minterm_key (a.testBit j) (b.testBit j) (c.testBit j))) := by
  unfold apply_minterm
  rw [testBit_foldl_or
    (fun i => minterm >>> minterm_key (a.testBit i) (b.testBit i) (c.testBit i)) 16 j]
  simp only [Nat.testBit_shiftRight, Nat.add_zero]

/-- The evaluator's result is a 16-bit word. -/
theorem apply_minterm_lt (a b c minterm : Nat) : apply_minterm a b c minterm < 65536 := by
  apply Nat.lt_pow_two_of_testBit _ (n := 16)
  intro i hi
  rw [apply_minterm_testBit]
  simp; omega

/-- Under the truth table `0xf0` the evaluator returns A. -/
theorem apply_minterm_pass_a (a b c : Nat) : apply_minterm a b c 0xf0 = a % 65536 := by
  apply Nat.eq_of_testBit_eq
  intro j
  rw [apply_minterm_testBit, show (65536 : Nat) = 2 ^ 16 from rfl, Nat.testBit_mod_two_pow]
  have hbits : ∀ x y z : Bool, Nat.testBit 0xf0 (minterm_key x y z) = x := by decide
  rw [hbits]

/-- The barrel shifter applied to a 16-bit accumulator with shift 0 returns the
accumulator, in either direction. -/
theorem barrel_shift_zero (one_dot : Bool) (acc : Nat) (h : acc < 65536) :
    barrel_shift one_dot acc 0 = acc := by
  have h32 : acc >>> 32 = 0 := by
    rw [Nat.shiftRight_eq_div_pow]
    exact Nat.div_eq_of_lt (by omega)
  cases one_dot
  · simp [barrel_shift, u16]; omega
  · simp [barrel_shift, u16, u32, h32]; omega

/-- The barrel shifter applied to an accumulator that is 0 returns 0. -/
theorem barrel_shift_of_zero (one_dot : Bool) (shift : Int) : barrel_shift one_dot 0 shift = 0 := by
  cases one_dot <;> simp [barrel_shift, u16, u32]

/-- The store of column `x`, in terms of the state before the column: with
channel D enabled the column's output word goes to memory at D's masked pointer
and is logged; with channel D disabled memory and the log are left alone. -/
theorem copy_column_store (st : Blitter × Bool) (x : Nat) :
    (st.1.channel_enables_3 = true →
      (copy_column st x).1.ram_ =
        (fun i => if i = (st.1.pointer_3 &&& st.1.ram_mask_)
          then (column_output (column_inputs st.1 x) st.2).1 else st.1.ram_ i) ∧
      (copy_column st x).1.writes =
        st.1.writes ++ [(st.1.pointer_3 &&& st.1.ram_mask_,
          (column_output (column_inputs st.1 x) st.2).1)]) ∧
    (st.1.channel_enables_3 = false →
      (copy_column st x).1.ram_ = st.1.ram_ ∧ (copy_column st x).1.writes = st.1.writes) := by
  have hf := (column_inputs_frame st.1 x).1
  simp only [frame, read_only_registers, Prod.mk.injEq] at hf
  obtain ⟨⟨-, -, ⟨-, -, -, he3⟩, -, -, hmask⟩, -⟩ := hf
  have hd := (column_inputs_fields st.1 x).1
  simp only [d_side, Prod.mk.injEq] at hd
  obtain ⟨hram, hp3, hwr⟩ := hd
  have hs := store_fields (column_inputs st.1 x) (column_output (column_inputs st.1 x) st.2).1
  rw [he3, hram, hp3, hwr, hmask] at hs
  exact hs.2

/-- The latches and accumulators after column `x` are those after its reads. -/
theorem copy_column_latches (st : Blitter × Bool) (x : Nat) :
    latches (copy_column st x).1 = latches (column_inputs st.1 x) :=
  (store_fields (column_inputs st.1 x) (column_output (column_inputs st.1 x) st.2).1).1

/-- A loop that runs once. -/
theorem foldl_range_one {α : Type} (f : α → Nat → α) (a : α) (n : Nat) (h : n = 1) :
    (List.range n).foldl f a = f a 0 := by
  subst h; rfl

/-- A copy-mode transfer of height 1 is one row, and a row of width 1 is one
column followed by the modulo additions. -/
theorem copy_transfer_single (s : Blitter) (hh : s.height_ = 1) (hw : s.width_ = 1) :
    (copy_transfer s).ram_ =
      (copy_column ({ s with a32_ := 0, b32_ := 0 }, s.fill_carry_) 0).1.ram_ := by
  have h1 : copy_transfer s = copy_row { s with a32_ := 0, b32_ := 0 } :=
    foldl_range_one (fun st _ => copy_row st) { s with a32_ := 0, b32_ := 0 } s.height_ hh
  have h2 : (List.range s.width_).foldl copy_column ({ s with a32_ := 0, b32_ := 0 }, s.fill_carry_)
      = copy_column ({ s with a32_ := 0, b32_ := 0 }, s.fill_carry_) 0 :=
    foldl_range_one copy_column _ s.width_ hw
  rw [h1]
  show ((List.range s.width_).foldl copy_column
    ({ s with a32_ := 0, b32_ := 0 }, s.fill_carry_)).1.ram_ = _
  rw [h2]

/-! ## Pure copy -/

/-- C1. Pure copy round trip: for every memory of 16-bit words, all pointers and
modulos and either address direction, a copy-mode transfer with both fill modes
off, width 1, height 1, both masks `0xffff`, A's shift 0, channels A and D
enabled and minterms `0xf0` completes, leaves at `ram_[pointer_[3] & ram_mask_]`
the word that was at `ram_[pointer_[0] & ram_mask_]`, and changes no other
memory word. (Under minterms `0xf0` channel B's shift and whether channels B and
C are enabled make no difference, so B and C disabled and B's shift 0 is a
special case.) -/
theorem pure_copy_round_trip (s : Blitter) (hram : ∀ i, s.ram_ i < 65536)
    (hline : s.line_mode_ = false)
    (hexcl : s.exclusive_fill_ = false) (hincl : s.inclusive_fill_ = false)
    (hw : s.width_ = 1) (hh : s.height_ = 1)
    (hm0 : s.a_mask_0 = 0xffff) (hm1 : s.a_mask_1 = 0xffff)
    (hs0 : s.shifts_0 = 0)
    (he0 : s.channel_enables_0 = true) (he3 : s.channel_enables_3 = true)
    (hmin : s.minterms_ = 0xf0) :
    ∃ t, advance_dma s = some (true, t) ∧
      t.ram_ (s.pointer_3 &&& s.ram_mask_) = s.ram_ (s.pointer_0 &&& s.ram_mask_) ∧
      ∀ i, i ≠ (s.pointer_3 &&& s.ram_mask_) → t.ram_ i = s.ram_ i := by
  have hrun := advance_dma_copy s (by rw [hh]; decide) hline
  have hword := hram (s.pointer_0 &&& s.ram_mask_)
  -- the transfer is one column
  have hsingle := copy_transfer_single { s with not_zero_flag_ := false } hh hw
  -- the column's inputs
  obtain ⟨-, ha, -, -, ha32, -⟩ := column_inputs_fields
    { s with not_zero_flag_ := false, a32_ := 0, b32_ := 0 } 0
  have hf := (column_inputs_frame { s with not_zero_flag_ := false, a32_ := 0, b32_ := 0 } 0)
  obtain ⟨hf, hsh0⟩ := hf
  simp only [frame, read_only_registers, Prod.mk.injEq] at hf
  obtain ⟨⟨-, ⟨hfe, hfi, -, hfm⟩, -, -, -, -⟩, -⟩ := hf
  have hmaskv : column_mask { s with not_zero_flag_ := false, a32_ := 0, b32_ := 0 } 0 = 0xffff := by
    simp [column_mask, hw, hm0, hm1]
  have hacc : (column_inputs { s with not_zero_flag_ := false, a32_ := 0, b32_ := 0 } 0).a32_
      = s.ram_ (s.pointer_0 &&& s.ram_mask_) := by
    rw [ha32, ha, hmaskv]
    simp only [he0, if_true]
    have : s.ram_ (s.pointer_0 &&& s.ram_mask_) &&& 0xffff = s.ram_ (s.pointer_0 &&& s.ram_mask_) :=
      Nat.and_pow_two_sub_one_of_lt_two_pow (n := 16) hword
    rw [this]
    simp [u32]
  -- the column's output is the word read through channel A
  have hout : (column_output
      (column_inputs { s with not_zero_flag_ := false, a32_ := 0, b32_ := 0 } 0) s.fill_carry_).1
      = s.ram_ (s.pointer_0 &&& s.ram_mask_) := by
    unfold column_output
    rw [hfe, hfi, hfm, hsh0, hacc]
    simp only [hexcl, hincl, hmin, hs0, Bool.or_self, Bool.false_eq_true, if_false]
    rw [apply_minterm_pass_a, barrel_shift_zero _ _ hword]
    exact Nat.mod_eq_of_lt hword
  have hstore := (copy_column_store
    ({ s with not_zero_flag_ := false, a32_ := 0, b32_ := 0 }, s.fill_carry_) 0).1 he3
  refine ⟨_, hrun, ?_, ?_⟩
  · show (copy_transfer { s with not_zero_flag_ := false }).ram_ _ = _
    rw [hsingle]
    show (copy_column ({ s with not_zero_flag_ := false, a32_ := 0, b32_ := 0 }, s.fill_carry_) 0).1.ram_
      (s.pointer_3 &&& s.ram_mask_) = _
    rw [hstore.1]
    simp only [if_true]
    exact hout
  · intro i hi
    show (copy_transfer { s with not_zero_flag_ := false }).ram_ i = _
    rw [hsingle]
    show (copy_column ({ s with not_zero_flag_ := false, a32_ := 0, b32_ := 0 }, s.fill_carry_) 0).1.ram_
      i = _
    rw [hstore.1]
    simp only [hi, if_false]

/-- Witness of C1: the one-word copy from word 5 to word 9. -/
theorem pure_copy_round_trip_witness :
    copy_example.ram_ (copy_example.pointer_0 &&& copy_example.ram_mask_) = 12 ∧
    ∃ t, advance_dma copy_example = some (true, t) ∧
      t.ram_ (copy_example.pointer_3 &&& copy_example.ram_mask_) =
        copy_example.ram_ (copy_example.pointer_0 &&& copy_example.ram_mask_) ∧
      ∀ i, i ≠ (copy_example.pointer_3 &&& copy_example.ram_mask_) →
        t.ram_ i = copy_example.ram_ i :=
  ⟨by decide,
    pure_copy_round_trip copy_example (fun i => Nat.mod_lt _ (by decide))
      rfl rfl rfl rfl rfl rfl rfl rfl rfl rfl rfl⟩

/-! ## Transfers through channel D alone -/

/-- A loop whose every pass advances a counter by `c` advances it by `c` times
the number of passes. -/
theorem foldl_counting {α β : Type} (P : Nat → α → Prop) (f : α → β → α) (c : Nat)
    (step : ∀ k a b, P k a → P (k + c) (f a b)) (l : List β) (k : Nat) (a : α) (h : P k a) :
    P (k + c * l.length) (l.foldl f a) := by
  induction l generalizing k a with
  | nil => simpa using h
  | cons b l ih =>
    have := ih (k + c) (f a b) (step k a b h)
    rw [List.length_cons, Nat.mul_succ, Nat.add_comm (c * l.length) c, ← Nat.add_assoc]
    exact this

theorem d_only_column (s0 : Blitter)
    (hexcl : s0.exclusive_fill_ = false) (hincl : s0.inclusive_fill_ = false)
    (he0 : s0.channel_enables_0 = false) (he1 : s0.channel_enables_1 = false)
    (he2 : s0.channel_enables_2 = false) (he3 : s0.channel_enables_3 = true)
    (k : Nat) (st : Blitter × Bool) (x : Nat) (h : d_only_inv s0 k st.1) :
    d_only_inv s0 (k + 1) (copy_column st x).1 := by
  obtain ⟨hf, hl, new, hw, hlen, hall⟩ := h
  -- registers of the state before the column
  have hf1 := hf
  simp only [frame, read_only_registers, Prod.mk.injEq] at hf1
  obtain ⟨⟨-, -, ⟨h0, h1, h2, h3⟩, -, -, -⟩, -⟩ := hf1
  rw [he0] at h0; rw [he1] at h1; rw [he2] at h2; rw [he3] at h3
  simp only [latches, Prod.mk.injEq] at hl
  obtain ⟨hla, hlb, hlc, hla32, hlb32⟩ := hl
  -- the inputs of the column
  obtain ⟨-, ha, hb, hc, ha32, hb32⟩ := column_inputs_fields st.1 x
  rw [h0] at ha; rw [h1] at hb; rw [h2] at hc
  simp only [Bool.false_eq_true, if_false] at ha hb hc
  rw [hla] at ha; rw [hlb] at hb; rw [hlc] at hc
  rw [ha, hla32] at ha32
  rw [hb, hlb32] at hb32
  have ha32z : (column_inputs st.1 x).a32_ = 0 := by rw [ha32]; simp [u32]
  have hb32z : (column_inputs st.1 x).b32_ = 0 := by rw [hb32]; simp [u32]
  have hfi := ((column_inputs_frame st.1 x).1).trans hf
  simp only [frame, read_only_registers, Prod.mk.injEq] at hfi
  obtain ⟨⟨-, ⟨hie, hii, -, him⟩, -, -, -, -⟩, -⟩ := hfi
  have hout : (column_output (column_inputs st.1 x) st.2).1 = apply_minterm 0 0 0 s0.minterms_ := by
    unfold column_output
    rw [hie, hii, him, ha32z, hb32z, hc, barrel_shift_of_zero, barrel_shift_of_zero]
    simp only [hexcl, hincl, Bool.or_self, Bool.false_eq_true, if_false]
  refine ⟨(copy_column_frame st x).1.trans hf, ?_, ?_⟩
  · rw [copy_column_latches]
    simp only [latches, ha, hb, hc, ha32z, hb32z]
  · refine ⟨new ++ [(st.1.pointer_3 &&& st.1.ram_mask_,
      (column_output (column_inputs st.1 x) st.2).1)], ?_, ?_, ?_⟩
    · rw [((copy_column_store st x).1 h3).2, hw, List.append_assoc]
    · rw [List.length_append, hlen]; rfl
    · intro p hp
      rw [List.mem_append] at hp
      rcases hp with hp | hp
      · exact hall p hp
      · rw [List.mem_singleton] at hp
        rw [hp]
        exact hout

theorem d_only_row (s0 : Blitter)
    (hexcl : s0.exclusive_fill_ = false) (hincl : s0.inclusive_fill_ = false)
    (he0 : s0.channel_enables_0 = false) (he1 : s0.channel_enables_1 = false)
    (he2 : s0.channel_enables_2 = false) (he3 : s0.channel_enables_3 = true)
    (k : Nat) (s : Blitter) (h : d_only_inv s0 k s) :
    d_only_inv s0 (k + s0.width_) (copy_row s) := by
  have hwidth : s.width_ = s0.width_ := by
    have hf := h.1
    simp only [frame, read_only_registers, Prod.mk.injEq] at hf
    exact hf.1.2.2.2.1.2.2.2
  have hfold := foldl_counting (fun k (st : Blitter × Bool) => d_only_inv s0 k st.1) copy_column 1
    (fun k a b ha => d_only_column s0 hexcl hincl he0 he1 he2 he3 k a b ha)
    (List.range s.width_) k (s, s.fill_carry_) h
  have hcount : k + 1 * (List.range s.width_).length = k + s0.width_ := by
    rw [List.length_range, Nat.one_mul, hwidth]
  rw [hcount] at hfold
  obtain ⟨hf, hl, hw⟩ := hfold
  exact ⟨hf, hl, hw⟩

/-- C7, amended. Transfer through channel D alone: from a state with `height_`
nonzero, line mode and both fill modes off, channels A, B and C disabled,
channel D enabled and the A, B and C data latches holding 0 (whatever the masks
and shifts), the transfer completes, stores `width_ * height_` words through
channel D, and every one of them is the minterm evaluator's result for
(A, B, C) = (0, 0, 0) under the programmed minterms. -/
theorem d_only_transfer_amended (s : Blitter) (hh : s.height_ ≠ 0)
    (hline : s.line_mode_ = false)
    (hexcl : s.exclusive_fill_ = false) (hincl : s.inclusive_fill_ = false)
    (he0 : s.channel_enables_0 = false) (he1 : s.channel_enables_1 = false)
    (he2 : s.channel_enables_2 = false) (he3 : s.channel_enables_3 = true)
    (ha : s.a_data_ = 0) (hb : s.b_data_ = 0) (hc : s.c_data_ = 0) :
    ∃ t new, advance_dma s = some (true, t) ∧ t.writes = s.writes ++ new ∧
      new.length = s.width_ * s.height_ ∧
      ∀ p ∈ new, p.2 = apply_minterm 0 0 0 s.minterms_ := by
  have hstart : d_only_inv s 0 { s with not_zero_flag_ := false, a32_ := 0, b32_ := 0 } := by
    refine ⟨rfl, ?_, [], by simp, rfl, by simp⟩
    simp only [latches, ha, hb, hc]
  have hfold := foldl_counting (d_only_inv s) (fun st (_ : Nat) => copy_row st) s.width_
    (fun k a _ hk => d_only_row s hexcl hincl he0 he1 he2 he3 k a hk)
    (List.range s.height_) 0 _ hstart
  rw [List.length_range, Nat.zero_add] at hfold
  obtain ⟨-, -, new, hw, hlen, hall⟩ := hfold
  exact ⟨_, new, advance_dma_copy s hh hline, hw, hlen, hall⟩

/-- C7, counterexample. With channels A, B and C disabled the evaluator still
receives the latches: with the B latch at `0xffff` and minterms `0xcc` the word
stored through channel D is `0xffff`, while the evaluator's result for
(0, 0, 0) is 0. -/
theorem d_only_transfer_counterexample :
    (d_only_example.height_ ≠ 0 ∧ d_only_example.line_mode_ = false ∧
      d_only_example.exclusive_fill_ = false ∧ d_only_example.inclusive_fill_ = false ∧
      d_only_example.channel_enables_0 = false ∧ d_only_example.channel_enables_1 = false ∧
      d_only_example.channel_enables_2 = false ∧ d_only_example.channel_enables_3 = true) ∧
    (∃ t, advance_dma d_only_example = some (true, t) ∧ t.writes = [(0, 0xffff)]) ∧
    apply_minterm 0 0 0 d_only_example.minterms_ = 0 :=
  ⟨by decide, ⟨_, advance_dma_copy d_only_example (by decide) rfl, by decide⟩, by decide⟩

/-- Witness of C7 (amended): two rows of two words with minterms `0xff`. -/
theorem d_only_transfer_amended_witness :
    d_only_zero_example.width_ * d_only_zero_example.height_ = 4 ∧
    ∃ t new, advance_dma d_only_zero_example = some (true, t) ∧
      t.writes = d_only_zero_example.writes ++ new ∧
      new.length = d_only_zero_example.width_ * d_only_zero_example.height_ ∧
      ∀ p ∈ new, p.2 = apply_minterm 0 0 0 d_only_zero_example.minterms_ :=
  ⟨by decide,
    d_only_transfer_amended d_only_zero_example (by decide) rfl rfl rfl rfl rfl rfl rfl rfl rfl rfl⟩

/-! ## Inclusive and exclusive fill -/

/-- C20. Inclusive versus exclusive fill: for every nibble `n` and entry carry
`c`, the inclusive-fill output of `fill_nibble` is the exclusive-fill output
OR-ed with `n`, its bit `i` is (`c` XOR bits `0 .. i - 1` of `n`) OR bit `i` of
`n`, and the inclusive exit carry is the exclusive exit carry, `c` XOR the
parity of `n`; the packed-table lookups at keys `n | c << 4` and
`n | c << 4 | 1 << 5` return the inclusive and the exclusive entry; and
inclusive fill of nibble 0 with carry 0 gives output 0 and exit carry 0. -/
theorem inclusive_versus_exclusive_fill (n c : Nat) (hn : n < 16) (hc : c < 2) :
    fill_nibble false false c n = fill_nibble false true c n ||| n ∧
    (∀ i, i < 4 → (fill_nibble false false c n).testBit i =
      (xor_bits (c != 0) n.testBit i || n.testBit i)) ∧
    fill_nibble true false c n = fill_nibble true true c n ∧
    fill_nibble true false c n = (xor_bits (c != 0) n.testBit 4).toNat ∧
    (fill_values_lookup (n ||| (c <<< 4)) = fill_nibble false false c n ∧
      fill_carries_lookup (n ||| (c <<< 4)) = fill_nibble true false c n) ∧
    (fill_values_lookup (n ||| (c <<< 4) ||| (1 <<< 5)) = fill_nibble false true c n ∧
      fill_carries_lookup (n ||| (c <<< 4) ||| (1 <<< 5)) = fill_nibble true true c n) ∧
    (fill_nibble false false 0 0 = 0 ∧ fill_nibble true false 0 0 = 0) := by
  interval_cases n <;> interval_cases c <;> decide

/-- Witness of C20 at nibble `0b0100` with entry carry 0. -/
theorem inclusive_versus_exclusive_fill_witness :
    (4 < 16 ∧ 0 < 2) ∧ fill_nibble false false 0 4 = 0xc ∧ fill_nibble false true 0 4 = 0xc ∧
    fill_nibble true false 0 4 = 1 :=
  ⟨by decide, by decide,
    (inclusive_versus_exclusive_fill 4 0 (by decide) (by decide)).1.symm.symm.symm.trans (by decide),
    (inclusive_versus_exclusive_fill 4 0 (by decide) (by decide)).2.2.2.1.trans (by decide)⟩

/-! ## Line mode -/

/-- An arithmetic right shift of an `int` by one bit is the floor of its half. -/
theorem int_shiftRight_one (x : Int) : x >>> (1 : Int) = x / 2 := by
  cases x with
  | ofNat m =>
    have h := Int.shiftRight_coe_nat m 1
    rw [Nat.shiftRight_eq_div_pow] at h
    exact h.trans (by simp)
  | negSucc m =>
    have h := Int.shiftRight_negSucc m 1
    rw [Nat.shiftRight_eq_div_pow] at h
    refine h.trans ?_
    rw [Int.negSucc_eq, Int.negSucc_eq]
    push_cast
    omega

/-- The error term a line-mode transfer starts with is the sign extension of the
low 15 bits of `pointer_[0]`. -/
theorem line_error_seed_eq (s : Blitter) : line_error_seed s = sign_extend_15 s.pointer_0 := by
  unfold line_error_seed sign_extend_15 to_int16 u16 u32
  rw [Nat.shiftLeft_eq, int_shiftRight_one]
  split_ifs <;> omega

/-- C16, counterexample. With `0x4000` in `pointer_[0]` the line starts with the
error term -16384, while the low 16 bits of the pointer read as a signed 16-bit
integer are 16384. -/
theorem line_error_seed_counterexample :
    seed_example.pointer_0 = 0x4000 ∧ line_error_seed seed_example = -16384 ∧
    to_int16 seed_example.pointer_0 = 16384 := by
  decide

/-- C16, amended. Line error seed: for every value of `pointer_[0]`, a line-mode
transfer starts its loop with `draw_` set and with the error term equal to the
low 15 bits of `pointer_[0]` read as a signed (two's-complement) 15-bit integer,
which is `int16_t(pointer_[0] << 1) >> 1`. -/
theorem line_error_seed_amended (s : Blitter) :
    line_transfer s = (line_loop s.height_ (s, line_error_seed s, true)).1 ∧
    line_error_seed s = sign_extend_15 s.pointer_0 ∧
    line_error_seed s = to_int16 (u32 (s.pointer_0 <<< 1)) >>> 1 ∧
    (-16384 ≤ line_error_seed s ∧ line_error_seed s < 16384) := by
  refine ⟨rfl, line_error_seed_eq s, rfl, ?_⟩
  rw [line_error_seed_eq]
  unfold sign_extend_15
  split_ifs <;> omega

/-- The vertical part of a line step: an upward move takes the row stride
`modulos_[2]` off channel D's pointer, a downward move adds it, and either sets
`draw_`; without a vertical move the pointer and `draw_` are kept. -/
theorem line_move_y_eq (s : Blitter) (step : Nat) (draw : Bool) :
    (line_move_y s step draw).1.pointer_3 =
      (if step &&& UP ≠ 0 then u32 (s.pointer_3 + (4294967296 - u32 s.modulos_2))
       else if step &&& DOWN ≠ 0 then u32 (s.pointer_3 + s.modulos_2) else s.pointer_3) ∧
    (line_move_y s step draw).2 = (decide (step &&& UP ≠ 0) || decide (step &&& DOWN ≠ 0) || draw) := by
  unfold line_move_y
  split_ifs <;> simp [*]

/-- C15, counterexample. In the octant `0b110` bit 1 of `line_direction_` is set and
bit 0 is clear, yet the major-axis move is to the right (the shift goes from 0 to
1) and the minor-axis move is up (channel D's pointer goes from 100 to 60, one
row stride of 40 less). -/
theorem line_direction_decode_counterexample :
    (octant_example.line_direction_ = 6 ∧ octant_example.shifts_0 = 0 ∧
      octant_example.pointer_3 = 100 ∧ octant_example.modulos_2 = 40) ∧
    line_step_flags 6 (line_error_seed octant_example) = RIGHT ||| UP ∧
    ∃ t, advance_dma octant_example = some (true, t) ∧ t.shifts_0 = 1 ∧ t.pointer_3 = 60 :=
  ⟨by decide, by decide, _, advance_dma_running octant_example (by decide) (by decide),
    by decide, by decide⟩

/-- The flags of a line step, decoded: which of the four moves are made for a
given `line_direction_` and error term. -/
theorem line_step_flags_decode (line_direction : Nat) (error : Int) :
    (line_direction &&& 4 ≠ 0 →
      (line_step_flags line_direction error &&& LEFT ≠ 0 ↔ line_direction &&& 1 ≠ 0) ∧
      (line_step_flags line_direction error &&& RIGHT ≠ 0 ↔ line_direction &&& 1 = 0) ∧
      (line_step_flags line_direction error &&& UP ≠ 0 ↔
        0 ≤ error ∧ line_direction &&& 2 ≠ 0) ∧
      (line_step_flags line_direction error &&& DOWN ≠ 0 ↔
        0 ≤ error ∧ line_direction &&& 2 = 0)) ∧
    (line_direction &&& 4 = 0 →
      (line_step_flags line_direction error &&& UP ≠ 0 ↔ line_direction &&& 1 ≠ 0) ∧
      (line_step_flags line_direction error &&& DOWN ≠ 0 ↔ line_direction &&& 1 = 0) ∧
      (line_step_flags line_direction error &&& LEFT ≠ 0 ↔
        0 ≤ error ∧ line_direction &&& 2 ≠ 0) ∧
      (line_step_flags line_direction error &&& RIGHT ≠ 0 ↔
        0 ≤ error ∧ line_direction &&& 2 = 0)) := by
  have hflags : (LEFT &&& LEFT ≠ 0 ∧ LEFT &&& RIGHT = 0 ∧ LEFT &&& UP = 0 ∧ LEFT &&& DOWN = 0) ∧
      (RIGHT &&& LEFT = 0 ∧ RIGHT &&& RIGHT ≠ 0 ∧ RIGHT &&& UP = 0 ∧ RIGHT &&& DOWN = 0) ∧
      (UP &&& LEFT = 0 ∧ UP &&& RIGHT = 0 ∧ UP &&& UP ≠ 0 ∧ UP &&& DOWN = 0) ∧
      (DOWN &&& LEFT = 0 ∧ DOWN &&& RIGHT = 0 ∧ DOWN &&& UP = 0 ∧ DOWN &&& DOWN ≠ 0) := by
    decide
  have hor : ∀ a b c : Nat, (a ||| b) &&& c ≠ 0 ↔ (a &&& c ≠ 0 ∨ b &&& c ≠ 0) := by
    intro a b c
    rw [Nat.and_comm (a ||| b) c, Nat.and_or_distrib_left, Nat.and_comm c a, Nat.and_comm c b]
    constructor
    · intro h
      by_contra hn
      push_neg at hn
      rw [hn.1, hn.2] at h
      exact h rfl
    · intro h hz
      have hbits : ∀ i, (a &&& c).testBit i = false ∧ (b &&& c).testBit i = false := by
        intro i
        have hi := congrArg (fun n => Nat.testBit n i) hz
        simp only [Nat.testBit_or, Nat.zero_testBit, Bool.or_eq_false_iff] at hi
        exact hi
      rcases h with h | h
      · exact h (Nat.eq_of_testBit_eq (fun i => by rw [(hbits i).1, Nat.zero_testBit]))
      · exact h (Nat.eq_of_testBit_eq (fun i => by rw [(hbits i).2, Nat.zero_testBit]))
  obtain ⟨⟨l1, l2, l3, l4⟩, ⟨r1, r2, r3, r4⟩, ⟨u1, u2, u3, u4⟩, ⟨d1, d2, d3, d4⟩⟩ := hflags
  unfold line_step_flags
  by_cases h4 : line_direction &&& 4 = 0 <;> by_cases h1 : line_direction &&& 1 = 0 <;>
    by_cases h2 : line_direction &&& 2 = 0 <;> by_cases he : error < 0 <;>
    simp only [h4, h1, h2, he, hor, ne_eq, not_true_eq_false, not_false_eq_true, if_true, if_false,
      false_implies, true_implies, and_true, true_and, l2, l3, l4, r1, r3, r4, u1, u2, u4, d1, d2,
      d3, or_false, false_or, false_and, and_false, iff_false, iff_true, not_le, not_lt, not_not,
      and_self, iff_self, true_or, or_true, or_self] <;>
    first
    | exact l1 | exact r2 | exact u3 | exact d4 | omega
    | exact ⟨l1, fun h => h.elim, fun h => by omega⟩
    | exact ⟨r2, fun h => h.elim, fun h => by omega⟩
    | exact ⟨u3, fun h => h.elim, fun h => by omega⟩
    | exact ⟨d4, fun h => h.elim, fun h => by omega⟩

/-- C15, amended. Line direction decode: the flags of a line step make the major
axis x when bit 2 of `line_direction_` is set and y when it is clear; the
major-axis move is always made, and is in the negative direction (left, or up)
exactly when bit 0 of `line_direction_` is set; a minor-axis move is made exactly
when the error term is not negative, and is in the negative direction (up, or
left) exactly when bit 1 of `line_direction_` is set. A move to the left or to the
right takes 1 off or adds 1 to `shifts_[0]` modulo 16; a move up or down takes
the row stride `modulos_[2]` off or adds it to channel D's pointer. -/
theorem line_direction_decode_amended (line_direction : Nat) (error : Int) :
    ((line_direction &&& 4 ≠ 0 →
      (line_step_flags line_direction error &&& LEFT ≠ 0 ↔ line_direction &&& 1 ≠ 0) ∧
      (line_step_flags line_direction error &&& RIGHT ≠ 0 ↔ line_direction &&& 1 = 0) ∧
      (line_step_flags line_direction error &&& UP ≠ 0 ↔
        0 ≤ error ∧ line_direction &&& 2 ≠ 0) ∧
      (line_step_flags line_direction error &&& DOWN ≠ 0 ↔
        0 ≤ error ∧ line_direction &&& 2 = 0)) ∧
    (line_direction &&& 4 = 0 →
      (line_step_flags line_direction error &&& UP ≠ 0 ↔ line_direction &&& 1 ≠ 0) ∧
      (line_step_flags line_direction error &&& DOWN ≠ 0 ↔ line_direction &&& 1 = 0) ∧
      (line_step_flags line_direction error &&& LEFT ≠ 0 ↔
        0 ≤ error ∧ line_direction &&& 2 ≠ 0) ∧
      (line_step_flags line_direction error &&& RIGHT ≠ 0 ↔
        0 ≤ error ∧ line_direction &&& 2 = 0))) ∧
    (∀ (t : Blitter) (draw : Bool),
      (line_move_x t (line_step_flags line_direction error)).shifts_0 =
        (if line_step_flags line_direction error &&& LEFT ≠ 0 then t.shifts_0 - 1
         else if line_step_flags line_direction error &&& RIGHT ≠ 0 then t.shifts_0 + 1
         else t.shifts_0) % 16 ∧
      (line_move_y t (line_step_flags line_direction error) draw).1.pointer_3 =
        (if line_step_flags line_direction error &&& UP ≠ 0
          then u32 (t.pointer_3 + (4294967296 - u32 t.modulos_2))
         else if line_step_flags line_direction error &&& DOWN ≠ 0
          then u32 (t.pointer_3 + t.modulos_2)
         else t.pointer_3)) :=
  ⟨line_step_flags_decode line_direction error,
    fun t draw => ⟨line_move_x_shift t _, (line_move_y_eq t _ draw).1⟩⟩

/-- Witness of C15 (amended): the octant `0b110` with error term 0. -/
theorem line_direction_decode_amended_witness :
    6 &&& 4 ≠ 0 ∧
    (line_step_flags 6 0 &&& LEFT ≠ 0 ↔ 6 &&& 1 ≠ 0) ∧
    (line_step_flags 6 0 &&& RIGHT ≠ 0 ↔ 6 &&& 1 = 0) ∧
    (line_step_flags 6 0 &&& UP ≠ 0 ↔ (0 : Int) ≤ 0 ∧ 6 &&& 2 ≠ 0) ∧
    (line_step_flags 6 0 &&& DOWN ≠ 0 ↔ (0 : Int) ≤ 0 ∧ 6 &&& 2 = 0) :=
  ⟨by decide, (line_direction_decode_amended 6 0).1.1 (by decide)⟩

/-- The horizontal part of a line step moves channel D's pointer by one word when
the shift leaves `0 .. 15`. -/
theorem line_move_x_pointer (s : Blitter) (step : Nat) :
    (line_move_x s step).pointer_3 =
      (if step &&& LEFT ≠ 0 then
        (if s.shifts_0 - 1 = -1 then u32 (s.pointer_3 + 0xffffffff) else s.pointer_3)
       else if step &&& RIGHT ≠ 0 then
        (if s.shifts_0 + 1 = 16 then u32 (s.pointer_3 + 1) else s.pointer_3)
       else s.pointer_3) := by
  unfold line_move_x
  by_cases hl : step &&& LEFT ≠ 0
  · rw [if_pos hl, if_pos hl]
  · by_cases hr : step &&& RIGHT ≠ 0
    · rw [if_neg hl, if_neg hl, if_pos hr, if_pos hr]
    · rw [if_neg hl, if_neg hl, if_neg hr, if_neg hr]

/-- C18. Horizontal pixel step: from a shift `s` in `0 .. 15` and channel D's
pointer `p`, a move to the right yields shift `s + 1` and pointer `p` when
`s < 15`, and shift 0 and pointer `p + 1` when `s = 15`; a move to the left
yields shift `s - 1` and pointer `p` when `s > 0`, and shift 15 and pointer
`p - 1` when `s = 0`; the pointer being a `uint32_t`, `p + 1` and `p - 1` are
taken modulo `2 ^ 32`. So the pixel coordinate `16 * p + s` changes by +1 or by
-1 modulo `2 ^ 36`, and by exactly +1 or -1 when the pointer does not wrap. -/
theorem horizontal_pixel_step (s : Blitter) (step : Nat)
    (hs : 0 ≤ s.shifts_0 ∧ s.shifts_0 ≤ 15) (hp : s.pointer_3 < 4294967296) :
    (step &&& LEFT = 0 → step &&& RIGHT ≠ 0 →
      (s.shifts_0 < 15 →
        (line_move_x s step).shifts_0 = s.shifts_0 + 1 ∧
        (line_move_x s step).pointer_3 = s.pointer_3) ∧
      (s.shifts_0 = 15 →
        (line_move_x s step).shifts_0 = 0 ∧
        (line_move_x s step).pointer_3 = (s.pointer_3 + 1) % 4294967296) ∧
      (16 * ((line_move_x s step).pointer_3 : Int) + (line_move_x s step).shifts_0) % 68719476736
        = (16 * (s.pointer_3 : Int) + s.shifts_0 + 1) % 68719476736 ∧
      (¬ (s.shifts_0 = 15 ∧ s.pointer_3 = 4294967295) →
        16 * ((line_move_x s step).pointer_3 : Int) + (line_move_x s step).shifts_0
          = 16 * (s.pointer_3 : Int) + s.shifts_0 + 1)) ∧
    (step &&& LEFT ≠ 0 →
      (0 < s.shifts_0 →
        (line_move_x s step).shifts_0 = s.shifts_0 - 1 ∧
        (line_move_x s step).pointer_3 = s.pointer_3) ∧
      (s.shifts_0 = 0 →
        (line_move_x s step).shifts_0 = 15 ∧
        (line_move_x s step).pointer_3 = (s.pointer_3 + 4294967295) % 4294967296) ∧
      (16 * ((line_move_x s step).pointer_3 : Int) + (line_move_x s step).shifts_0) % 68719476736
        = (16 * (s.pointer_3 : Int) + s.shifts_0 - 1) % 68719476736 ∧
      (¬ (s.shifts_0 = 0 ∧ s.pointer_3 = 0) →
        16 * ((line_move_x s step).pointer_3 : Int) + (line_move_x s step).shifts_0
          = 16 * (s.pointer_3 : Int) + s.shifts_0 - 1)) := by
  obtain ⟨hs0, hs15⟩ := hs
  rw [line_move_x_shift, line_move_x_pointer]
  unfold u32
  constructor
  · intro hl hr
    rw [if_neg (not_not.mpr hl), if_pos hr, if_neg (not_not.mpr hl), if_pos hr]
    refine ⟨?_, ?_, ?_, ?_⟩
    · intro h; split_ifs <;> omega
    · intro h; split_ifs <;> omega
    · split_ifs <;> omega
    · intro h; split_ifs <;> omega
  · intro hl
    rw [if_pos hl, if_pos hl]
    refine ⟨?_, ?_, ?_, ?_⟩
    · intro h; split_ifs <;> omega
    · intro h; split_ifs <;> omega
    · split_ifs <;> omega
    · intro h; split_ifs <;> omega

/-- Witness of C18: a move to the right from shift 15 at word 7, and a move to
the left from shift 0 at word 7. -/
theorem horizontal_pixel_step_witness :
    (line_move_x { line_example with shifts_0 := 15, pointer_3 := 7 } RIGHT).shifts_0 = 0 ∧
    (line_move_x { line_example with shifts_0 := 15, pointer_3 := 7 } RIGHT).pointer_3 = 8 ∧
    (line_move_x { line_example with shifts_0 := 0, pointer_3 := 7 } LEFT).shifts_0 = 15 ∧
    (line_move_x { line_example with shifts_0 := 0, pointer_3 := 7 } LEFT).pointer_3 = 6 :=
  ⟨((horizontal_pixel_step { line_example with shifts_0 := 15, pointer_3 := 7 } RIGHT
      (by decide) (by decide)).1 (by decide) (by decide)).2.1 rfl |>.1,
    ((horizontal_pixel_step { line_example with shifts_0 := 15, pointer_3 := 7 } RIGHT
      (by decide) (by decide)).1 (by decide) (by decide)).2.1 rfl |>.2,
    ((horizontal_pixel_step { line_example with shifts_0 := 0, pointer_3 := 7 } LEFT
      (by decide) (by decide)).2 (by decide)).2.1 rfl |>.1,
    ((horizontal_pixel_step { line_example with shifts_0 := 0, pointer_3 := 7 } LEFT
      (by decide) (by decide)).2 (by decide)).2.1 rfl |>.2⟩

/-- The first `k` passes of the line loop leave the read-only registers alone. -/
theorem line_after_frame (n k : Nat) (st : Blitter × Int × Bool) :
    frame (line_after n k st).1 = frame st.1 := by
  induction n generalizing k st with
  | zero => rfl
  | succ n ih =>
    cases k with
    | zero => rfl
    | succ k =>
      show frame (line_after n k (line_step ({ st.1 with height_ := n }, st.2))).1 = frame st.1
      exact (ih k _).trans (line_step_frame _)

/-- All the passes of the line loop. -/
theorem line_after_all (n : Nat) (st : Blitter × Int × Bool) :
    line_after n n st = line_loop n st := by
  induction n generalizing st with
  | zero => rfl
  | succ n ih =>
    show line_after n n (line_step ({ st.1 with height_ := n }, st.2)) =
      line_loop n (line_step ({ st.1 with height_ := n }, st.2))
    exact ih _

/-- Pass `k` of the line loop is a step from the state after `k` passes, run with
`height_` already decremented. -/
theorem line_after_succ (n k : Nat) (st : Blitter × Int × Bool) (hk : k < n) :
    line_after n (k + 1) st =
      line_step ({ (line_after n k st).1 with height_ := n - 1 - k }, (line_after n k st).2) := by
  induction n generalizing k st with
  | zero => exact absurd hk (Nat.not_lt_zero k)
  | succ n ih =>
    cases k with
    | zero =>
      cases n with
      | zero => rfl
      | succ n => rfl
    | succ k =>
      show line_after n (k + 1) (line_step ({ st.1 with height_ := n }, st.2)) = _
      rw [ih k _ (by omega)]
      have hn : n + 1 - 1 - (k + 1) = n - 1 - k := by omega
      rw [hn]
      rfl

/-- The compound assignment `error += modulo` is addition with 32-bit
two's-complement wraparound. -/
theorem add_int_u32_eq (error : Int) (modulo : Nat) :
    add_int_u32 error modulo = wrap32 (error + modulo) := by
  unfold add_int_u32 to_int32 of_int32 u32 wrap32
  split_ifs <;> omega

/-- What a pass of the line loop does to `error` and `draw_`. -/
theorem line_step_locals (st : Blitter × Int × Bool) :
    (line_step st).2.1 =
      (if st.2.1 < 0 then wrap32 (st.2.1 + st.1.modulos_1) else wrap32 (st.2.1 + st.1.modulos_0)) ∧
    (line_step st).2.2 =
      (moves_vertically (line_step_flags st.1.line_direction_ st.2.1) ||
        (st.2.2 && !st.1.one_dot_)) := by
  have hd : (if st.2.2 = true then line_draw st.1 else st.1).line_direction_ = st.1.line_direction_ := by
    split_ifs <;> rfl
  have h0 : (if st.2.2 = true then line_draw st.1 else st.1).modulos_0 = st.1.modulos_0 := by
    split_ifs <;> rfl
  have h1 : (if st.2.2 = true then line_draw st.1 else st.1).modulos_1 = st.1.modulos_1 := by
    split_ifs <;> rfl
  constructor
  · show (if st.2.1 < 0
        then add_int_u32 st.2.1 (if st.2.2 = true then line_draw st.1 else st.1).modulos_1
        else add_int_u32 st.2.1 (if st.2.2 = true then line_draw st.1 else st.1).modulos_0) = _
    rw [h0, h1, add_int_u32_eq, add_int_u32_eq]
  · show (line_move_y _ (line_step_flags (if st.2.2 = true then line_draw st.1 else st.1).line_direction_
        st.2.1) (if st.2.2 = true then (st.2.2 && !st.1.one_dot_) else st.2.2)).2 = _
    rw [hd, (line_move_y_eq _ _ _).2]
    unfold moves_vertically
    cases st.2.2 <;> simp

/-- A trigger in line mode with `height_` nonzero and the B latch all ones
returns `true` with the completed line transfer. -/
theorem advance_dma_line (s : Blitter) (hh : s.height_ ≠ 0) (hl : s.line_mode_ = true)
    (hb : s.b_data_ = 0xffff) :
    advance_dma s = some (true, complete (line_after s.height_ s.height_ (line_start s)).1) := by
  have h := advance_dma_running s hh (fun _ => hb)
  rw [h, line_after_all]
  congr 3
  exact if_pos hl

/-- The horizontal and vertical parts of a line step leave the log of stores
alone. -/
theorem line_moves_writes (s : Blitter) (step : Nat) (draw : Bool) :
    (line_move_y (line_move_x s step) step draw).1.writes = s.writes := by
  have hx : (line_move_x s step).writes = s.writes := by
    unfold line_move_x; split_ifs <;> rfl
  have hy : (line_move_y (line_move_x s step) step draw).1.writes = (line_move_x s step).writes := by
    unfold line_move_y; split_ifs <;> rfl
  exact hy.trans hx

/-- A pass of the line loop stores one word, at channel D's masked pointer, when
`draw_` is set, and none otherwise. -/
theorem line_step_writes (st : Blitter × Int × Bool) :
    (line_step st).1.writes =
      (if st.2.2 = true then
        st.1.writes ++ [(st.1.pointer_3 &&& st.1.ram_mask_,
          apply_minterm (u16 (st.1.a_data_ >>> st.1.shifts_0.toNat)) st.1.b_data_
            (st.1.ram_ (st.1.pointer_3 &&& st.1.ram_mask_)) st.1.minterms_)]
       else st.1.writes) := by
  unfold line_step
  rw [line_moves_writes]
  split_ifs <;> rfl

/-- The registers of the state before pass `k` of the line loop are those of the
state the transfer was triggered in. -/
theorem line_after_registers (s : Blitter) (k : Nat) :
    (line_after s.height_ k (line_start s)).1.line_direction_ = s.line_direction_ ∧
    (line_after s.height_ k (line_start s)).1.one_dot_ = s.one_dot_ ∧
    (line_after s.height_ k (line_start s)).1.modulos_0 = s.modulos_0 ∧
    (line_after s.height_ k (line_start s)).1.modulos_1 = s.modulos_1 ∧
    (line_after s.height_ k (line_start s)).1.modulos_2 = s.modulos_2 := by
  have hf := line_after_frame s.height_ k (line_start s)
  have hs : frame (line_start s).1 = frame s := rfl
  rw [hs] at hf
  simp only [frame, read_only_registers, Prod.mk.injEq] at hf
  obtain ⟨⟨⟨-, ho, hd, -, -⟩, -, -, -, ⟨h0, h1, h2, -⟩, -⟩, -⟩ := hf
  exact ⟨hd, ho, h0, h1, h2⟩

/-- The recurrence of the line loop: what pass `k` does to `error` and `draw_`. -/
theorem line_recurrence (s : Blitter) (k : Nat) (hk : k < s.height_) :
    line_error_at s (k + 1) =
      (if line_error_at s k < 0 then wrap32 (line_error_at s k + s.modulos_1)
       else wrap32 (line_error_at s k + s.modulos_0)) ∧
    line_draw_at s (k + 1) =
      (moves_vertically (line_flags_at s k) || (line_draw_at s k && !s.one_dot_)) := by
  obtain ⟨hd, ho, h0, h1, -⟩ := line_after_registers s k
  have hstep := line_after_succ s.height_ k (line_start s) hk
  have hloc := line_step_locals
    ({ (line_after s.height_ k (line_start s)).1 with height_ := s.height_ - 1 - k },
      (line_after s.height_ k (line_start s)).2)
  rw [← hstep] at hloc
  obtain ⟨he, hdr⟩ := hloc
  constructor
  · unfold line_error_at
    rw [he]
    show (if (line_after s.height_ k (line_start s)).2.1 < 0
      then wrap32 ((line_after s.height_ k (line_start s)).2.1 +
        (line_after s.height_ k (line_start s)).1.modulos_1)
      else wrap32 ((line_after s.height_ k (line_start s)).2.1 +
        (line_after s.height_ k (line_start s)).1.modulos_0)) = _
    rw [h0, h1]
  · unfold line_draw_at line_flags_at line_error_at
    rw [hdr]
    show (moves_vertically (line_step_flags (line_after s.height_ k (line_start s)).1.line_direction_
        (line_after s.height_ k (line_start s)).2.1) ||
      ((line_after s.height_ k (line_start s)).2.2 &&
        !(line_after s.height_ k (line_start s)).1.one_dot_)) = _
    rw [hd, ho]

/-- Which axes a line step moves along: always the major one, the minor one
exactly when the error term is not negative. -/
theorem line_step_flags_axes (line_direction : Nat) (error : Int) :
    (line_direction &&& 4 ≠ 0 →
      moves_horizontally (line_step_flags line_direction error) = true ∧
      (moves_vertically (line_step_flags line_direction error) = true ↔ 0 ≤ error)) ∧
    (line_direction &&& 4 = 0 →
      moves_vertically (line_step_flags line_direction error) = true ∧
      (moves_horizontally (line_step_flags line_direction error) = true ↔ 0 ≤ error)) := by
  obtain ⟨hx, hy⟩ := line_step_flags_decode line_direction error
  unfold moves_horizontally moves_vertically
  simp only [Bool.or_eq_true, decide_eq_true_eq]
  constructor
  · intro h4
    obtain ⟨hl, hr, hu, hd⟩ := hx h4
    rw [hl, hr, hu, hd]
    refine ⟨(Classical.em (line_direction &&& 1 = 0)).symm, ?_, ?_⟩
    · rintro (⟨h, -⟩ | ⟨h, -⟩) <;> exact h
    · intro h
      by_cases h2 : line_direction &&& 2 = 0
      · exact Or.inr ⟨h, h2⟩
      · exact Or.inl ⟨h, h2⟩
  · intro h4
    obtain ⟨hu, hd, hl, hr⟩ := hy h4
    rw [hl, hr, hu, hd]
    refine ⟨(Classical.em (line_direction &&& 1 = 0)).symm, ?_, ?_⟩
    · rintro (⟨h, -⟩ | ⟨h, -⟩) <;> exact h
    · intro h
      by_cases h2 : line_direction &&& 2 = 0
      · exact Or.inr ⟨h, h2⟩
      · exact Or.inl ⟨h, h2⟩

/-- Before the first pass the loop is in its entry state. -/
theorem line_after_zero (n : Nat) (st : Blitter × Int × Bool) : line_after n 0 st = st := by
  cases n <;> rfl

/-- With `one_dot_` clear `draw_` stays set through the line loop. -/
theorem line_draw_at_all (s : Blitter) (ho : s.one_dot_ = false) (k : Nat) (hk : k ≤ s.height_) :
    line_draw_at s k = true := by
  induction k with
  | zero =>
    unfold line_draw_at
    rw [line_after_zero]
    rfl
  | succ k ih =>
    rw [(line_recurrence s k (by omega)).2, ih (by omega), ho]
    simp

/-- When `draw_` is set before a pass of the line loop. -/
theorem line_draw_at_iff (s : Blitter) (k : Nat) (hk : k < s.height_) :
    line_draw_at s k = true ↔
      (k = 0 ∨ s.one_dot_ = false ∨
        ∃ j, k = j + 1 ∧ moves_vertically (line_flags_at s j) = true) := by
  cases k with
  | zero =>
    constructor
    · intro _; exact Or.inl rfl
    · intro _
      unfold line_draw_at
      rw [line_after_zero]
      rfl
  | succ j =>
    rw [(line_recurrence s j (by omega)).2]
    constructor
    · intro h
      cases ho : s.one_dot_ with
      | false => exact Or.inr (Or.inl rfl)
      | true =>
        rw [ho] at h
        simp only [Bool.not_true, Bool.and_false, Bool.or_false] at h
        exact Or.inr (Or.inr ⟨j, rfl, h⟩)
    · rintro (h | h | ⟨j', hj, hv⟩)
      · exact absurd h (Nat.succ_ne_zero j)
      · rw [line_draw_at_all s h j (by omega), h]
        simp
      · have hjj : j' = j := by omega
        subst hjj
        rw [hv]
        simp

/-- With `one_dot_` clear every pass of the line loop stores one word. -/
theorem line_writes_count (s : Blitter) (ho : s.one_dot_ = false) (k : Nat) (hk : k ≤ s.height_) :
    ∃ new, (line_after s.height_ k (line_start s)).1.writes = s.writes ++ new ∧ new.length = k := by
  induction k with
  | zero =>
    rw [line_after_zero]
    exact ⟨[], by simp [line_start], rfl⟩
  | succ k ih =>
    obtain ⟨new, hw, hlen⟩ := ih (by omega)
    have hd : (line_after s.height_ k (line_start s)).2.2 = true := line_draw_at_all s ho k (by omega)
    rw [line_after_succ _ _ _ (by omega), line_step_writes]
    simp only [hd, if_true]
    rw [hw, List.append_assoc]
    exact ⟨_, rfl, by rw [List.length_append, hlen]; rfl⟩

/-- C19. Line draw gating: in a line-mode transfer of height `h`, pass `k < h`
performs its read-modify-write of the word at channel D's pointer exactly when
`draw_` is set before it, which is if and only if `k = 0`, or `one_dot_` is
clear, or pass `k - 1` moved vertically (channel D's pointer minus or plus the
row stride `modulos_[2]`); after a pass `draw_` is set if the pass moved
vertically or if it was set before and `one_dot_` is clear, so a pass that moved
only horizontally never sets it again. Hence with `one_dot_` clear the transfer
performs exactly `h` stores, and with `one_dot_` set two passes that store have a
vertical move between them. With the B latch all ones the trigger returns the
state after `h` passes, completed. -/
theorem line_draw_gating (s : Blitter) (k : Nat) (hk : k < s.height_) :
    (line_draw_at s k = true ↔
      (k = 0 ∨ s.one_dot_ = false ∨
        ∃ j, k = j + 1 ∧ moves_vertically (line_flags_at s j) = true)) ∧
    (line_after s.height_ (k + 1) (line_start s)).1.writes =
      (if line_draw_at s k = true then
        (line_after s.height_ k (line_start s)).1.writes ++
          [((line_after s.height_ k (line_start s)).1.pointer_3 &&&
              (line_after s.height_ k (line_start s)).1.ram_mask_,
            apply_minterm
              (u16 ((line_after s.height_ k (line_start s)).1.a_data_ >>>
                (line_after s.height_ k (line_start s)).1.shifts_0.toNat))
              (line_after s.height_ k (line_start s)).1.b_data_
              ((line_after s.height_ k (line_start s)).1.ram_
                ((line_after s.height_ k (line_start s)).1.pointer_3 &&&
                  (line_after s.height_ k (line_start s)).1.ram_mask_))
              (line_after s.height_ k (line_start s)).1.minterms_)]
       else (line_after s.height_ k (line_start s)).1.writes) ∧
    line_draw_at s (k + 1) =
      (moves_vertically (line_flags_at s k) || (line_draw_at s k && !s.one_dot_)) ∧
    (∀ (t : Blitter) (draw : Bool),
      (line_move_y t (line_flags_at s k) draw).1.pointer_3 =
        (if line_flags_at s k &&& UP ≠ 0 then u32 (t.pointer_3 + (4294967296 - u32 t.modulos_2))
         else if line_flags_at s k &&& DOWN ≠ 0 then u32 (t.pointer_3 + t.modulos_2)
         else t.pointer_3)) ∧
    (s.one_dot_ = false →
      ∃ new, (line_after s.height_ s.height_ (line_start s)).1.writes = s.writes ++ new ∧
        new.length = s.height_) ∧
    (s.one_dot_ = true →
      ∀ i, i < k → line_draw_at s i = true → line_draw_at s k = true →
        ∃ m, i ≤ m ∧ m < k ∧ moves_vertically (line_flags_at s m) = true) ∧
    (s.line_mode_ = true → s.b_data_ = 0xffff →
      ∃ t, advance_dma s = some (true, t) ∧
        t.writes = (line_after s.height_ s.height_ (line_start s)).1.writes) := by
  refine ⟨line_draw_at_iff s k hk, ?_, (line_recurrence s k hk).2,
    fun t draw => (line_move_y_eq t _ draw).1,
    fun ho => line_writes_count s ho s.height_ (Nat.le_refl _), ?_, ?_⟩
  · rw [line_after_succ _ _ _ hk, line_step_writes]
    rfl
  · intro ho i hik _ hdk
    rcases (line_draw_at_iff s k hk).mp hdk with h | h | ⟨j, hj, hv⟩
    · omega
    · rw [ho] at h
      exact absurd h (by decide)
    · exact ⟨j, by omega, by omega, hv⟩
  · intro hl hb
    exact ⟨_, advance_dma_line s (by omega) hl hb, rfl⟩

/-- Witness of C19: the three-pixel line with `one_dot_` set draws in pass 0, not
in pass 1 (pass 0 moved only horizontally) and again in pass 2 (pass 1 moved
vertically); with `one_dot_` clear it stores three words. -/
theorem line_draw_gating_witness :
    (2 < one_dot_example.height_ ∧ one_dot_example.one_dot_ = true) ∧
    (line_draw_at one_dot_example 0 = true ∧ line_draw_at one_dot_example 1 = false ∧
      line_draw_at one_dot_example 2 = true) ∧
    (line_draw_at one_dot_example 2 = true ↔
      (2 = 0 ∨ one_dot_example.one_dot_ = false ∨
        ∃ j, 2 = j + 1 ∧ moves_vertically (line_flags_at one_dot_example j) = true)) ∧
    ∃ new, (line_after bresenham_example.height_ bresenham_example.height_
        (line_start bresenham_example)).1.writes = bresenham_example.writes ++ new ∧
      new.length = bresenham_example.height_ :=
  ⟨by decide, by decide, (line_draw_gating one_dot_example 2 (by decide)).1,
    (line_draw_gating bresenham_example 0 (by decide)).2.2.2.2.1 (by decide)⟩

/-! ## Channel pointers in copy mode -/

/-- States with the same read-only registers have the same enables, modulos,
direction and width. -/
theorem frame_channels (s t : Blitter) (h : frame t = frame s) :
    channel_enable t = channel_enable s ∧ channel_modulo t = channel_modulo s ∧
    t.direction_ = s.direction_ ∧ t.width_ = s.width_ := by
  simp only [frame, read_only_registers, Prod.mk.injEq] at h
  obtain ⟨⟨⟨-, -, -, -, hd⟩, -, ⟨e0, e1, e2, e3⟩, ⟨-, -, -, hw⟩, ⟨m0, m1, m2, m3⟩, -⟩, -⟩ := h
  refine ⟨?_, ?_, hd, hw⟩
  · funext i
    fin_cases i
    · exact e0
    · exact e1
    · exact e2
    · exact e3
  · funext i
    fin_cases i
    · exact m0
    · exact m1
    · exact m2
    · exact m3

/-- The pointers after the reads of a column. -/
theorem column_inputs_pointers (s : Blitter) (x : Nat) :
    (column_inputs s x).pointer_0 =
      (if s.channel_enables_0 then u32 (s.pointer_0 + s.direction_) else s.pointer_0) ∧
    (column_inputs s x).pointer_1 =
      (if s.channel_enables_1 then u32 (s.pointer_1 + s.direction_) else s.pointer_1) ∧
    (column_inputs s x).pointer_2 =
      (if s.channel_enables_2 then u32 (s.pointer_2 + s.direction_) else s.pointer_2) ∧
    (column_inputs s x).pointer_3 = s.pointer_3 := by
  by_cases h0 : s.channel_enables_0 = true <;> by_cases h1 : s.channel_enables_1 = true <;>
    by_cases h2 : s.channel_enables_2 = true <;>
    simp [column_inputs, read_channel_a, read_channel_b, read_channel_c, shift_in_a, shift_in_b,
      h0, h1, h2]

/-- The pointers after the store of a column. -/
theorem store_pointers (s : Blitter) (w : Nat) :
    (write_channel_d (merge_not_zero s w) w).pointer_0 = s.pointer_0 ∧
    (write_channel_d (merge_not_zero s w) w).pointer_1 = s.pointer_1 ∧
    (write_channel_d (merge_not_zero s w) w).pointer_2 = s.pointer_2 ∧
    (write_channel_d (merge_not_zero s w) w).pointer_3 =
      (if s.channel_enables_3 then u32 (s.pointer_3 + s.direction_) else s.pointer_3) := by
  by_cases h3 : s.channel_enables_3 = true <;> simp [write_channel_d, merge_not_zero, h3]

/-- A column moves the pointer of every enabled channel by the direction and
leaves the pointer of a disabled channel alone. -/
theorem copy_column_pointer (st : Blitter × Bool) (x : Nat) (i : Fin 4) :
    channel_pointer (copy_column st x).1 i =
      (if channel_enable st.1 i then u32 (channel_pointer st.1 i + st.1.direction_)
       else channel_pointer st.1 i) := by
  obtain ⟨c0, c1, c2, c3⟩ := column_inputs_pointers st.1 x
  obtain ⟨w0, w1, w2, w3⟩ := store_pointers (column_inputs st.1 x)
    (column_output (column_inputs st.1 x) st.2).1
  obtain ⟨he, -, hd, -⟩ := frame_channels st.1 (column_inputs st.1 x) (column_inputs_frame st.1 x).1
  have he3 : (column_inputs st.1 x).channel_enables_3 = st.1.channel_enables_3 :=
    congrFun he 3
  fin_cases i
  · exact w0.trans c0
  · exact w1.trans c1
  · exact w2.trans c2
  · show (write_channel_d (merge_not_zero (column_inputs st.1 x) _) _).pointer_3 = _
    rw [w3, he3, c3, hd]
    rfl

/-- The end of a row adds to the pointer of every channel its modulo times its
enable times the direction. -/
theorem copy_row_pointer (s : Blitter) (i : Fin 4) :
    channel_pointer (copy_row s) i =
      u32 (channel_pointer ((List.range s.width_).foldl copy_column (s, s.fill_carry_)).1 i +
        channel_modulo ((List.range s.width_).foldl copy_column (s, s.fill_carry_)).1 i *
          (channel_enable ((List.range s.width_).foldl copy_column (s, s.fill_carry_)).1 i).toNat *
          ((List.range s.width_).foldl copy_column (s, s.fill_carry_)).1.direction_) := by
  fin_cases i <;> rfl

/-- Arithmetic of a pointer step modulo `2 ^ 32`. -/
theorem u32_step (p a b : Nat) : u32 (u32 (p + a) + b) = u32 (p + (a + b)) := by
  unfold u32
  omega

theorem pointer_inv_column (i : Fin 4) (s0 : Blitter) (k : Nat) (st : Blitter × Bool) (x : Nat)
    (h : pointer_inv i s0 k st.1) : pointer_inv i s0 (k + 1) (copy_column st x).1 := by
  obtain ⟨hf, hp⟩ := h
  obtain ⟨he, -, hd, -⟩ := frame_channels s0 st.1 hf
  refine ⟨(copy_column_frame st x).1.trans hf, ?_⟩
  rw [copy_column_pointer, hp, he, hd]
  cases hen : channel_enable s0 i
  · simp
  · simp only [if_true, Bool.toNat_true, Nat.one_mul]
    rw [u32_step, Nat.succ_mul]

theorem pointer_inv_row (i : Fin 4) (s0 : Blitter) (k : Nat) (s : Blitter)
    (h : pointer_inv i s0 k s) :
    pointer_inv i s0 (k + (s0.width_ + channel_modulo s0 i)) (copy_row s) := by
  have hw : s.width_ = s0.width_ := (frame_channels s0 s h.1).2.2.2
  have hfold := foldl_counting (fun k (st : Blitter × Bool) => pointer_inv i s0 k st.1) copy_column 1
    (fun k a b ha => pointer_inv_column i s0 k a b ha) (List.range s.width_) k (s, s.fill_carry_) h
  have hcount : k + 1 * (List.range s.width_).length = k + s0.width_ := by
    rw [List.length_range, Nat.one_mul, hw]
  rw [hcount] at hfold
  obtain ⟨hf, hp⟩ := hfold
  obtain ⟨he, hm, hd, -⟩ := frame_channels s0 _ hf
  refine ⟨(copy_row_frame s).1.trans h.1, ?_⟩
  rw [copy_row_pointer, hp, he, hm, hd, u32_step]
  congr 1
  ring

/-- The pointer of channel `i` after a copy transfer from `s`: the pointer of `s`
plus `height_ * (width_ + modulo)` times the direction if the channel is
enabled, and the pointer of `s` if it is not. -/
theorem copy_transfer_pointer (i : Fin 4) (s : Blitter) (hp : channel_pointer s i < 4294967296) :
    channel_pointer (copy_transfer s) i =
      u32 (channel_pointer s i +
        (s.width_ + channel_modulo s i) * s.height_ *
          ((channel_enable s i).toNat * s.direction_)) := by
  have hstart : pointer_inv i s 0 { s with a32_ := 0, b32_ := 0 } := by
    refine ⟨rfl, ?_⟩
    rw [Nat.zero_mul, Nat.add_zero]
    have : channel_pointer { s with a32_ := 0, b32_ := 0 } i = channel_pointer s i := by
      fin_cases i <;> rfl
    rw [this]
    exact (Nat.mod_eq_of_lt hp).symm
  have hfold := foldl_counting (pointer_inv i s) (fun st (_ : Nat) => copy_row st)
    (s.width_ + channel_modulo s i) (fun k a _ hk => pointer_inv_row i s k a hk)
    (List.range s.height_) 0 _ hstart
  rw [List.length_range, Nat.zero_add] at hfold
  exact hfold.2

/-- The pointer of channel `i` after a completed copy-mode transfer triggered in
`s`. -/
theorem copy_result_pointer (s : Blitter) (i : Fin 4) (hp : channel_pointer s i < 4294967296) :
    channel_pointer (complete (copy_transfer { s with not_zero_flag_ := false })) i =
      u32 (channel_pointer s i +
        (s.width_ + channel_modulo s i) * s.height_ *
          ((channel_enable s i).toNat * s.direction_)) := by
  have h := copy_transfer_pointer i { s with not_zero_flag_ := false }
    (by fin_cases i <;> exact hp)
  fin_cases i <;> exact h

theorem disabled_inv_column (s0 : Blitter) (st : Blitter × Bool) (x : Nat)
    (h : disabled_inv s0 st.1) : disabled_inv s0 (copy_column st x).1 := by
  obtain ⟨hf, ha, hb, hc, hd⟩ := h
  obtain ⟨he, -, -, -⟩ := frame_channels s0 st.1 hf
  have e0 : st.1.channel_enables_0 = s0.channel_enables_0 := congrFun he 0
  have e1 : st.1.channel_enables_1 = s0.channel_enables_1 := congrFun he 1
  have e2 : st.1.channel_enables_2 = s0.channel_enables_2 := congrFun he 2
  have e3 : st.1.channel_enables_3 = s0.channel_enables_3 := congrFun he 3
  have hl := copy_column_latches st x
  simp only [latches, Prod.mk.injEq] at hl
  obtain ⟨la, lb, lc, -, -⟩ := hl
  obtain ⟨-, ia, ib, ic, -, -⟩ := column_inputs_fields st.1 x
  refine ⟨(copy_column_frame st x).1.trans hf, ?_, ?_, ?_, ?_⟩
  · intro h0
    rw [la, ia, e0, h0]
    exact ha h0
  · intro h1
    rw [lb, ib, e1, h1]
    exact hb h1
  · intro h2
    rw [lc, ic, e2, h2]
    exact hc h2
  · intro h3
    obtain ⟨hr, hw⟩ := (copy_column_store st x).2 (e3.trans h3)
    exact ⟨hr.trans (hd h3).1, hw.trans (hd h3).2⟩

theorem disabled_inv_row (s0 s : Blitter) (h : disabled_inv s0 s) : disabled_inv s0 (copy_row s) := by
  obtain ⟨hf, ha, hb, hc, hd⟩ := foldl_invariant (fun st : Blitter × Bool => disabled_inv s0 st.1)
    copy_column (fun a b hab => disabled_inv_column s0 a b hab) (List.range s.width_)
    (s, s.fill_carry_) h
  exact ⟨(copy_row_frame s).1.trans h.1, ha, hb, hc, hd⟩

/-- What a copy-mode transfer triggered in `s` keeps of the disabled channels. -/
theorem copy_result_disabled (s : Blitter) :
    disabled_inv s (copy_transfer { s with not_zero_flag_ := false }) := by
  have hstart : disabled_inv s { s with not_zero_flag_ := false, a32_ := 0, b32_ := 0 } :=
    ⟨rfl, fun _ => rfl, fun _ => rfl, fun _ => rfl, fun _ => ⟨rfl, rfl⟩⟩
  exact foldl_invariant (disabled_inv s) (fun st (_ : Nat) => copy_row st)
    (fun a _ hab => disabled_inv_row s a hab) (List.range s.height_) _ hstart

/-- C13. Disabled channels are untouched: a copy-mode transfer leaves the pointer
of every channel whose enable is clear as it was; it leaves the data latch of a
disabled A, B or C as it was; and with channel D disabled it changes no memory
word (and performs no store). -/
theorem disabled_channels_untouched (s : Blitter) (hh : s.height_ ≠ 0)
    (hline : s.line_mode_ = false) (hp : ∀ i, channel_pointer s i < 4294967296) :
    ∃ t, advance_dma s = some (true, t) ∧
      (∀ i, channel_enable s i = false → channel_pointer t i = channel_pointer s i) ∧
      (s.channel_enables_0 = false → t.a_data_ = s.a_data_) ∧
      (s.channel_enables_1 = false → t.b_data_ = s.b_data_) ∧
      (s.channel_enables_2 = false → t.c_data_ = s.c_data_) ∧
      (s.channel_enables_3 = false → t.ram_ = s.ram_ ∧ t.writes = s.writes) := by
  obtain ⟨-, ha, hb, hc, hd⟩ := copy_result_disabled s
  refine ⟨_, advance_dma_copy s hh hline, ?_, ha, hb, hc, hd⟩
  intro i hi
  rw [copy_result_pointer s i (hp i), hi]
  simp only [Bool.toNat_false, Nat.zero_mul, Nat.mul_zero, Nat.add_zero]
  exact Nat.mod_eq_of_lt (hp i)

/-- Witness of C13: a descending copy with channels A and D enabled leaves C's
pointer at 9. -/
theorem disabled_channels_untouched_witness :
    (pointer_example.height_ ≠ 0 ∧ pointer_example.line_mode_ = false ∧
      channel_enable pointer_example 2 = false ∧ channel_pointer pointer_example 2 = 9) ∧
    ∃ t, advance_dma pointer_example = some (true, t) ∧
      (∀ i, channel_enable pointer_example i = false →
        channel_pointer t i = channel_pointer pointer_example i) ∧
      (pointer_example.channel_enables_0 = false → t.a_data_ = pointer_example.a_data_) ∧
      (pointer_example.channel_enables_1 = false → t.b_data_ = pointer_example.b_data_) ∧
      (pointer_example.channel_enables_2 = false → t.c_data_ = pointer_example.c_data_) ∧
      (pointer_example.channel_enables_3 = false →
        t.ram_ = pointer_example.ram_ ∧ t.writes = pointer_example.writes) :=
  ⟨by decide,
    disabled_channels_untouched pointer_example (by decide) (by decide) (by decide)⟩

/-- C14. Final pointer value: after a copy-mode transfer of width `w` and height
`h` every enabled channel, with initial pointer `p` and modulo `m`, ends with
pointer `(p + direction_ * h * (w + m)) mod 2 ^ 32`: that is `p + h * (w + m)`
modulo `2 ^ 32` in ascending mode (`direction_` 1) and `p - h * (w + m)` modulo
`2 ^ 32` in descending mode (`direction_` `0xffffffff`, which is -1). -/
theorem final_pointer_value (s : Blitter) (hh : s.height_ ≠ 0) (hline : s.line_mode_ = false)
    (i : Fin 4) (hp : channel_pointer s i < 4294967296) (he : channel_enable s i = true) :
    ∃ t, advance_dma s = some (true, t) ∧
      channel_pointer t i =
        (channel_pointer s i + s.direction_ * (s.height_ * (s.width_ + channel_modulo s i)))
          % 4294967296 ∧
      (s.direction_ = 1 →
        (channel_pointer t i : Int) =
          ((channel_pointer s i : Int) +
            ((s.height_ * (s.width_ + channel_modulo s i) : Nat) : Int)) % 4294967296) ∧
      (s.direction_ = 0xffffffff →
        (channel_pointer t i : Int) =
          ((channel_pointer s i : Int) -
            ((s.height_ * (s.width_ + channel_modulo s i) : Nat) : Int)) % 4294967296) := by
  have hptr : channel_pointer (complete (copy_transfer { s with not_zero_flag_ := false })) i =
      (channel_pointer s i + s.direction_ * (s.height_ * (s.width_ + channel_modulo s i)))
        % 4294967296 := by
    rw [copy_result_pointer s i hp, he]
    unfold u32
    congr 2
    simp only [Bool.toNat_true, Nat.one_mul]
    ring
  refine ⟨_, advance_dma_copy s hh hline, hptr, ?_, ?_⟩
  · intro hd
    rw [hptr, hd]
    generalize s.height_ * (s.width_ + channel_modulo s i) = n
    omega
  · intro hd
    rw [hptr, hd]
    generalize s.height_ * (s.width_ + channel_modulo s i) = n
    omega

/-- Witness of C14: a descending copy of three rows of two words moves A's
pointer from 100 by `3 * (2 + 5)` down to 79 and D's from 200 by `3 * (2 + 7)`
down to 173. -/
theorem final_pointer_value_witness :
    (pointer_example.direction_ = 0xffffffff ∧ pointer_example.width_ = 2 ∧
      pointer_example.height_ = 3) ∧
    (∃ t, advance_dma pointer_example = some (true, t) ∧ channel_pointer t 0 = 79) ∧
    (∃ t, advance_dma pointer_example = some (true, t) ∧ channel_pointer t 3 = 173) :=
  ⟨by decide,
    (final_pointer_value pointer_example (by decide) (by decide) 0 (by decide) (by decide)).imp
      (fun _ h => ⟨h.1, h.2.1.trans (by decide)⟩),
    (final_pointer_value pointer_example (by decide) (by decide) 3 (by decide) (by decide)).imp
      (fun _ h => ⟨h.1, h.2.1.trans (by decide)⟩)⟩

/-! ## Operands of the minterm evaluator -/

/-- OR-ing a 32-bit value into a value reduced modulo `2 ^ 32`. -/
theorem or_mod_two_pow_32 (x y : Nat) (hy : y < 4294967296) :
    (x % 4294967296) ||| y = (x ||| y) % 4294967296 := by
  apply Nat.eq_of_testBit_eq
  intro j
  rw [show (4294967296 : Nat) = 2 ^ 32 from rfl, Nat.testBit_or, Nat.testBit_mod_two_pow,
    Nat.testBit_mod_two_pow, Nat.testBit_or]
  by_cases hj : j < 32
  · simp [hj]
  · have hyj : y.testBit j = false :=
      Nat.testBit_lt_two_pow (Nat.lt_of_lt_of_le hy
        (Nat.pow_le_pow_right (n := 2) (by decide) (show 32 ≤ j by omega)))
    simp [hj, hyj]

/-- The mask of a column, for 16-bit mask registers. -/
theorem column_mask_eq (s : Blitter) (x : Nat) (hm0 : s.a_mask_0 < 65536)
    (hm1 : s.a_mask_1 < 65536) :
    column_mask s x =
      (if x = 0 then (if x = s.width_ - 1 then s.a_mask_0 &&& s.a_mask_1 else s.a_mask_0)
       else if x = s.width_ - 1 then s.a_mask_1 else 0xffff) ∧
    column_mask s x < 65536 := by
  have h0 : 0xffff &&& s.a_mask_0 = s.a_mask_0 := by
    rw [Nat.and_comm]
    exact Nat.and_pow_two_sub_one_of_lt_two_pow (n := 16) hm0
  have h1 : 0xffff &&& s.a_mask_1 = s.a_mask_1 := by
    rw [Nat.and_comm]
    exact Nat.and_pow_two_sub_one_of_lt_two_pow (n := 16) hm1
  have h01 : s.a_mask_0 &&& s.a_mask_1 < 65536 := Nat.lt_of_le_of_lt Nat.and_le_right hm1
  have hshape : column_mask s x =
      (if x = s.width_ - 1 then (if x = 0 then 0xffff &&& s.a_mask_0 else 0xffff) &&& s.a_mask_1
       else (if x = 0 then 0xffff &&& s.a_mask_0 else 0xffff)) := rfl
  rw [hshape]
  by_cases hx0 : x = 0 <;> by_cases hxw : x = s.width_ - 1
  · rw [if_pos hxw, if_pos hx0, if_pos hx0, if_pos hxw, h0]
    exact ⟨rfl, h01⟩
  · rw [if_neg hxw, if_pos hx0, if_pos hx0, if_neg hxw, h0]
    exact ⟨rfl, hm0⟩
  · rw [if_pos hxw, if_neg hx0, if_neg hx0, if_pos hxw, h1]
    exact ⟨rfl, hm1⟩
  · rw [if_neg hxw, if_neg hx0, if_neg hx0, if_neg hxw]
    exact ⟨rfl, by decide⟩

/-- In descending mode the barrel shifter returns the low 16 bits of the 32-bit
left rotation of the accumulator, for a shift in `0 .. 15`. -/
theorem barrel_shift_descending_bit (acc : Nat) (shift : Int) (h0 : 0 ≤ shift) (h15 : shift ≤ 15)
    (hacc : acc < 4294967296) (j : Nat) (hj : j < 16) :
    (barrel_shift true acc shift).testBit j = rotate_left_32_bit acc shift.toNat j := by
  have hhigh : ∀ i, 32 ≤ i → acc.testBit i = false := fun i hi =>
    Nat.testBit_lt_two_pow (Nat.lt_of_lt_of_le hacc
      (Nat.pow_le_pow_right (n := 2) (by decide) hi))
  have e2 : (32 - shift).toNat = 32 - shift.toNat := by omega
  have hn : shift.toNat ≤ 15 := by omega
  unfold barrel_shift rotate_left_32_bit u16 u32
  simp only [Bool.not_true, Bool.false_eq_true, if_false]
  rw [e2, show (65536 : Nat) = 2 ^ 16 from rfl, show (4294967296 : Nat) = 2 ^ 32 from rfl,
    Nat.testBit_mod_two_pow, Nat.testBit_or, Nat.testBit_mod_two_pow, Nat.testBit_shiftLeft,
    Nat.testBit_shiftRight]
  generalize shift.toNat = n at hn
  by_cases hjn : n ≤ j
  · have hidx : (j + 32 - n) % 32 = j - n := by omega
    rw [hidx, hhigh (32 - n + j) (by omega)]
    have hj32 : j < 32 := by omega
    simp [hj, hj32, hjn]
  · have hidx : (j + 32 - n) % 32 = 32 - n + j := by omega
    rw [hidx]
    have hge : ¬ j ≥ n := hjn
    simp [hj, hge]

/-- With shift 0 the barrel shifter returns the low 16 bits of the accumulator,
in either direction. -/
theorem barrel_shift_zero_low (one_dot : Bool) (acc : Nat) (hacc : acc < 4294967296) :
    barrel_shift one_dot acc 0 = acc % 65536 := by
  have h32 : acc >>> 32 = 0 := by
    rw [Nat.shiftRight_eq_div_pow]
    exact Nat.div_eq_of_lt hacc
  cases one_dot
  · simp [barrel_shift, u16]
  · simp [barrel_shift, u16, u32, h32]
    omega

/-- The accumulators after the reads of a column. -/
theorem column_inputs_accumulators (s : Blitter) (x : Nat)
    (hm0 : s.a_mask_0 < 65536) (hm1 : s.a_mask_1 < 65536)
    (hb : s.b_data_ < 65536) (hram : ∀ i, s.ram_ i < 65536) :
    (column_inputs s x).a32_ =
      ((s.a32_ <<< 16) ||| ((column_inputs s x).a_data_ &&& column_mask s x)) % 4294967296 ∧
    (column_inputs s x).b32_ = ((s.b32_ <<< 16) ||| (column_inputs s x).b_data_) % 4294967296 := by
  obtain ⟨-, -, ib, -, ia32, ib32⟩ := column_inputs_fields s x
  have hmask := (column_mask_eq s x hm0 hm1).2
  have hbd : (column_inputs s x).b_data_ < 65536 := by
    rw [ib]
    split_ifs
    · exact hram _
    · exact hb
  constructor
  · rw [ia32]
    exact or_mod_two_pow_32 _ _ (Nat.lt_of_le_of_lt Nat.and_le_right (by omega))
  · rw [ib32]
    exact or_mod_two_pow_32 _ _ (by omega)

/-- C12. Operand extraction: in every column of a copy-mode transfer, with both
shifts in `0 .. 15` (and 16-bit masks, latches and memory words), the word the
column gets from the minterm evaluator is its result on the A operand, the B
operand and the C latch. The A operand is the low 16 bits of `acc >> shifts_[0]`
in ascending mode and the low 16 bits of the 32-bit left rotation of `acc` by
`shifts_[0]` in descending mode, both being the low 16 bits of `acc` for shift 0;
here `acc` is `((previous acc << 16) | (A latch & mask)) mod 2 ^ 32`, with the
mask the first-word mask in column 0, the last-word mask in column
`width_ - 1`, their AND when these coincide, and `0xffff` otherwise. The B
operand is formed the same way from the B latch and `shifts_[1]`, without mask.
The rest of the column and the end of a row leave the accumulators alone, and a
transfer starts with both at 0. -/
theorem operand_extraction (s : Blitter) (x : Nat) (fill_carry : Bool)
    (hs0 : 0 ≤ s.shifts_0 ∧ s.shifts_0 ≤ 15) (hs1 : 0 ≤ s.shifts_1 ∧ s.shifts_1 ≤ 15)
    (hm0 : s.a_mask_0 < 65536) (hm1 : s.a_mask_1 < 65536)
    (hb : s.b_data_ < 65536) (hram : ∀ i, s.ram_ i < 65536) :
    (column_output (column_inputs s x) fill_carry =
        (if s.exclusive_fill_ || s.inclusive_fill_
          then fill_word s.exclusive_fill_ (column_minterm (column_inputs s x)) fill_carry
          else (column_minterm (column_inputs s x), fill_carry)) ∧
      column_minterm (column_inputs s x) =
        apply_minterm (operand_a (column_inputs s x)) (operand_b (column_inputs s x))
          (column_inputs s x).c_data_ s.minterms_) ∧
    column_mask s x =
      (if x = 0 then (if x = s.width_ - 1 then s.a_mask_0 &&& s.a_mask_1 else s.a_mask_0)
       else if x = s.width_ - 1 then s.a_mask_1 else 0xffff) ∧
    ((column_inputs s x).a32_ =
        ((s.a32_ <<< 16) ||| ((column_inputs s x).a_data_ &&& column_mask s x)) % 4294967296 ∧
      (column_inputs s x).b32_ =
        ((s.b32_ <<< 16) ||| (column_inputs s x).b_data_) % 4294967296) ∧
    ((s.one_dot_ = false →
        operand_a (column_inputs s x) =
          ((column_inputs s x).a32_ >>> s.shifts_0.toNat) % 65536) ∧
      (s.one_dot_ = true →
        operand_a (column_inputs s x) < 65536 ∧
        ∀ j, j < 16 → (operand_a (column_inputs s x)).testBit j =
          rotate_left_32_bit (column_inputs s x).a32_ s.shifts_0.toNat j) ∧
      (s.shifts_0 = 0 → operand_a (column_inputs s x) = (column_inputs s x).a32_ % 65536)) ∧
    ((s.one_dot_ = false →
        operand_b (column_inputs s x) =
          ((column_inputs s x).b32_ >>> s.shifts_1.toNat) % 65536) ∧
      (s.one_dot_ = true →
        operand_b (column_inputs s x) < 65536 ∧
        ∀ j, j < 16 → (operand_b (column_inputs s x)).testBit j =
          rotate_left_32_bit (column_inputs s x).b32_ s.shifts_1.toNat j) ∧
      (s.shifts_1 = 0 → operand_b (column_inputs s x) = (column_inputs s x).b32_ % 65536)) ∧
    ((copy_column (s, fill_carry) x).1.a32_ = (column_inputs s x).a32_ ∧
      (copy_column (s, fill_carry) x).1.b32_ = (column_inputs s x).b32_) ∧
    ((copy_row s).a32_ = ((List.range s.width_).foldl copy_column (s, s.fill_carry_)).1.a32_ ∧
      (copy_row s).b32_ = ((List.range s.width_).foldl copy_column (s, s.fill_carry_)).1.b32_) ∧
    copy_transfer s =
      (List.range s.height_).foldl (fun st _ => copy_row st) { s with a32_ := 0, b32_ := 0 } := by
  obtain ⟨hf, hsh0⟩ := column_inputs_frame s x
  simp only [frame, read_only_registers, Prod.mk.injEq] at hf
  obtain ⟨⟨⟨-, hod, -, -, -⟩, ⟨hfe, hfi, -, hfm⟩, -, ⟨hsh1, -, -, -⟩, -, -⟩, -⟩ := hf
  obtain ⟨ha32, hb32⟩ := column_inputs_accumulators s x hm0 hm1 hb hram
  have hacc_a : (column_inputs s x).a32_ < 4294967296 := by
    rw [ha32]; exact Nat.mod_lt _ (by decide)
  have hacc_b : (column_inputs s x).b32_ < 4294967296 := by
    rw [hb32]; exact Nat.mod_lt _ (by decide)
  have hl := copy_column_latches (s, fill_carry) x
  simp only [latches, Prod.mk.injEq] at hl
  refine ⟨⟨?_, ?_⟩, (column_mask_eq s x hm0 hm1).1, ⟨ha32, hb32⟩, ⟨?_, ?_, ?_⟩, ⟨?_, ?_, ?_⟩,
    ⟨hl.2.2.2.1, hl.2.2.2.2⟩, ⟨rfl, rfl⟩, rfl⟩
  · rw [← hfe, ← hfi]
    rfl
  · rw [← hfm]
    rfl
  · intro h
    unfold operand_a
    rw [hod, hsh0, h]
    rfl
  · intro h
    unfold operand_a
    rw [hod, hsh0, h]
    exact ⟨Nat.mod_lt _ (by decide),
      fun j hj => barrel_shift_descending_bit _ _ hs0.1 hs0.2 hacc_a j hj⟩
  · intro h
    unfold operand_a
    rw [hsh0, h]
    exact barrel_shift_zero_low _ _ hacc_a
  · intro h
    unfold operand_b
    rw [hod, hsh1, h]
    rfl
  · intro h
    unfold operand_b
    rw [hod, hsh1, h]
    exact ⟨Nat.mod_lt _ (by decide),
      fun j hj => barrel_shift_descending_bit _ _ hs1.1 hs1.2 hacc_b j hj⟩
  · intro h
    unfold operand_b
    rw [hsh1, h]
    exact barrel_shift_zero_low _ _ hacc_b

/-- Witness of C12: a descending copy with A's shift 4, whose first column reads
`0x1234` and passes `0x2340` to the evaluator, and whose second column reads
`0xabcd` into the accumulator `0x1234abcd` and passes `0xbcd1`. -/
theorem operand_extraction_witness :
    (shift_example.one_dot_ = true ∧ shift_example.shifts_0 = 4) ∧
    ((column_inputs shift_example 0).a32_ = 0x1234 ∧
      operand_a (column_inputs shift_example 0) = 0x2340 ∧
      (column_inputs (copy_column (shift_example, false) 0).1 1).a32_ = 0x1234abcd ∧
      operand_a (column_inputs (copy_column (shift_example, false) 0).1 1) = 0xbcd1) ∧
    ∀ j, j < 16 → (operand_a (column_inputs shift_example 0)).testBit j =
      rotate_left_32_bit (column_inputs shift_example 0).a32_ shift_example.shifts_0.toNat j :=
  ⟨by decide, by decide,
    ((operand_extraction shift_example 0 false (by decide) (by decide) (by decide) (by decide)
      (by decide)
      (fun i => by
        show (if i = 100 then 0x1234 else 0xabcd) < 65536
        split_ifs <;> decide)).2.2.2.1.2.1 rfl).2⟩

/-! ## Fill as a serial bit stream -/

/-- The packed-table lookups are the serial fill of a nibble. -/
theorem fill_lookup_serial (exclusive : Bool) (n c : Nat) (hn : n < 16) (hc : c < 2) :
    fill_values_lookup (fill_index n c (fill_type_mask exclusive)) =
      (serial_fill exclusive 4 n (c != 0)).1 ∧
    fill_carries_lookup (fill_index n c (fill_type_mask exclusive)) =
      (serial_fill exclusive 4 n (c != 0)).2.toNat := by
  cases exclusive <;> interval_cases n <;> interval_cases c <;> decide

/-- The filled bits of `bits` bits fit in `bits` bits. -/
theorem serial_fill_lt (exclusive : Bool) (bits word : Nat) (carry : Bool) :
    (serial_fill exclusive bits word carry).1 < 2 ^ bits := by
  induction bits generalizing word carry with
  | zero => exact Nat.one_pos
  | succ n ih =>
    have h := ih (word / 2) (xor carry (word.testBit 0))
    show (if exclusive then xor carry (word.testBit 0) else carry || word.testBit 0).toNat +
      2 * (serial_fill exclusive n (word / 2) (xor carry (word.testBit 0))).1 < 2 ^ (n + 1)
    have hb : (if exclusive then xor carry (word.testBit 0) else carry || word.testBit 0).toNat ≤ 1 :=
      Bool.toNat_le _
    rw [Nat.pow_succ]
    omega

/-- Serial fill of `bits` bits reads only the low `bits` bits of the word. -/
theorem serial_fill_mod (exclusive : Bool) (bits word : Nat) (carry : Bool) :
    serial_fill exclusive bits (word % 2 ^ bits) carry = serial_fill exclusive bits word carry := by
  induction bits generalizing word carry with
  | zero => rfl
  | succ n ih =>
    have h0 : (word % 2 ^ (n + 1)).testBit 0 = word.testBit 0 := by
      rw [Nat.testBit_mod_two_pow]
      simp
    have h2 : word % 2 ^ (n + 1) / 2 = (word / 2) % 2 ^ n := by
      rw [Nat.pow_succ, Nat.mul_comm, Nat.mod_mul_right_div_self]
    show ((if exclusive then xor carry ((word % 2 ^ (n + 1)).testBit 0)
        else carry || (word % 2 ^ (n + 1)).testBit 0).toNat +
        2 * (serial_fill exclusive n (word % 2 ^ (n + 1) / 2)
          (xor carry ((word % 2 ^ (n + 1)).testBit 0))).1,
      (serial_fill exclusive n (word % 2 ^ (n + 1) / 2)
        (xor carry ((word % 2 ^ (n + 1)).testBit 0))).2) = _
    rw [h0, h2, ih]
    rfl

/-- Serial fill of `m + k` bits is the serial fill of the low `m` bits followed
by that of the next `k` bits, entered with the carry that left the first. -/
theorem serial_fill_add (exclusive : Bool) (m k word : Nat) (carry : Bool) :
    serial_fill exclusive (m + k) word carry =
      ((serial_fill exclusive m word carry).1 +
          2 ^ m * (serial_fill exclusive k (word / 2 ^ m) (serial_fill exclusive m word carry).2).1,
        (serial_fill exclusive k (word / 2 ^ m) (serial_fill exclusive m word carry).2).2) := by
  induction m generalizing word carry with
  | zero => simp [serial_fill]
  | succ m ih =>
    have hdiv : word / 2 / 2 ^ m = word / 2 ^ (m + 1) := by
      rw [Nat.div_div_eq_div_mul, Nat.pow_succ, Nat.mul_comm]
    have hstep := ih (word / 2) (xor carry (word.testBit 0))
    rw [hdiv] at hstep
    rw [show m + 1 + k = (m + k) + 1 by omega]
    show ((if exclusive then xor carry (word.testBit 0) else carry || word.testBit 0).toNat +
        2 * (serial_fill exclusive (m + k) (word / 2) (xor carry (word.testBit 0))).1,
      (serial_fill exclusive (m + k) (word / 2) (xor carry (word.testBit 0))).2) = _
    rw [hstep]
    show _ = (((if exclusive then xor carry (word.testBit 0) else carry || word.testBit 0).toNat +
        2 * (serial_fill exclusive m (word / 2) (xor carry (word.testBit 0))).1) +
        2 ^ (m + 1) * (serial_fill exclusive k (word / 2 ^ (m + 1))
          (serial_fill exclusive m (word / 2) (xor carry (word.testBit 0))).2).1,
      (serial_fill exclusive k (word / 2 ^ (m + 1))
          (serial_fill exclusive m (word / 2) (xor carry (word.testBit 0))).2).2)
    rw [Nat.pow_succ]
    congr 1
    ring

/-- OR-ing a value shifted clear of `a` into `a` adds it. -/
theorem or_shiftLeft_eq_add (a v k : Nat) (ha : a < 2 ^ k) : a ||| (v <<< k) = a + v * 2 ^ k := by
  rw [Nat.shiftLeft_eq, Nat.or_comm, Nat.mul_comm v, ← Nat.mul_add_lt_is_or ha, Nat.add_comm]

/-- A Boolean read back from its 0/1 value. -/
theorem toNat_ne_zero (b : Bool) : (b.toNat != 0) = b := by
  cases b <;> rfl

/-- One pass of the nibble loop of fill mode is the serial fill of the low nibble
of `output`, placed at bit `c` of `fill_output`. -/
theorem fill_word_step_serial (exclusive : Bool) (output : Nat) (carry : Bool)
    (fill_output c : Nat) (hfo : fill_output < 2 ^ c) :
    fill_word_step (fill_type_mask exclusive) (output, carry.toNat, fill_output) c =
      (u16 (output >>> 4), (serial_fill exclusive 4 output carry).2.toNat,
        u16 (fill_output + (serial_fill exclusive 4 output carry).1 * 2 ^ c)) := by
  have hidx : fill_index output carry.toNat (fill_type_mask exclusive) =
      fill_index (output % 16) carry.toNat (fill_type_mask exclusive) := by
    unfold fill_index
    have h1 : output &&& 0xf = output % 16 := Nat.and_pow_two_sub_one_eq_mod output 4
    have h2 : output % 16 &&& 0xf = output % 16 := by
      have := Nat.and_pow_two_sub_one_eq_mod (output % 16) 4
      rw [show (2 : Nat) ^ 4 = 16 from rfl, Nat.mod_mod] at this
      exact this
    rw [h1, h2]
  have hc : carry.toNat < 2 := by cases carry <;> decide
  obtain ⟨hv, hcarry⟩ := fill_lookup_serial exclusive (output % 16) carry.toNat
    (Nat.mod_lt _ (by decide)) hc
  rw [toNat_ne_zero, show (16 : Nat) = 2 ^ 4 from rfl, serial_fill_mod] at hv hcarry
  show (u16 (output >>> 4),
      fill_carries_lookup (fill_index output carry.toNat (fill_type_mask exclusive)),
      u16 (fill_output |||
        (fill_values_lookup (fill_index output carry.toNat (fill_type_mask exclusive)) <<< c))) = _
  rw [hidx, show (16 : Nat) = 2 ^ 4 from rfl, hv, hcarry, or_shiftLeft_eq_add _ _ _ hfo]

/-- The fill post-processing of a 16-bit word is its 16-bit serial fill. -/
theorem fill_word_serial (exclusive : Bool) (word : Nat) (carry : Bool) (hw : word < 65536) :
    fill_word exclusive word carry = serial_fill exclusive 16 word carry := by
  -- the four nibbles
  have e1 : u16 (word >>> 4) = word / 16 := by
    rw [Nat.shiftRight_eq_div_pow]; unfold u16; omega
  have e2 : u16 ((word / 16) >>> 4) = word / 256 := by
    rw [Nat.shiftRight_eq_div_pow]; unfold u16; omega
  have e3 : u16 ((word / 256) >>> 4) = word / 4096 := by
    rw [Nat.shiftRight_eq_div_pow]; unfold u16; omega
  have b0 := serial_fill_lt exclusive 4 word carry
  have b1 := serial_fill_lt exclusive 4 (word / 16) (serial_fill exclusive 4 word carry).2
  have b2 := serial_fill_lt exclusive 4 (word / 256)
    (serial_fill exclusive 4 (word / 16) (serial_fill exclusive 4 word carry).2).2
  have b3 := serial_fill_lt exclusive 4 (word / 4096)
    (serial_fill exclusive 4 (word / 256)
      (serial_fill exclusive 4 (word / 16) (serial_fill exclusive 4 word carry).2).2).2
  -- the serial fill of 16 bits, nibble by nibble
  have hs : serial_fill exclusive 16 word carry = serial_fill exclusive (4 + (4 + (4 + 4))) word carry :=
    rfl
  rw [hs, serial_fill_add, serial_fill_add, serial_fill_add]
  have d1 : word / 2 ^ 4 = word / 16 := rfl
  have d2 : word / 16 / 2 ^ 4 = word / 256 := by
    rw [show (2 : Nat) ^ 4 = 16 from rfl]; omega
  have d3 : word / 256 / 2 ^ 4 = word / 4096 := by
    rw [show (2 : Nat) ^ 4 = 16 from rfl]; omega
  rw [d1, d2, d3]
  -- the engine's loop
  show (([0, 4, 8, 12].foldl (fill_word_step (fill_type_mask exclusive)) (word, carry.toNat, 0)).2.2,
    ([0, 4, 8, 12].foldl (fill_word_step (fill_type_mask exclusive)) (word, carry.toNat, 0)).2.1 != 0)
    = _
  simp only [List.foldl_cons, List.foldl_nil]
  rw [fill_word_step_serial exclusive word carry 0 0 (by decide), e1]
  have f1 : u16 (0 + (serial_fill exclusive 4 word carry).1 * 2 ^ 0) =
      (serial_fill exclusive 4 word carry).1 := by
    unfold u16; omega
  rw [f1, fill_word_step_serial exclusive _ _ _ 4 b0, e2]
  have f2 : u16 ((serial_fill exclusive 4 word carry).1 +
      (serial_fill exclusive 4 (word / 16) (serial_fill exclusive 4 word carry).2).1 * 2 ^ 4) =
      (serial_fill exclusive 4 word carry).1 +
      (serial_fill exclusive 4 (word / 16) (serial_fill exclusive 4 word carry).2).1 * 16 := by
    unfold u16; omega
  rw [f2, fill_word_step_serial exclusive _ _ _ 8 (by omega), e3]
  have f3 : u16 ((serial_fill exclusive 4 word carry).1 +
      (serial_fill exclusive 4 (word / 16) (serial_fill exclusive 4 word carry).2).1 * 16 +
      (serial_fill exclusive 4 (word / 256)
        (serial_fill exclusive 4 (word / 16) (serial_fill exclusive 4 word carry).2).2).1 * 2 ^ 8) =
      (serial_fill exclusive 4 word carry).1 +
      (serial_fill exclusive 4 (word / 16) (serial_fill exclusive 4 word carry).2).1 * 16 +
      (serial_fill exclusive 4 (word / 256)
        (serial_fill exclusive 4 (word / 16) (serial_fill exclusive 4 word carry).2).2).1 * 256 := by
    unfold u16; omega
  rw [f3, fill_word_step_serial exclusive _ _ _ 12 (by omega), toNat_ne_zero]
  dsimp only
  congr 1
  unfold u16
  omega

/-- The carry after some bits depends only on those bits. -/
theorem xor_bits_congr (c : Bool) (f g : Nat → Bool) (n : Nat) (h : ∀ i, i < n → f i = g i) :
    xor_bits c f n = xor_bits c g n := by
  induction n with
  | zero => rfl
  | succ n ih =>
    show xor (xor_bits c f n) (f n) = xor (xor_bits c g n) (g n)
    rw [ih (fun i hi => h i (by omega)), h n (by omega)]

/-- The carry after `n + 1` bits, the first bit taken first. -/
theorem xor_bits_shift (c : Bool) (f : Nat → Bool) (n : Nat) :
    xor_bits (xor c (f 0)) (fun i => f (i + 1)) n = xor_bits c f (n + 1) := by
  induction n with
  | zero => rfl
  | succ n ih =>
    show xor (xor_bits (xor c (f 0)) (fun i => f (i + 1)) n) (f (n + 1)) = xor (xor_bits c f (n + 1)) (f (n + 1))
    rw [ih]

/-- The carry after `a + b` bits is the carry after the last `b` of them, entered
with the carry after the first `a`. -/
theorem xor_bits_add (c : Bool) (f : Nat → Bool) (a b : Nat) :
    xor_bits c f (a + b) = xor_bits (xor_bits c f a) (fun i => f (a + i)) b := by
  induction b with
  | zero => rfl
  | succ b ih =>
    show xor (xor_bits c f (a + b)) (f (a + b)) = xor (xor_bits (xor_bits c f a) (fun i => f (a + i)) b) (f (a + b))
    rw [ih]

/-- The bits of half a word. -/
theorem testBit_half (word : Nat) : (word / 2).testBit = fun i => word.testBit (i + 1) := by
  funext i
  exact (Nat.testBit_succ word i).symm

/-- The carry that leaves a serial fill is the entry carry XOR all the input
bits. -/
theorem serial_fill_carry (exclusive : Bool) (bits word : Nat) (carry : Bool) :
    (serial_fill exclusive bits word carry).2 = xor_bits carry word.testBit bits := by
  induction bits generalizing word carry with
  | zero => rfl
  | succ n ih =>
    show (serial_fill exclusive n (word / 2) (xor carry (word.testBit 0))).2 = _
    rw [ih, testBit_half, xor_bits_shift carry word.testBit n]

/-- Bit `i` of `b + 2 * r` for a bit `b`. -/
theorem testBit_bit_add (b : Bool) (r i : Nat) :
    (b.toNat + 2 * r).testBit i = (match i with | 0 => b | j + 1 => r.testBit j) := by
  cases i with
  | zero =>
    rw [Nat.testBit_zero]
    cases b <;> simp
  | succ j =>
    rw [Nat.testBit_succ]
    have h : (b.toNat + 2 * r) / 2 = r := by
      cases b <;> simp
      omega
    rw [h]

/-- In exclusive mode bit `i` of the serial fill is the entry carry XOR the input
bits `0 .. i`. -/
theorem serial_fill_exclusive_bit (bits word : Nat) (carry : Bool) (i : Nat) (hi : i < bits) :
    (serial_fill true bits word carry).1.testBit i = xor_bits carry word.testBit (i + 1) := by
  induction bits generalizing word carry i with
  | zero => exact absurd hi (Nat.not_lt_zero i)
  | succ n ih =>
    show ((xor carry (word.testBit 0)).toNat +
      2 * (serial_fill true n (word / 2) (xor carry (word.testBit 0))).1).testBit i = _
    rw [testBit_bit_add]
    cases i with
    | zero => rfl
    | succ j =>
      show (serial_fill true n (word / 2) (xor carry (word.testBit 0))).1.testBit j = _
      rw [ih _ _ j (by omega), testBit_half, xor_bits_shift carry word.testBit (j + 1)]

/-- In inclusive mode bit `i` of the serial fill is the entry carry XOR the input
bits below `i`, OR-ed with input bit `i`. -/
theorem serial_fill_inclusive_bit (bits word : Nat) (carry : Bool) (i : Nat) (hi : i < bits) :
    (serial_fill false bits word carry).1.testBit i =
      (xor_bits carry word.testBit i || word.testBit i) := by
  induction bits generalizing word carry i with
  | zero => exact absurd hi (Nat.not_lt_zero i)
  | succ n ih =>
    show ((carry || word.testBit 0).toNat +
      2 * (serial_fill false n (word / 2) (xor carry (word.testBit 0))).1).testBit i = _
    rw [testBit_bit_add]
    cases i with
    | zero => rfl
    | succ j =>
      show (serial_fill false n (word / 2) (xor carry (word.testBit 0))).1.testBit j = _
      rw [ih _ _ j (by omega), testBit_half, xor_bits_shift carry word.testBit j]

/-- The stream bits of the first word of a row. -/
theorem stream_bit_head (word : Nat) (words : List Nat) (k : Nat) (hk : k < 16) :
    stream_bit (word :: words) k = word.testBit k := by
  unfold stream_bit
  rw [Nat.div_eq_of_lt hk, Nat.mod_eq_of_lt hk]
  rfl

/-- The stream bits after the first word of a row. -/
theorem stream_bit_tail (word : Nat) (words : List Nat) (k : Nat) :
    stream_bit (word :: words) (16 + k) = stream_bit words k := by
  unfold stream_bit
  have h1 : (16 + k) / 16 = k / 16 + 1 := by omega
  have h2 : (16 + k) % 16 = k % 16 := by omega
  rw [h1, h2]
  rfl

/-- In exclusive mode stream bit `k` of the filled row is the entry carry XOR the
input stream bits `0 .. k`. -/
theorem serial_fill_row_stream (words : List Nat) (carry : Bool) (k : Nat)
    (hk : k < 16 * words.length) :
    stream_bit ((serial_fill_row true words carry).map Prod.snd) k =
      xor_bits carry (stream_bit words) (k + 1) := by
  induction words generalizing carry k with
  | nil => exact absurd hk (by simp)
  | cons word words ih =>
    show stream_bit ((serial_fill true 16 word carry).1 ::
      (serial_fill_row true words (serial_fill true 16 word carry).2).map Prod.snd) k = _
    by_cases hlt : k < 16
    · rw [stream_bit_head _ _ _ hlt, serial_fill_exclusive_bit 16 word carry k hlt]
      exact xor_bits_congr _ _ _ _ (fun i hi => (stream_bit_head word words i (by omega)).symm)
    · obtain ⟨j, rfl⟩ : ∃ j, k = 16 + j := ⟨k - 16, by omega⟩
      rw [stream_bit_tail, ih _ j (by rw [List.length_cons] at hk; omega), serial_fill_carry,
        show 16 + j + 1 = 16 + (j + 1) by omega,
        xor_bits_add carry (stream_bit (word :: words)) 16 (j + 1)]
      have hfirst : xor_bits carry (stream_bit (word :: words)) 16 = xor_bits carry word.testBit 16 :=
        xor_bits_congr _ _ _ _ (fun i hi => stream_bit_head word words i hi)
      have hrest : (fun i => stream_bit (word :: words) (16 + i)) = stream_bit words := by
        funext i
        exact stream_bit_tail word words i
      rw [hfirst, hrest]

/-- A column appends its output word to the log of outputs. -/
theorem copy_column_outputs (st : Blitter × Bool) (x : Nat) :
    (copy_column st x).1.outputs =
      st.1.outputs ++ [(column_output (column_inputs st.1 x) st.2).1] := by
  have h1 : (copy_column st x).1.outputs =
      (merge_not_zero (column_inputs st.1 x) (column_output (column_inputs st.1 x) st.2).1).outputs :=
    congrArg Prod.fst (write_channel_d_flag_log _ _)
  have h2 : (column_inputs st.1 x).outputs = st.1.outputs :=
    congrArg Prod.fst (column_inputs_flag_log st.1 x)
  rw [h1]
  show (column_inputs st.1 x).outputs ++ _ = _
  rw [h2]

/-- The fill flags and channel D's enable are read-only registers. -/
theorem frame_fill (s t : Blitter) (h : frame t = frame s) :
    t.exclusive_fill_ = s.exclusive_fill_ ∧ t.inclusive_fill_ = s.inclusive_fill_ ∧
    t.fill_carry_ = s.fill_carry_ ∧ t.channel_enables_3 = s.channel_enables_3 := by
  simp only [frame, read_only_registers, Prod.mk.injEq] at h
  obtain ⟨⟨-, ⟨he, hi, hc, -⟩, ⟨-, -, -, h3⟩, -, -, -⟩, -⟩ := h
  exact ⟨he, hi, hc, h3⟩

/-- The output words of the columns of a row are what the row appends to the log
of outputs, and with channel D enabled the words it stores. -/
theorem row_fill_trace_log (st : Blitter × Bool) (xs : List Nat) :
    (row_fill_trace st xs).length = xs.length ∧
    (xs.foldl copy_column st).1.outputs =
      st.1.outputs ++ (row_fill_trace st xs).map (fun t => t.2.2) ∧
    (st.1.channel_enables_3 = true →
      ((xs.foldl copy_column st).1.writes).map Prod.snd =
        st.1.writes.map Prod.snd ++ (row_fill_trace st xs).map (fun t => t.2.2)) := by
  induction xs generalizing st with
  | nil => exact ⟨rfl, by simp [row_fill_trace], fun _ => by simp [row_fill_trace]⟩
  | cons x xs ih =>
    obtain ⟨hlen, hout, hwr⟩ := ih (copy_column st x)
    have he3 := (frame_fill st.1 (copy_column st x).1 (copy_column_frame st x).1).2.2.2
    refine ⟨?_, ?_, ?_⟩
    · show (row_fill_trace (copy_column st x) xs).length + 1 = xs.length + 1
      rw [hlen]
    · show ((xs.foldl copy_column (copy_column st x)).1.outputs) = _
      rw [hout, copy_column_outputs, List.append_assoc]
      rfl
    · intro h3
      show ((xs.foldl copy_column (copy_column st x)).1.writes).map Prod.snd = _
      rw [hwr (he3.trans h3), ((copy_column_store st x).1 h3).2, List.map_append,
        List.append_assoc]
      rfl

/-- With a fill mode on, the columns of a row are filled as one serial bit
stream: each column's output is the 16-bit serial fill of its word from the
minterm evaluator under its entry carry, and the carry that leaves it enters the
next column. -/
theorem row_fill_trace_serial (st : Blitter × Bool) (xs : List Nat)
    (hfill : (st.1.exclusive_fill_ || st.1.inclusive_fill_) = true) :
    (row_fill_trace st xs).map (fun t => (t.2.1, t.2.2)) =
      serial_fill_row st.1.exclusive_fill_ ((row_fill_trace st xs).map (fun t => t.1)) st.2 := by
  induction xs generalizing st with
  | nil => rfl
  | cons x xs ih =>
    obtain ⟨he, hi, -, -⟩ := frame_fill st.1 (column_inputs st.1 x) (column_inputs_frame st.1 x).1
    obtain ⟨he', hi', -, -⟩ := frame_fill st.1 (copy_column st x).1 (copy_column_frame st x).1
    have hout : column_output (column_inputs st.1 x) st.2 =
        serial_fill st.1.exclusive_fill_ 16 (column_minterm (column_inputs st.1 x)) st.2 := by
      have h1 : column_output (column_inputs st.1 x) st.2 =
          (if (column_inputs st.1 x).exclusive_fill_ || (column_inputs st.1 x).inclusive_fill_
            then fill_word (column_inputs st.1 x).exclusive_fill_
              (column_minterm (column_inputs st.1 x)) st.2
            else (column_minterm (column_inputs st.1 x), st.2)) := rfl
      rw [h1, he, hi, hfill]
      exact fill_word_serial _ _ _ (apply_minterm_lt _ _ _ _)
    have hnext := ih (copy_column st x) (by rw [he', hi']; exact hfill)
    rw [he'] at hnext
    have hcarry : (copy_column st x).2 = (column_output (column_inputs st.1 x) st.2).2 := rfl
    rw [hcarry, hout] at hnext
    show (st.2, (column_output (column_inputs st.1 x) st.2).1) ::
        (row_fill_trace (copy_column st x) xs).map (fun t => (t.2.1, t.2.2)) =
      serial_fill_row st.1.exclusive_fill_
        (column_minterm (column_inputs st.1 x) ::
          (row_fill_trace (copy_column st x) xs).map (fun t => t.1)) st.2
    rw [hnext, hout]
    rfl

/-- The rows of a copy transfer leave the `fill_carry_` register and both fill
flags alone. -/
theorem copy_rows_fill_carry (s : Blitter) (r : Nat) :
    ((List.range r).foldl (fun st _ => copy_row st) s).fill_carry_ = s.fill_carry_ ∧
    ((List.range r).foldl (fun st _ => copy_row st) s).exclusive_fill_ = s.exclusive_fill_ ∧
    ((List.range r).foldl (fun st _ => copy_row st) s).inclusive_fill_ = s.inclusive_fill_ := by
  have h := foldl_invariant (fun t : Blitter => frame t = frame s) (fun st (_ : Nat) => copy_row st)
    (fun a _ ha => (copy_row_frame a).1.trans ha) (List.range r) s rfl
  exact ⟨(frame_fill s _ h).2.2.1, (frame_fill s _ h).1, (frame_fill s _ h).2.1⟩

/-- C11. Row-serial fill: in a copy-mode row with exclusive or inclusive fill on,
the columns are filled as one serial bit stream. Taking the row's words from the
minterm evaluator in transfer order, the carry that enters the first word is the
`fill_carry_` register, the carry that leaves a word enters the next word of the
row, and the output word of each column (merged into the not-zero flag, and
stored when channel D is enabled) is the 16-bit serial fill of its input under
its entry carry; in exclusive mode stream bit `k` of the output is `fill_carry_`
XOR the input stream bits `0 .. k`. The carry that leaves a row is dropped: the
row, any number of rows run one after another, and the whole copy transfer leave
the `fill_carry_` register and the fill flags as they were, so each row starts
again from the register. -/
theorem row_serial_fill (s : Blitter) (hfill : (s.exclusive_fill_ || s.inclusive_fill_) = true) :
    ((row_fill_trace (s, s.fill_carry_) (List.range s.width_)).length = s.width_ ∧
      (copy_row s).outputs =
        s.outputs ++ (row_fill_trace (s, s.fill_carry_) (List.range s.width_)).map (fun t => t.2.2) ∧
      (s.channel_enables_3 = true →
        (copy_row s).writes.map Prod.snd =
          s.writes.map Prod.snd ++
            (row_fill_trace (s, s.fill_carry_) (List.range s.width_)).map (fun t => t.2.2))) ∧
    (row_fill_trace (s, s.fill_carry_) (List.range s.width_)).map (fun t => (t.2.1, t.2.2)) =
      serial_fill_row s.exclusive_fill_
        ((row_fill_trace (s, s.fill_carry_) (List.range s.width_)).map (fun t => t.1))
        s.fill_carry_ ∧
    (s.exclusive_fill_ = true → ∀ k, k < 16 * s.width_ →
      stream_bit ((row_fill_trace (s, s.fill_carry_) (List.range s.width_)).map (fun t => t.2.2)) k =
        xor_bits s.fill_carry_
          (stream_bit ((row_fill_trace (s, s.fill_carry_) (List.range s.width_)).map (fun t => t.1)))
          (k + 1)) ∧
    ((copy_row s).fill_carry_ = s.fill_carry_ ∧
      (∀ r, ((List.range r).foldl (fun st _ => copy_row st) s).fill_carry_ = s.fill_carry_ ∧
        ((List.range r).foldl (fun st _ => copy_row st) s).exclusive_fill_ = s.exclusive_fill_ ∧
        ((List.range r).foldl (fun st _ => copy_row st) s).inclusive_fill_ = s.inclusive_fill_) ∧
      (copy_transfer s).fill_carry_ = s.fill_carry_) := by
  obtain ⟨hlen, hout, hwr⟩ := row_fill_trace_log (s, s.fill_carry_) (List.range s.width_)
  rw [List.length_range] at hlen
  have hser := row_fill_trace_serial (s, s.fill_carry_) (List.range s.width_) hfill
  refine ⟨⟨hlen, hout, hwr⟩, hser, ?_, (frame_fill s _ (copy_row_frame s).1).2.2.1,
    copy_rows_fill_carry s, (copy_rows_fill_carry { s with a32_ := 0, b32_ := 0 } s.height_).1⟩
  intro hex k hk
  have hsnd : (row_fill_trace (s, s.fill_carry_) (List.range s.width_)).map (fun t => t.2.2) =
      ((row_fill_trace (s, s.fill_carry_) (List.range s.width_)).map
        (fun t => (t.2.1, t.2.2))).map Prod.snd := by
    rw [List.map_map]
    rfl
  rw [hsnd, hser]
  show stream_bit ((serial_fill_row s.exclusive_fill_ _ s.fill_carry_).map Prod.snd) k = _
  rw [hex]
  exact serial_fill_row_stream _ _ k (by rw [List.length_map, hlen]; exact hk)

/-- Witness of C11: an exclusive-fill row of the two words `0x8000` and `0x0010`
with `fill_carry_` clear: the carry set by bit 15 of the first word enters the
second, whose bits 0 to 3 are filled. -/
theorem row_serial_fill_witness :
    ((fill_example.exclusive_fill_ || fill_example.inclusive_fill_) = true ∧
      fill_example.fill_carry_ = false) ∧
    (row_fill_trace (fill_example, fill_example.fill_carry_) (List.range fill_example.width_)
      = [(0x8000, false, 0x8000), (0x0010, true, 0x000f)]) ∧
    (row_fill_trace (fill_example, fill_example.fill_carry_)
        (List.range fill_example.width_)).map (fun t => (t.2.1, t.2.2)) =
      serial_fill_row fill_example.exclusive_fill_
        ((row_fill_trace (fill_example, fill_example.fill_carry_)
          (List.range fill_example.width_)).map (fun t => t.1))
        fill_example.fill_carry_ :=
  ⟨by decide, by decide, (row_serial_fill fill_example (by decide)).2.1⟩

/-! ## The pixel position of a line -/

/-- What a pass of the line loop does to the pixel position: the horizontal move
of its flags, then the vertical one. -/
theorem line_step_position (st : Blitter × Int × Bool) :
    (line_step st).1.shifts_0 =
      (if line_step_flags st.1.line_direction_ st.2.1 &&& LEFT ≠ 0 then st.1.shifts_0 - 1
       else if line_step_flags st.1.line_direction_ st.2.1 &&& RIGHT ≠ 0 then st.1.shifts_0 + 1
       else st.1.shifts_0) % 16 ∧
    (line_step st).1.pointer_3 =
      (if line_step_flags st.1.line_direction_ st.2.1 &&& UP ≠ 0 then
        u32 ((if line_step_flags st.1.line_direction_ st.2.1 &&& LEFT ≠ 0 then
            (if st.1.shifts_0 - 1 = -1 then u32 (st.1.pointer_3 + 0xffffffff) else st.1.pointer_3)
          else if line_step_flags st.1.line_direction_ st.2.1 &&& RIGHT ≠ 0 then
            (if st.1.shifts_0 + 1 = 16 then u32 (st.1.pointer_3 + 1) else st.1.pointer_3)
          else st.1.pointer_3) + (4294967296 - u32 st.1.modulos_2))
       else if line_step_flags st.1.line_direction_ st.2.1 &&& DOWN ≠ 0 then
        u32 ((if line_step_flags st.1.line_direction_ st.2.1 &&& LEFT ≠ 0 then
            (if st.1.shifts_0 - 1 = -1 then u32 (st.1.pointer_3 + 0xffffffff) else st.1.pointer_3)
          else if line_step_flags st.1.line_direction_ st.2.1 &&& RIGHT ≠ 0 then
            (if st.1.shifts_0 + 1 = 16 then u32 (st.1.pointer_3 + 1) else st.1.pointer_3)
          else st.1.pointer_3) + st.1.modulos_2)
       else
        (if line_step_flags st.1.line_direction_ st.2.1 &&& LEFT ≠ 0 then
            (if st.1.shifts_0 - 1 = -1 then u32 (st.1.pointer_3 + 0xffffffff) else st.1.pointer_3)
          else if line_step_flags st.1.line_direction_ st.2.1 &&& RIGHT ≠ 0 then
            (if st.1.shifts_0 + 1 = 16 then u32 (st.1.pointer_3 + 1) else st.1.pointer_3)
          else st.1.pointer_3)) := by
  have hd : (if st.2.2 = true then line_draw st.1 else st.1).line_direction_ = st.1.line_direction_ := by
    split_ifs <;> rfl
  have hs : (if st.2.2 = true then line_draw st.1 else st.1).shifts_0 = st.1.shifts_0 := by
    split_ifs <;> rfl
  have hp : (if st.2.2 = true then line_draw st.1 else st.1).pointer_3 = st.1.pointer_3 := by
    split_ifs <;> rfl
  have hm : (if st.2.2 = true then line_draw st.1 else st.1).modulos_2 = st.1.modulos_2 := by
    split_ifs <;> rfl
  have hxm : ∀ (t : Blitter) (step : Nat), (line_move_x t step).modulos_2 = t.modulos_2 := by
    intro t step
    unfold line_move_x; split_ifs <;> rfl
  constructor
  · show (line_move_y (line_move_x (if st.2.2 = true then line_draw st.1 else st.1)
        (line_step_flags (if st.2.2 = true then line_draw st.1 else st.1).line_direction_ st.2.1))
        (line_step_flags (if st.2.2 = true then line_draw st.1 else st.1).line_direction_ st.2.1)
        (if st.2.2 = true then (st.2.2 && !st.1.one_dot_) else st.2.2)).1.shifts_0 = _
    rw [line_move_y_shift, line_move_x_shift, hd, hs]
  · show (line_move_y (line_move_x (if st.2.2 = true then line_draw st.1 else st.1)
        (line_step_flags (if st.2.2 = true then line_draw st.1 else st.1).line_direction_ st.2.1))
        (line_step_flags (if st.2.2 = true then line_draw st.1 else st.1).line_direction_ st.2.1)
        (if st.2.2 = true then (st.2.2 && !st.1.one_dot_) else st.2.2)).1.pointer_3 = _
    rw [(line_move_y_eq _ _ _).1, hxm, line_move_x_pointer, hd, hs, hp, hm]

/-- The horizontal move, then the vertical move, of the flags of a line step, by
the octant and the sign of the error term. -/
theorem line_flags_position (line_direction : Nat) (error shift : Int) (pointer stride : Nat) :
    (line_direction &&& 4 ≠ 0 →
      ((if line_step_flags line_direction error &&& LEFT ≠ 0 then shift - 1
         else if line_step_flags line_direction error &&& RIGHT ≠ 0 then shift + 1
         else shift) % 16,
        (if line_step_flags line_direction error &&& UP ≠ 0 then
          u32 ((if line_step_flags line_direction error &&& LEFT ≠ 0 then
              (if shift - 1 = -1 then u32 (pointer + 0xffffffff) else pointer)
            else if line_step_flags line_direction error &&& RIGHT ≠ 0 then
              (if shift + 1 = 16 then u32 (pointer + 1) else pointer)
            else pointer) + (4294967296 - u32 stride))
         else if line_step_flags line_direction error &&& DOWN ≠ 0 then
          u32 ((if line_step_flags line_direction error &&& LEFT ≠ 0 then
              (if shift - 1 = -1 then u32 (pointer + 0xffffffff) else pointer)
            else if line_step_flags line_direction error &&& RIGHT ≠ 0 then
              (if shift + 1 = 16 then u32 (pointer + 1) else pointer)
            else pointer) + stride)
         else
          (if line_step_flags line_direction error &&& LEFT ≠ 0 then
              (if shift - 1 = -1 then u32 (pointer + 0xffffffff) else pointer)
            else if line_step_flags line_direction error &&& RIGHT ≠ 0 then
              (if shift + 1 = 16 then u32 (pointer + 1) else pointer)
            else pointer))) =
        (if error < 0 then pixel_move (decide (line_direction &&& 1 ≠ 0)) shift pointer
         else
          ((pixel_move (decide (line_direction &&& 1 ≠ 0)) shift pointer).1,
            row_move (decide (line_direction &&& 2 ≠ 0)) stride
              (pixel_move (decide (line_direction &&& 1 ≠ 0)) shift pointer).2))) ∧
    (line_direction &&& 4 = 0 →
      ((if line_step_flags line_direction error &&& LEFT ≠ 0 then shift - 1
         else if line_step_flags line_direction error &&& RIGHT ≠ 0 then shift + 1
         else shift) % 16,
        (if line_step_flags line_direction error &&& UP ≠ 0 then
          u32 ((if line_step_flags line_direction error &&& LEFT ≠ 0 then
              (if shift - 1 = -1 then u32 (pointer + 0xffffffff) else pointer)
            else if line_step_flags line_direction error &&& RIGHT ≠ 0 then
              (if shift + 1 = 16 then u32 (pointer + 1) else pointer)
            else pointer) + (4294967296 - u32 stride))
         else if line_step_flags line_direction error &&& DOWN ≠ 0 then
          u32 ((if line_step_flags line_direction error &&& LEFT ≠ 0 then
              (if shift - 1 = -1 then u32 (pointer + 0xffffffff) else pointer)
            else if line_step_flags line_direction error &&& RIGHT ≠ 0 then
              (if shift + 1 = 16 then u32 (pointer + 1) else pointer)
            else pointer) + stride)
         else
          (if line_step_flags line_direction error &&& LEFT ≠ 0 then
              (if shift - 1 = -1 then u32 (pointer + 0xffffffff) else pointer)
            else if line_step_flags line_direction error &&& RIGHT ≠ 0 then
              (if shift + 1 = 16 then u32 (pointer + 1) else pointer)
            else pointer))) =
        (if error < 0 then
          (shift % 16, row_move (decide (line_direction &&& 1 ≠ 0)) stride pointer)
         else
          ((pixel_move (decide (line_direction &&& 2 ≠ 0)) shift pointer).1,
            row_move (decide (line_direction &&& 1 ≠ 0)) stride
              (pixel_move (decide (line_direction &&& 2 ≠ 0)) shift pointer).2))) := by
  obtain ⟨hx, hy⟩ := line_step_flags_decode line_direction error
  generalize line_step_flags line_direction error = f at hx hy
  have hle : (0 ≤ error) ↔ ¬ (error < 0) := not_lt.symm
  constructor
  · intro h4
    obtain ⟨hl, hr, hu, hd⟩ := hx h4
    rw [hle] at hu hd
    simp only [hl, hr, hu, hd]
    by_cases b0 : line_direction &&& 1 = 0 <;> by_cases b1 : line_direction &&& 2 = 0 <;>
      by_cases he : error < 0 <;>
      simp only [b0, b1, he, pixel_move, row_move, ne_eq, not_true_eq_false, not_false_eq_true,
        decide_True, decide_False, if_true, if_false, and_true, and_false, true_and, false_and,
        Bool.false_eq_true]
  · intro h4
    obtain ⟨hu, hd, hl, hr⟩ := hy h4
    rw [hle] at hl hr
    simp only [hl, hr, hu, hd]
    by_cases b0 : line_direction &&& 1 = 0 <;> by_cases b1 : line_direction &&& 2 = 0 <;>
      by_cases he : error < 0 <;>
      simp only [b0, b1, he, pixel_move, row_move, ne_eq, not_true_eq_false, not_false_eq_true,
        decide_True, decide_False, if_true, if_false, and_true, and_false, true_and, false_and,
        Bool.false_eq_true]

/-- What pass `k` of the line loop does to the pixel position, by the octant and
the sign of the error term. -/
theorem line_position_recurrence (s : Blitter) (k : Nat) (hk : k < s.height_) :
    (s.line_direction_ &&& 4 ≠ 0 →
      line_position_at s (k + 1) =
        (if line_error_at s k < 0 then
          pixel_move (decide (s.line_direction_ &&& 1 ≠ 0))
            (line_position_at s k).1 (line_position_at s k).2
         else
          ((pixel_move (decide (s.line_direction_ &&& 1 ≠ 0))
              (line_position_at s k).1 (line_position_at s k).2).1,
            row_move (decide (s.line_direction_ &&& 2 ≠ 0)) s.modulos_2
              (pixel_move (decide (s.line_direction_ &&& 1 ≠ 0))
                (line_position_at s k).1 (line_position_at s k).2).2))) ∧
    (s.line_direction_ &&& 4 = 0 →
      line_position_at s (k + 1) =
        (if line_error_at s k < 0 then
          ((line_position_at s k).1 % 16,
            row_move (decide (s.line_direction_ &&& 1 ≠ 0)) s.modulos_2 (line_position_at s k).2)
         else
          ((pixel_move (decide (s.line_direction_ &&& 2 ≠ 0))
              (line_position_at s k).1 (line_position_at s k).2).1,
            row_move (decide (s.line_direction_ &&& 1 ≠ 0)) s.modulos_2
              (pixel_move (decide (s.line_direction_ &&& 2 ≠ 0))
                (line_position_at s k).1 (line_position_at s k).2).2))) := by
  obtain ⟨hd, -, -, -, hm⟩ := line_after_registers s k
  have hstep := line_after_succ s.height_ k (line_start s) hk
  have hpos := line_step_position
    ({ (line_after s.height_ k (line_start s)).1 with height_ := s.height_ - 1 - k },
      (line_after s.height_ k (line_start s)).2)
  rw [← hstep] at hpos
  obtain ⟨hsh, hpt⟩ := hpos
  dsimp only at hsh hpt
  rw [hd] at hsh
  rw [hd, hm] at hpt
  have hflags := line_flags_position s.line_direction_ (line_error_at s k)
    (line_position_at s k).1 (line_position_at s k).2 s.modulos_2
  constructor
  · intro h4
    rw [← hflags.1 h4]
    exact Prod.ext hsh hpt
  · intro h4
    rw [← hflags.2 h4]
    exact Prod.ext hsh hpt

/-- C17. Bresenham step rule: in a line-mode transfer of height `h` the error
term before pass 0 is the seed and the pixel position (`shifts_[0]` and channel
D's pointer) is that of the trigger, and for each pass `k < h`, with `e k` the
error term before it: the pass moves along the major axis (x when bit 2 of
`line_direction_` is set, y otherwise); it moves along the minor axis as well if
and only if `e k ≥ 0`; and `e (k + 1)` is `e k + modulos_[1]` when `e k < 0` and
`e k + modulos_[0]` otherwise, with 32-bit two's-complement wraparound. The moves
are changes of the pixel position: with x the major axis the position after the
pass is one pixel to the left or right of the one before it, and when `e k ≥ 0`
also one row (`modulos_[2]` words) up or down; with y the major axis it is one
row up or down, and when `e k ≥ 0` also one pixel to the left or right (when
`e k < 0` the shift is only reduced modulo 16). The pass is the line step taken
from the state after `k` passes, and the trigger returns the state after `h`
passes, completed. -/
theorem bresenham_step_rule (s : Blitter) (k : Nat) (hk : k < s.height_) :
    (line_error_at s 0 = line_error_seed s ∧ line_position_at s 0 = (s.shifts_0, s.pointer_3)) ∧
    line_error_at s (k + 1) =
      (if line_error_at s k < 0 then wrap32 (line_error_at s k + s.modulos_1)
       else wrap32 (line_error_at s k + s.modulos_0)) ∧
    (s.line_direction_ &&& 4 ≠ 0 →
      moves_horizontally (line_flags_at s k) = true ∧
      (moves_vertically (line_flags_at s k) = true ↔ 0 ≤ line_error_at s k) ∧
      line_position_at s (k + 1) =
        (if line_error_at s k < 0 then
          pixel_move (decide (s.line_direction_ &&& 1 ≠ 0))
            (line_position_at s k).1 (line_position_at s k).2
         else
          ((pixel_move (decide (s.line_direction_ &&& 1 ≠ 0))
              (line_position_at s k).1 (line_position_at s k).2).1,
            row_move (decide (s.line_direction_ &&& 2 ≠ 0)) s.modulos_2
              (pixel_move (decide (s.line_direction_ &&& 1 ≠ 0))
                (line_position_at s k).1 (line_position_at s k).2).2))) ∧
    (s.line_direction_ &&& 4 = 0 →
      moves_vertically (line_flags_at s k) = true ∧
      (moves_horizontally (line_flags_at s k) = true ↔ 0 ≤ line_error_at s k) ∧
      line_position_at s (k + 1) =
        (if line_error_at s k < 0 then
          ((line_position_at s k).1 % 16,
            row_move (decide (s.line_direction_ &&& 1 ≠ 0)) s.modulos_2 (line_position_at s k).2)
         else
          ((pixel_move (decide (s.line_direction_ &&& 2 ≠ 0))
              (line_position_at s k).1 (line_position_at s k).2).1,
            row_move (decide (s.line_direction_ &&& 1 ≠ 0)) s.modulos_2
              (pixel_move (decide (s.line_direction_ &&& 2 ≠ 0))
                (line_position_at s k).1 (line_position_at s k).2).2))) ∧
    (line_after s.height_ (k + 1) (line_start s) =
        line_step ({ (line_after s.height_ k (line_start s)).1 with height_ := s.height_ - 1 - k },
          (line_after s.height_ k (line_start s)).2) ∧
      (line_after s.height_ k (line_start s)).1.line_direction_ = s.line_direction_) ∧
    (s.line_mode_ = true → s.b_data_ = 0xffff →
      advance_dma s = some (true, complete (line_after s.height_ s.height_ (line_start s)).1)) := by
  refine ⟨⟨?_, ?_⟩, (line_recurrence s k hk).1,
    fun h4 => ⟨((line_step_flags_axes _ _).1 h4).1, ((line_step_flags_axes _ _).1 h4).2,
      (line_position_recurrence s k hk).1 h4⟩,
    fun h4 => ⟨((line_step_flags_axes _ _).2 h4).1, ((line_step_flags_axes _ _).2 h4).2,
      (line_position_recurrence s k hk).2 h4⟩,
    ⟨line_after_succ _ _ _ hk, (line_after_registers s k).1⟩, ?_⟩
  · unfold line_error_at
    rw [line_after_zero]
    rfl
  · unfold line_position_at
    rw [line_after_zero]
    rfl
  · intro hl hb
    exact advance_dma_line s (by omega) hl hb

/-- Witness of C17: pass 1 of a three-pixel line to the right and down with seed
-2, `modulos_[1]` 3, `modulos_[0]` -4 and rows 40 words apart: the error goes -2,
1, -3, and the position goes from shift 0 of word 0 to shift 1 of word 0 (pass 0,
major axis only) and on to shift 2 of word 40 (pass 1, both axes). -/
theorem bresenham_step_rule_witness :
    (1 < bresenham_example.height_ ∧ bresenham_example.line_direction_ &&& 4 ≠ 0) ∧
    (line_error_at bresenham_example 0 = -2 ∧ line_error_at bresenham_example 1 = 1 ∧
      line_error_at bresenham_example 2 = -3) ∧
    (line_position_at bresenham_example 0 = (0, 0) ∧ line_position_at bresenham_example 1 = (1, 0) ∧
      line_position_at bresenham_example 2 = (2, 40)) ∧
    line_error_at bresenham_example (1 + 1) =
      (if line_error_at bresenham_example 1 < 0
        then wrap32 (line_error_at bresenham_example 1 + bresenham_example.modulos_1)
        else wrap32 (line_error_at bresenham_example 1 + bresenham_example.modulos_0)) ∧
    line_position_at bresenham_example (1 + 1) =
      (if line_error_at bresenham_example 1 < 0 then
        pixel_move (decide (bresenham_example.line_direction_ &&& 1 ≠ 0))
          (line_position_at bresenham_example 1).1 (line_position_at bresenham_example 1).2
       else
        ((pixel_move (decide (bresenham_example.line_direction_ &&& 1 ≠ 0))
            (line_position_at bresenham_example 1).1 (line_position_at bresenham_example 1).2).1,
          row_move (decide (bresenham_example.line_direction_ &&& 2 ≠ 0))
            bresenham_example.modulos_2
            (pixel_move (decide (bresenham_example.line_direction_ &&& 1 ≠ 0))
              (line_position_at bresenham_example 1).1
              (line_position_at bresenham_example 1).2).2)) :=
  ⟨by decide, by decide, by decide, (bresenham_step_rule bresenham_example 1 (by decide)).2.1,
    ((bresenham_step_rule bresenham_example 1 (by decide)).2.2.1 (by decide)).2.2⟩

/-! ## The output words of a transfer -/

/-- Running a loop body `r + 1` times is running it once and then `r` times. -/
theorem foldl_range_succ_front {α : Type} (f : α → α) (r : Nat) (a : α) :
    (List.range (r + 1)).foldl (fun st _ => f st) a =
      (List.range r).foldl (fun st _ => f st) (f a) := by
  rw [List.range_succ_eq_map, List.foldl_cons, List.foldl_map]

/-- The rows of copy mode append their output words to the log of outputs; there
are `width_` of them per row; with channel D enabled they are the words stored. -/
theorem copy_rows_words (r : Nat) (s : Blitter) :
    ((List.range r).foldl (fun st _ => copy_row st) s).outputs = s.outputs ++ copy_words r s ∧
    (copy_words r s).length = s.width_ * r ∧
    (s.channel_enables_3 = true →
      (((List.range r).foldl (fun st _ => copy_row st) s).writes).map Prod.snd =
        s.writes.map Prod.snd ++ copy_words r s) := by
  induction r generalizing s with
  | zero => exact ⟨by simp [copy_words], rfl, fun _ => by simp [copy_words]⟩
  | succ r ih =>
    obtain ⟨hout, hlen, hwr⟩ := ih (copy_row s)
    obtain ⟨tlen, tout, twr⟩ := row_fill_trace_log (s, s.fill_carry_) (List.range s.width_)
    rw [List.length_range] at tlen
    have hframe := copy_row_frame s
    have hw : (copy_row s).width_ = s.width_ := (frame_channels s _ hframe.1).2.2.2
    have h3 : (copy_row s).channel_enables_3 = s.channel_enables_3 :=
      (frame_fill s _ hframe.1).2.2.2
    have hro : (copy_row s).outputs =
        ((List.range s.width_).foldl copy_column (s, s.fill_carry_)).1.outputs := rfl
    have hrw : (copy_row s).writes =
        ((List.range s.width_).foldl copy_column (s, s.fill_carry_)).1.writes := rfl
    rw [foldl_range_succ_front]
    refine ⟨?_, ?_, ?_⟩
    · rw [hout, hro, tout, List.append_assoc]
      rfl
    · show ((row_fill_trace (s, s.fill_carry_) (List.range s.width_)).map (fun t => t.2.2) ++
        copy_words r (copy_row s)).length = _
      rw [List.length_append, List.length_map, tlen, hlen, hw, Nat.mul_succ, Nat.add_comm]
    · intro he
      rw [hwr (h3.trans he), hrw, twr he, List.append_assoc]
      rfl

/-- A pass of the line loop appends its output word to the log of outputs when
`draw_` is set, and nothing otherwise. -/
theorem line_step_outputs (st : Blitter × Int × Bool) :
    (line_step st).1.outputs =
      (if st.2.2 = true then st.1.outputs ++ [line_word st.1] else st.1.outputs) := by
  have h1 : (line_step st).1.outputs = (if st.2.2 = true then line_draw st.1 else st.1).outputs := by
    unfold line_step
    exact congrArg Prod.fst ((line_move_y_flag_log _ _ _).trans (line_move_x_flag_log _ _))
  rw [h1]
  split_ifs <;> rfl

/-- The first `k` passes of the line loop append their output words to the log
of outputs, and to the log of stores. -/
theorem line_after_words (s : Blitter) (k : Nat) (hk : k ≤ s.height_) :
    (line_after s.height_ k (line_start s)).1.outputs = s.outputs ++ line_words s k ∧
    ((line_after s.height_ k (line_start s)).1.writes).map Prod.snd =
      s.writes.map Prod.snd ++ line_words s k := by
  induction k with
  | zero =>
    rw [line_after_zero]
    exact ⟨by simp [line_start, line_words], by simp [line_start, line_words]⟩
  | succ k ih =>
    obtain ⟨hout, hwr⟩ := ih (by omega)
    have hstep := line_after_succ s.height_ k (line_start s) (by omega)
    have ho := line_step_outputs
      ({ (line_after s.height_ k (line_start s)).1 with height_ := s.height_ - 1 - k },
        (line_after s.height_ k (line_start s)).2)
    have hw := line_step_writes
      ({ (line_after s.height_ k (line_start s)).1 with height_ := s.height_ - 1 - k },
        (line_after s.height_ k (line_start s)).2)
    rw [← hstep] at ho hw
    have hdraw : line_draw_at s k = (line_after s.height_ k (line_start s)).2.2 := rfl
    constructor
    · rw [ho]
      show (if (line_after s.height_ k (line_start s)).2.2 = true
          then (line_after s.height_ k (line_start s)).1.outputs ++
            [line_word (line_after s.height_ k (line_start s)).1]
          else (line_after s.height_ k (line_start s)).1.outputs) =
        s.outputs ++ (line_words s k ++
          (if line_draw_at s k = true then [line_word (line_after s.height_ k (line_start s)).1]
           else []))
      rw [hdraw, hout]
      split_ifs
      · rw [List.append_assoc]
      · rw [List.append_nil]
    · rw [hw]
      show ((if (line_after s.height_ k (line_start s)).2.2 = true
          then (line_after s.height_ k (line_start s)).1.writes ++
            [((line_after s.height_ k (line_start s)).1.pointer_3 &&&
                (line_after s.height_ k (line_start s)).1.ram_mask_,
              line_word (line_after s.height_ k (line_start s)).1)]
          else (line_after s.height_ k (line_start s)).1.writes)).map Prod.snd =
        s.writes.map Prod.snd ++ (line_words s k ++
          (if line_draw_at s k = true then [line_word (line_after s.height_ k (line_start s)).1]
           else []))
      rw [hdraw]
      split_ifs
      · rw [List.map_append, hwr, List.append_assoc]
        rfl
      · rw [hwr, List.append_nil]

/-- With `one_dot_` clear every pass of the line loop computes an output word. -/
theorem line_words_length (s : Blitter) (ho : s.one_dot_ = false) (k : Nat) (hk : k ≤ s.height_) :
    (line_words s k).length = k := by
  induction k with
  | zero => rfl
  | succ k ih =>
    show (line_words s k ++
      (if line_draw_at s k = true then [line_word (line_after s.height_ k (line_start s)).1]
       else [])).length = k + 1
    rw [List.length_append, ih (by omega), line_draw_at_all s ho k (by omega)]
    rfl

/-- The not-zero flag that tracks the log of outputs is clear exactly when all
the words logged since are zero. -/
theorem flag_tracks_words (old words : List Nat) (s : Blitter) (h : flag_tracks old s)
    (hw : s.outputs = old ++ words) : s.not_zero_flag_ = false ↔ ∀ w ∈ words, w = 0 := by
  obtain ⟨new, h1, h2⟩ := h
  have hnew : new = words := List.append_cancel_left (h1.symm.trans hw)
  rw [h2, hnew]
  simp

/-- The state a transfer hands to `complete`: its logs of outputs and stores are
those of the trigger followed by the output words of the transfer. -/
theorem transfer_words_log (s : Blitter) :
    (if s.line_mode_ then line_transfer { s with not_zero_flag_ := false }
      else copy_transfer { s with not_zero_flag_ := false }).outputs =
      s.outputs ++ transfer_words s ∧
    ((s.line_mode_ = true ∨ s.channel_enables_3 = true) →
      ((if s.line_mode_ then line_transfer { s with not_zero_flag_ := false }
        else copy_transfer { s with not_zero_flag_ := false }).writes).map Prod.snd =
        s.writes.map Prod.snd ++ transfer_words s) ∧
    (s.line_mode_ = false → (transfer_words s).length = s.width_ * s.height_) ∧
    (s.line_mode_ = true → s.one_dot_ = false → (transfer_words s).length = s.height_) := by
  by_cases hl : s.line_mode_ = true
  · have hS : (if s.line_mode_ then line_transfer { s with not_zero_flag_ := false }
        else copy_transfer { s with not_zero_flag_ := false }) =
        (line_after s.height_ s.height_ (line_start s)).1 := by
      rw [if_pos hl, line_after_all]
      rfl
    have hW : transfer_words s = line_words s s.height_ := if_pos hl
    obtain ⟨hout, hwr⟩ := line_after_words s s.height_ (Nat.le_refl _)
    rw [hS, hW]
    refine ⟨hout, fun _ => hwr, ?_, fun _ ho => line_words_length s ho _ (Nat.le_refl _)⟩
    intro hc
    rw [hc] at hl
    exact absurd hl (by decide)
  · have hS : (if s.line_mode_ then line_transfer { s with not_zero_flag_ := false }
        else copy_transfer { s with not_zero_flag_ := false }) =
        (List.range s.height_).foldl (fun st _ => copy_row st)
          { s with not_zero_flag_ := false, a32_ := 0, b32_ := 0 } := by
      rw [if_neg hl]
      rfl
    have hW : transfer_words s =
        copy_words s.height_ { s with not_zero_flag_ := false, a32_ := 0, b32_ := 0 } := if_neg hl
    obtain ⟨hout, hlen, hwr⟩ :=
      copy_rows_words s.height_ { s with not_zero_flag_ := false, a32_ := 0, b32_ := 0 }
    rw [hS, hW]
    refine ⟨hout, ?_, fun _ => hlen, fun h => absurd h hl⟩
    rintro (h | h)
    · exact absurd h hl
    · exact hwr h

/-- C3. Zero-result status: a trigger from a state with `height_` nonzero (the
assertion of line mode holding) completes, and afterwards bit 13 of
`get_status` is set if and only if every output word computed during that
transfer was zero. The output words are, in copy mode, the word of every column
of every row as it leaves the minterm evaluator and the fill post-processing,
`width_ * height_` of them whether or not channel D is enabled, and in line mode
the word of every pass that draws (all `height_` passes when `one_dot_` is
clear); they are what the transfer adds to the log of the words merged into the
not-zero flag, and, in line mode or with channel D enabled, the words it stores.
The outcome of the trigger does not depend on the not-zero flag it started
with. -/
theorem zero_result_status (s : Blitter) (hh : s.height_ ≠ 0)
    (hb : s.line_mode_ = true → s.b_data_ = 0xffff) :
    ∃ t, advance_dma s = some (true, t) ∧
      (get_status t &&& 0x2000 ≠ 0 ↔ ∀ w ∈ transfer_words s, w = 0) ∧
      t.outputs = s.outputs ++ transfer_words s ∧
      ((s.line_mode_ = true ∨ s.channel_enables_3 = true) →
        t.writes.map Prod.snd = s.writes.map Prod.snd ++ transfer_words s) ∧
      (s.line_mode_ = false → (transfer_words s).length = s.width_ * s.height_) ∧
      (s.line_mode_ = true → s.one_dot_ = false → (transfer_words s).length = s.height_) ∧
      ∀ b, advance_dma { s with not_zero_flag_ := b } = advance_dma s := by
  have hstart : flag_tracks s.outputs { s with not_zero_flag_ := false } := ⟨[], by simp, rfl⟩
  have htrack : flag_tracks s.outputs
      (if s.line_mode_ then line_transfer { s with not_zero_flag_ := false }
       else copy_transfer { s with not_zero_flag_ := false }) := by
    split_ifs
    · exact line_loop_flag_tracks _ _ _ hstart
    · exact copy_transfer_flag_tracks _ _ hstart
  obtain ⟨hout, hwr, hlen, hline⟩ := transfer_words_log s
  refine ⟨_, advance_dma_running s hh hb, ?_, hout, hwr, hlen, hline, ?_⟩
  · rw [get_status_zero]
    exact flag_tracks_words s.outputs (transfer_words s) _ htrack hout
  · intro b
    rw [advance_dma_running s hh hb]
    exact advance_dma_running { s with not_zero_flag_ := b } hh hb

/-- Witness of C3: the exclusive-fill row of two words, whose output words after
the fill are `0x8000` and `0x000f`, so that bit 13 is clear after it. -/
theorem zero_result_status_witness :
    (fill_example.height_ ≠ 0 ∧ transfer_words fill_example = [0x8000, 0x000f]) ∧
    ∃ t, advance_dma fill_example = some (true, t) ∧
      (get_status t &&& 0x2000 ≠ 0 ↔ ∀ w ∈ transfer_words fill_example, w = 0) ∧
      t.outputs = fill_example.outputs ++ transfer_words fill_example ∧
      ((fill_example.line_mode_ = true ∨ fill_example.channel_enables_3 = true) →
        t.writes.map Prod.snd = fill_example.writes.map Prod.snd ++ transfer_words fill_example) ∧
      (fill_example.line_mode_ = false →
        (transfer_words fill_example).length = fill_example.width_ * fill_example.height_) ∧
      (fill_example.line_mode_ = true → fill_example.one_dot_ = false →
        (transfer_words fill_example).length = fill_example.height_) ∧
      ∀ b, advance_dma { fill_example with not_zero_flag_ := b } = advance_dma fill_example :=
  ⟨by decide, zero_result_status fill_example (by decide) (by decide)⟩

end Amiga
